import Mathlib

/-!
Request tracking server: status lifecycle, fallback store and query adapter.

A shallow embedding of `src/server.js` (Express handlers over a command-line
SQLite adapter with an in-memory fallback store) and of the date-range functions
of `src/js/dashboard-final.js`, together with theorems about the
status-transition handler, request creation, registration and login, the
analytics and trends figures, textual SQL parameter substitution, the
expansion of date ranges, the recent-activity listing, the user-status handler,
the reading of `SELECT` output and the e-mail pattern.

Conventions of the embedding.

* A JavaScript string is a Lean `String`; functions that inspect characters work
  on its `List Char`.  Lone UTF-16 surrogates are not representable.
* A JavaScript number is a `JsNum`: `NaN`, an infinity, or an exact decimal
  `± mant · 10 ^ exp`.  Rounding to binary64 is modelled where the code divides:
  the percentage expressions go through `Dbl`, a significand of 53 bits with a
  binary exponent, rounded to nearest with ties to even.
* A value of a request body is a `JsVal`.  Arrays and objects are represented by
  `JsVal.other`, which records only what `ToString` gives for them (`none` when
  the conversion raises a `TypeError`).
* The clock, the UUID generator and the outcome of each query sent to the
  `sqlite3` process are inputs of the handlers.
* A `Date` is its time value in milliseconds (`none` for an invalid date).  The
  time zone of the browser and the points on which engines differ when parsing a
  date string are inputs of the date functions (`DateEnv`).  The loop over the
  days of a range is run on a bound of tests computed from its two ends; the
  bound is shown to suffice in every time zone in which a step of one local day
  moves the instant forward.
* `Array.prototype.sort` is a stable sort; a comparator result of `NaN` counts
  as 0.  The order of the store is part of the state.
* A regular expression is matched by derivatives; the matcher is shown to decide
  the language of the expression.
-/

namespace RequestHtml

/-! ## JavaScript values -/

/-- A JavaScript number: `NaN`, `±Infinity`, or the exact decimal `± mant · 10 ^ exp`. -/
inductive JsNum where
  | nan
  | inf (neg : Bool)
  | fin (neg : Bool) (mant : Nat) (exp : Int)
  deriving DecidableEq, Repr

/-- A value found in a parsed request body. `other` stands for an array or an
object and carries the result of `ToString` on it (`none`: it raises). -/
inductive JsVal where
  | undefined
  | null
  | bool (b : Bool)
  | num (x : JsNum)
  | str (s : String)
  | other (toStr : Option String)
  deriving DecidableEq, Repr

/-- The non-negative integer `n` as a JavaScript number. -/
def JsNum.ofNat (n : Nat) : JsNum := .fin false n 0

/-- Tests whether the number denotes zero (`+0` or `-0`). -/
def JsNum.isZero : JsNum → Bool
  | .fin _ m _ => m == 0
  | _ => false

/-- Numeric equality of a JavaScript number with a non-negative integer. -/
def JsNum.eqNat : JsNum → Nat → Bool
  | .fin neg m e, n =>
      if m == 0 then n == 0
      else if neg then false
      else if 0 ≤ e then m * 10 ^ e.toNat == n
      else m == n * 10 ^ (-e).toNat
  | _, _ => false

/-- JavaScript truthiness (`ToBoolean`). -/
def truthy : JsVal → Bool
  | .undefined => false
  | .null => false
  | .bool b => b
  | .num x => !(x.isZero || x == .nan)
  | .str s => s.data != []
  | .other _ => true

/-- The `typeof v === 'string'` test. -/
def isString : JsVal → Bool
  | .str _ => true
  | _ => false

/-- The characters matched by `\s` and stripped by `trim`: WhiteSpace and
LineTerminator code points. -/
def isJsWhitespace (c : Char) : Bool :=
  let n := c.toNat
  n == 0x09 || n == 0x0A || n == 0x0B || n == 0x0C || n == 0x0D || n == 0x20 ||
  n == 0xA0 || n == 0x1680 || (0x2000 ≤ n && n ≤ 0x200A) || n == 0x2028 ||
  n == 0x2029 || n == 0x202F || n == 0x205F || n == 0x3000 || n == 0xFEFF

/-- Decimal digits of a natural number, most significant first. -/
def natDigits (n : Nat) : List Char := (Nat.repr n).data

/-- Drops trailing zeros of a digit list. -/
def dropTrailingZeros (ds : List Char) : List Char :=
  (ds.reverse.dropWhile (· == '0')).reverse

/-- Renders the magnitude `mant · 10 ^ exp` in plain decimal notation, which is
what `Number.prototype.toString` prints for magnitudes in `[1e-6, 1e21)` with at
most 15 significant digits. -/
def renderMagnitude (mant : Nat) (exp : Int) : List Char :=
  if 0 ≤ exp then natDigits (mant * 10 ^ exp.toNat)
  else
    let k := (-exp).toNat
    let ip := mant / 10 ^ k
    let fp := mant % 10 ^ k
    let fd := natDigits fp
    let frac := dropTrailingZeros (List.replicate (k - fd.length) '0' ++ fd)
    if frac == [] then natDigits ip else natDigits ip ++ '.' :: frac

/-- The `Number.prototype.toString()` text of a number, in plain decimal
notation.  The exponent notation that the language uses for magnitudes from
`1e21` and below `1e-6` is outside the model. -/
def JsNum.toJsString : JsNum → String
  | .nan => "NaN"
  | .inf false => "Infinity"
  | .inf true => "-Infinity"
  | .fin neg m e =>
      if m == 0 then "0"
      else String.mk ((if neg then ['-'] else []) ++ renderMagnitude m e)

/-- The `ToString` conversion (also `value.toString()`); `none` when it raises. -/
def jsToString : JsVal → Option String
  | .undefined => some "undefined"
  | .null => some "null"
  | .bool true => some "true"
  | .bool false => some "false"
  | .num x => some x.toJsString
  | .str s => some s
  | .other t => t

/-! ## `String.prototype.replace` with a string pattern -/

/-- Splits a text at the first occurrence of the character `c`. -/
def splitAtFirst (c : Char) : List Char → Option (List Char × List Char)
  | [] => none
  | x :: xs =>
      if x == c then some ([], xs)
      else (splitAtFirst c xs).map fun p => (x :: p.1, p.2)

/-- The `GetSubstitution` operation for a string pattern (no captures): expands
`$$`, `$&`, the dollar-backtick and dollar-apostrophe forms in the replacement
text; every other character, a `$` digit form included, stands for itself. -/
def getSubstitution (matched pre post : List Char) : List Char → List Char
  | [] => []
  | [c] => [c]
  | c :: d :: rest =>
      if c == '$' then
        if d == '$' then '$' :: getSubstitution matched pre post rest
        else if d == '&' then matched ++ getSubstitution matched pre post rest
        else if d == Char.ofNat 96 then pre ++ getSubstitution matched pre post rest
        else if d == Char.ofNat 39 then post ++ getSubstitution matched pre post rest
        else c :: getSubstitution matched pre post (d :: rest)
      else c :: getSubstitution matched pre post (d :: rest)

/-- The call `text.replace('?', replacement)`: the first `?` is replaced by the
expanded replacement, and a text without `?` is returned as it is. -/
def replaceFirstPlaceholder (text replacement : List Char) : List Char :=
  match splitAtFirst '?' text with
  | none => text
  | some (pre, post) => pre ++ getSubstitution ['?'] pre post replacement ++ post

/-- The call `param.replace(/'/g, "''")`: every single quote is doubled. -/
def doubleQuotes : List Char → List Char
  | [] => []
  | c :: cs =>
      if c == Char.ofNat 39 then Char.ofNat 39 :: Char.ofNat 39 :: doubleQuotes cs
      else c :: doubleQuotes cs

/-! ## `executeQuery`: textual parameter substitution -/

/-- The text `executeQuery` substitutes for one parameter: a quoted literal for
a string, `NULL` for `null` and `undefined`, `param.toString()` otherwise
(`none` when that call raises). -/
def renderParam : JsVal → Option (List Char)
  | .str s => some (Char.ofNat 39 :: doubleQuotes s.data ++ [Char.ofNat 39])
  | .null => some "NULL".data
  | .undefined => some "NULL".data
  | v => (jsToString v).map String.data

/-- The `params.forEach` loop of `executeQuery`: each parameter in turn replaces
the first `?` of the text built so far. -/
def substituteParams : List Char → List JsVal → Option (List Char)
  | sql, [] => some sql
  | sql, p :: ps =>
      match renderParam p with
      | none => none
      | some r => substituteParams (replaceFirstPlaceholder sql r) ps

/-- The `processedSql` text that `executeQuery(sql, params)` sends to SQLite. -/
def processedSql (sql : String) (params : List JsVal) : Option String :=
  (substituteParams sql.data params).map String.mk

/-- Spec-side substitution: one pass over the template in which the i-th `?`
is replaced by the given text of the i-th parameter. -/
def fillPlaceholders : List Char → List (List Char) → List Char
  | [], _ => []
  | c :: cs, [] => c :: cs
  | c :: cs, r :: rs =>
      if c == '?' then r ++ fillPlaceholders cs rs else c :: fillPlaceholders cs (r :: rs)

/-- Spec-side rendering of a scalar parameter: quoted string with doubled
quotes, decimal text of a number, `NULL` for null and undefined.  The sentence
is silent on other values; they are rendered by their `toString` text. -/
def specRender : JsVal → List Char
  | .str s => Char.ofNat 39 :: doubleQuotes s.data ++ [Char.ofNat 39]
  | .num x => x.toJsString.data
  | .null => "NULL".data
  | .undefined => "NULL".data
  | v => ((jsToString v).getD "").data

/-- Spec-side `processedSql`: the template with the i-th placeholder replaced by
the rendering of the i-th parameter. -/
def specProcessedSql (sql : String) (params : List JsVal) : String :=
  String.mk (fillPlaceholders sql.data (params.map specRender))

/-! ## String helpers -/

/-- The call `str.trim()` on the characters of a string. -/
def jsTrim (cs : List Char) : List Char :=
  ((cs.dropWhile isJsWhitespace).reverse.dropWhile isJsWhitespace).reverse

/-- The `length` of a string: its number of UTF-16 code units. -/
def jsLength (s : String) : Nat :=
  (s.data.map fun c => if c.toNat < 0x10000 then 1 else 2).sum

/-- Lower-cases the letters `A`-`Z`.  `toLowerCase` also maps letters outside
ASCII, none of them to a letter of `submitted`, `processing`, `failed` or
`completed`, so membership of the result in that list is decided alike. -/
def jsToLowerCase (s : String) : String := String.mk (s.data.map Char.toLower)

/-- Upper-cases the letters `a`-`z` (what `toUpperCase` does on hexadecimal text). -/
def jsToUpperCase (s : String) : String := String.mk (s.data.map Char.toUpper)

/-- Case-insensitive (ASCII) test that `pat`, given in lower case, starts `cs`. -/
def ciPrefix : List Char → List Char → Bool
  | [], _ => true
  | _ :: _, [] => false
  | p :: ps, c :: cs => (c.toLower == p) && ciPrefix ps cs

/-! ## Regular expressions (for `validateEmail`) -/

/-- Regular expressions over characters, matched by derivatives. -/
inductive Re where
  | none
  | eps
  | cls (p : Char → Bool)
  | seq (a b : Re)
  | alt (a b : Re)
  | star (a : Re)

/-- Whether the expression matches the empty text. -/
def Re.nullable : Re → Bool
  | .none => false
  | .eps => true
  | .cls _ => false
  | .seq a b => a.nullable && b.nullable
  | .alt a b => a.nullable || b.nullable
  | .star _ => true

/-- The derivative of an expression by one character. -/
def Re.deriv (c : Char) : Re → Re
  | .none => .none
  | .eps => .none
  | .cls p => if p c then .eps else .none
  | .seq a b =>
      if a.nullable then .alt (.seq (a.deriv c) b) (b.deriv c) else .seq (a.deriv c) b
  | .alt a b => .alt (a.deriv c) (b.deriv c)
  | .star a => .seq (a.deriv c) (.star a)

/-- Whether the expression matches the whole text (`^...$`). -/
def Re.fullMatch : Re → List Char → Bool
  | r, [] => r.nullable
  | r, c :: cs => (r.deriv c).fullMatch cs

/-- One or more repetitions. -/
def Re.plus (a : Re) : Re := .seq a (.star a)

/-- The class `[^\s@]`. -/
def notSpaceNorAt (c : Char) : Bool := !(isJsWhitespace c || c == '@')

/-- The pattern `^[^\s@]+@[^\s@]+\.[^\s@]+$` of `validateEmail`. -/
def emailRegex : Re :=
  .seq (Re.plus (.cls notSpaceNorAt))
    (.seq (.cls (· == '@'))
      (.seq (Re.plus (.cls notSpaceNorAt))
        (.seq (.cls (· == '.')) (Re.plus (.cls notSpaceNorAt)))))

/-! ## Input validation utilities -/

/-- The function `validateEmail`: `emailRegex.test(email)`, which converts its
argument to a string first (`none` when that conversion raises). -/
def validateEmail (email : JsVal) : Option Bool :=
  (jsToString email).map fun s => emailRegex.fullMatch s.data

/-- The function `validateString(str, minLength, maxLength)`. -/
def validateString (v : JsVal) (minLength maxLength : Nat) : Bool :=
  match v with
  | .str s => decide (minLength ≤ jsLength s) && decide (jsLength s ≤ maxLength)
  | _ => false

/-- The `\b` after `<script`: the next character is not a word character. -/
def wordBoundaryAfterWord : List Char → Bool
  | [] => true
  | c :: _ => !(c.isAlphanum || c == '_')

/-- Offset just behind the first `</script>` (any letter case) in the text. -/
def closeTagEnd : List Char → Option Nat
  | [] => none
  | c :: cs =>
      if ciPrefix "</script>".data (c :: cs) then some 9
      else (closeTagEnd cs).map (· + 1)

/-- Length of the match of
`/<script\b[^<]*(?:(?!<\/script>)<[^<]*)*<\/script>/i` that starts at the head
of the text, if there is one: `<script`, a word boundary, and everything up to
and including the first `</script>`. -/
def scriptMatchLength (cs : List Char) : Option Nat :=
  if ciPrefix "<script".data cs && wordBoundaryAfterWord (cs.drop 7) then
    (closeTagEnd (cs.drop 7)).map (· + 7)
  else none

/-- The global replace of the script pattern by the empty string; `skip` counts
the characters of the current match that are still to be dropped. -/
def removeScriptsAux : Nat → List Char → List Char
  | _, [] => []
  | skip + 1, _ :: cs => removeScriptsAux skip cs
  | 0, c :: cs =>
      match scriptMatchLength (c :: cs) with
      | some len => removeScriptsAux (len - 1) cs
      | Option.none => c :: removeScriptsAux 0 cs

/-- The function `sanitizeString`: a non-string is returned as it is, a string is
trimmed and stripped of its script blocks. -/
def sanitizeString : JsVal → JsVal
  | .str s => .str (String.mk (removeScriptsAux 0 (jsTrim s.data)))
  | v => v

/-- The first `-`-separated group of a text (`split('-')[0]`). -/
def firstDashGroup (cs : List Char) : List Char := cs.takeWhile (· != '-')

/-- The function `generateRequestId`, given the value of `Date.now()` and the
text returned by `uuidv4()`. -/
def generateRequestId (timestamp : Nat) (uuid : String) : String :=
  "REQ" ++ Nat.repr timestamp ++ jsToUpperCase (String.mk (firstDashGroup uuid.data))

/-! ## Number parsing: `parseFloat`, `parseInt` and `ToNumber` on strings -/

/-- Value of a digit in the given radix (at most 16), if the character is one. -/
def digitValue (radix : Nat) (c : Char) : Option Nat :=
  let n := c.toNat
  let v :=
    if 48 ≤ n && n ≤ 57 then n - 48
    else if 97 ≤ n && n ≤ 102 then n - 87
    else if 65 ≤ n && n ≤ 70 then n - 55
    else 16
  if v < radix then some v else none

/-- The longest run of digits of the radix at the head of a text, and the rest. -/
def spanDigits (radix : Nat) (cs : List Char) : List Char × List Char :=
  cs.span fun c => (digitValue radix c).isSome

/-- The number written by a run of digits in the given radix. -/
def digitsToNat (radix : Nat) (ds : List Char) : Nat :=
  ds.foldl (fun acc c => radix * acc + (digitValue radix c).getD 0) 0

/-- An optional `ExponentPart` (`e` or `E`, optional sign, digits) at the head of
a text: its value and the rest; the text itself, with exponent 0, when there is
no complete exponent part. -/
def parseExponent (cs : List Char) : Int × List Char :=
  match cs with
  | [] => (0, [])
  | e :: rest =>
      if e == 'e' || e == 'E' then
        let signed : Bool × List Char :=
          match rest with
          | '+' :: r => (false, r)
          | '-' :: r => (true, r)
          | r => (false, r)
        let ds := spanDigits 10 signed.2
        if ds.1 == [] then (0, cs)
        else ((if signed.1 then -(digitsToNat 10 ds.1 : Int) else (digitsToNat 10 ds.1 : Int)), ds.2)
      else (0, cs)

/-- The longest `StrUnsignedDecimalLiteral` (other than `Infinity`) at the head
of a text: mantissa, decimal exponent and the rest. -/
def parseUnsignedDecimal (cs : List Char) : Option (Nat × Int × List Char) :=
  let ip := spanDigits 10 cs
  let fp : List Char × List Char :=
    match ip.2 with
    | '.' :: r => if ip.1 == [] && (spanDigits 10 r).1 == [] then ([], ip.2) else spanDigits 10 r
    | r => ([], r)
  if ip.1 == [] && fp.1 == [] then Option.none
  else
    let ex := parseExponent fp.2
    some (digitsToNat 10 (ip.1 ++ fp.1), ex.1 - (fp.1.length : Int), ex.2)

/-- The longest `StrDecimalLiteral` at the head of a text: its value and the rest. -/
def parseDecimalPrefix (cs : List Char) : Option (JsNum × List Char) :=
  let signed : Bool × List Char :=
    match cs with
    | '+' :: r => (false, r)
    | '-' :: r => (true, r)
    | r => (false, r)
  if "Infinity".data.isPrefixOf signed.2 then some (.inf signed.1, signed.2.drop 8)
  else (parseUnsignedDecimal signed.2).map fun t => (.fin signed.1 t.1 t.2.1, t.2.2)

/-- The global `parseFloat` on a text. -/
def parseFloatText (s : String) : JsNum :=
  match parseDecimalPrefix (s.data.dropWhile isJsWhitespace) with
  | some (x, _) => x
  | Option.none => .nan

/-- The global `parseInt` (no radix argument) on a text. -/
def parseIntText (s : String) : JsNum :=
  let t := s.data.dropWhile isJsWhitespace
  let signed : Bool × List Char :=
    match t with
    | '+' :: r => (false, r)
    | '-' :: r => (true, r)
    | r => (false, r)
  let body : Nat × List Char :=
    match signed.2 with
    | '0' :: 'x' :: r => (16, r)
    | '0' :: 'X' :: r => (16, r)
    | r => (10, r)
  let ds := (spanDigits body.1 body.2).1
  if ds == [] then .nan else .fin signed.1 (digitsToNat body.1 ds) 0

/-- The call `parseFloat(v)`; `none` when converting `v` to a string raises.
The result is the exact decimal value of the text read; the rounding of that
value to binary64 is outside the model. -/
def jsParseFloat (v : JsVal) : Option JsNum := (jsToString v).map parseFloatText

/-- The call `parseInt(v)`; `none` when converting `v` to a string raises.
A number is read from its plain decimal text (see `JsNum.toJsString`); the
rounding of the result to binary64 is outside the model. -/
def jsParseInt (v : JsVal) : Option JsNum := (jsToString v).map parseIntText

/-- A `NonDecimalIntegerLiteral` (`0x`, `0o`, `0b` and digits) spanning the whole text. -/
def parseNonDecimal (cs : List Char) : Option Nat :=
  let go (radix : Nat) (r : List Char) : Option Nat :=
    if r != [] && r.all (fun c => (digitValue radix c).isSome) then some (digitsToNat radix r)
    else Option.none
  match cs with
  | '0' :: 'x' :: r => go 16 r
  | '0' :: 'X' :: r => go 16 r
  | '0' :: 'o' :: r => go 8 r
  | '0' :: 'O' :: r => go 8 r
  | '0' :: 'b' :: r => go 2 r
  | '0' :: 'B' :: r => go 2 r
  | _ => Option.none

/-- The `StringToNumber` conversion: blank text is 0, a numeric literal spanning
the trimmed text is its value, anything else is `NaN`. -/
def stringToNumber (s : String) : JsNum :=
  let t := jsTrim s.data
  if t == [] then .fin false 0 0
  else
    match parseNonDecimal t with
    | some n => .fin false n 0
    | Option.none =>
        match parseDecimalPrefix t with
        | some (x, []) => x
        | _ => .nan

/-- The comparison `n == s` of a number that is a non-negative integer with a
string: the string is converted by `StringToNumber` and the values compared.
The converted value is the exact decimal value of the text: a text whose value
only rounds to `n` in binary64 is equal to `n` in the language and not here. -/
def looseEqNatStr (n : Nat) (s : String) : Bool := (stringToNumber s).eqNat n

/-! ## The fallback store (`memoryCache`) -/

/-- A user record of the fallback store. -/
structure User where
  id : Nat
  name : JsVal
  username : JsVal
  email : JsVal
  password : JsVal
  team : JsVal
  description : JsVal
  status : String
  isAdmin : Nat
  created_at : Option String
  updated_at : Option String
  deriving DecidableEq, Repr

/-- A request record of the fallback store.  `status` is a string wherever a
handler writes it; fields that are copied from a request body keep its values. -/
structure Request where
  id : Nat
  request_id : String
  requestor_name : JsVal
  requestor_email : JsVal
  cc_email : JsVal
  team_name : JsVal
  category_name : JsVal
  request_dates : JsVal
  acct_number : JsVal
  request_name : JsVal
  currency : JsVal
  amount : JsNum
  adjustment : JsNum
  description : JsVal
  status : String
  user_id : JsNum
  request_datetime : Option String
  created_at : String
  updated_at : Option String
  admin_comments : Option JsVal
  deriving DecidableEq, Repr

/-- The variable `memoryCache`. -/
structure MemoryCache where
  users : List User
  requests : List Request
  initialized : Bool
  deriving DecidableEq, Repr

/-- The initial value of `memoryCache`. -/
def emptyCache : MemoryCache := { users := [], requests := [], initialized := false }

/-- The users installed by `initializeFallbackData`. -/
def seedUsers : List User :=
  [ { id := 1, name := .str "Administrator", username := .str "admin",
      email := .str "admin@system.com", password := .str "admin123",
      team := .str "Administration", description := .str "System Administrator",
      status := "approved", isAdmin := 1, created_at := none, updated_at := none },
    { id := 2, name := .str "Alice Johnson", username := .str "alice.johnson",
      email := .str "alice@company.com", password := .str "password123",
      team := .str "Marketing Team", description := .str "Marketing Specialist",
      status := "approved", isAdmin := 0, created_at := none, updated_at := none } ]

/-- The request installed by `initializeFallbackData` at clock reading `now`. -/
def seedRequest (now : String) : Request :=
  { id := 1, request_id := "REQ20240101001",
    requestor_name := .str "Alice Johnson", requestor_email := .str "alice@company.com",
    cc_email := .str "marketing@company.com", team_name := .str "Marketing Team",
    category_name := .str "val1", request_dates := .str "2024-01-15,2024-01-16",
    acct_number := .str "ACC001", request_name := .str "Q1 Marketing Campaign",
    currency := .str "USD", amount := .fin false 15000 0, adjustment := .fin false 0 0,
    description := .str "Budget for Q1 digital marketing campaign",
    status := "submitted", user_id := .fin false 2 0,
    request_datetime := none, created_at := now, updated_at := none,
    admin_comments := none }

/-- The function `initializeFallbackData`; `now` is `new Date().toISOString()`. -/
def initializeFallbackData (now : String) (m : MemoryCache) : MemoryCache :=
  if m.initialized then m
  else { users := seedUsers, requests := [seedRequest now], initialized := true }

/-- The guard `if (!memoryCache.initialized) initializeFallbackData()`. -/
def ensureInitialized (now : String) (m : MemoryCache) : MemoryCache :=
  if !m.initialized then initializeFallbackData now m else m

/-! ## Server state, environment and responses -/

/-- One call `executeQuery(sql, params)`. -/
structure SqlCall where
  sql : String
  params : List JsVal
  deriving DecidableEq, Repr

/-- The state of the server process and of its database: whether `sqliteCommand`
is set, the flag `isDbConnected`, the fallback store, and the statements the
`sqlite3` process has run to completion, oldest first. -/
structure World where
  sqliteFound : Bool
  isDbConnected : Bool
  memoryCache : MemoryCache
  executed : List SqlCall
  deriving DecidableEq, Repr

/-- The test `isDbConnected && sqliteCommand`. -/
def World.primary (w : World) : Bool := w.isDbConnected && w.sqliteFound

/-- What one handler invocation reads from outside: the result of its k-th
query (`none`: the promise is rejected; otherwise the rows parsed from the
output), the text of `new Date().toISOString()` at its k-th site, the value of
`Date.now()` and the text returned by `uuidv4()`. -/
structure Env where
  queryResult : Nat → Option (List (List (Option String)))
  isoNow : Nat → String
  dateNow : Nat
  uuid : String

/-- An HTTP response: status code and the fields of the JSON body. -/
structure Response where
  status : Nat
  body : List (String × JsVal)
  deriving DecidableEq, Repr

/-- How a handler invocation ends: it has sent a response, or its promise is
rejected by an exception raised outside every `try` and nothing has been sent. -/
inductive Outcome where
  | sent (r : Response)
  | uncaught
  deriving DecidableEq, Repr

/-- The status code of the response that was sent, if any. -/
def Outcome.code : Outcome → Option Nat
  | .sent r => some r.status
  | .uncaught => none

/-- The function `executeQuery` as seen by a handler: rejected when
`sqliteCommand` is unset, when rendering a parameter raises, or when the
process fails or times out; otherwise the statement has run and the rows are
returned. -/
def executeQuery (result : Option (List (List (Option String)))) (w : World)
    (sql : String) (params : List JsVal) : Option (List (List (Option String)) × World) :=
  if !w.sqliteFound then none
  else
    match processedSql sql params with
    | none => none
    | some _ =>
        match result with
        | none => none
        | some rows => some (rows, { w with executed := w.executed ++ [⟨sql, params⟩] })

/-- The template `historyQuery` of `logStatusHistory`. -/
def historyQuery : String :=
  "INSERT INTO request_status_history (request_id, old_status, new_status, changed_by, change_datetime, notes) VALUES (?, ?, ?, ?, datetime('now'), ?)"

/-- The function `logStatusHistory`: one insert when the primary backend is in
use, whose failure is caught. -/
def logStatusHistory (result : Option (List (List (Option String)))) (w : World)
    (requestId : String) (oldStatus : JsVal) (newStatus : String) (changedBy notes : JsVal) :
    World :=
  if w.primary then
    match executeQuery result w historyQuery
        [.str requestId, oldStatus, .str newStatus, changedBy, notes] with
    | some (_, w1) => w1
    | none => w
  else w

/-- The function `syncDatabase`. -/
def syncDatabase (result : Option (List (List (Option String)))) (w : World) : World :=
  if !w.sqliteFound || !w.isDbConnected then w
  else
    match executeQuery result w "PRAGMA synchronous = FULL" [] with
    | some (_, w1) => w1
    | none => w

/-- The ledger: the history inserts that have run, oldest first. -/
def ledger (w : World) : List SqlCall := w.executed.filter fun c => c.sql == historyQuery

/-- The ledger entries of one request (first parameter of the insert). -/
def ledgerOf (requestId : String) (w : World) : List SqlCall :=
  (ledger w).filter fun c => c.params.head? == some (.str requestId)

/-! ## `PUT /api/admin/requests/:id/status` -/

/-- The fields the first handler of the route reads from the request body. -/
structure StatusBody where
  status : JsVal
  admin_comments : JsVal
  deriving DecidableEq, Repr

/-- The array `validStatuses`. -/
def validStatuses : List String := ["submitted", "processing", "failed", "completed"]

/-- The method `Array.prototype.findIndex`; `none` stands for `-1`. -/
def findIndex {α : Type} (p : α → Bool) : List α → Option Nat
  | [] => none
  | x :: xs => if p x then some 0 else (findIndex p xs).map (· + 1)

/-- Applies `f` to the element at an index, as an in-place update of an array
element does. -/
def updateAt {α : Type} (f : α → α) : Nat → List α → List α
  | _, [] => []
  | 0, x :: xs => f x :: xs
  | n + 1, x :: xs => x :: updateAt f n xs

/-- The three assignments of the fallback branch to the addressed request. -/
def applyStatusOverride (status : String) (now : String) (adminComments : JsVal)
    (r : Request) : Request :=
  { r with
    status := status
    updated_at := some now
    admin_comments := if truthy adminComments then some adminComments else r.admin_comments }

/-- The JSON body of the success response of the first handler. -/
def overrideSuccessBody (status : String) (adminComments : JsVal) : List (String × JsVal) :=
  [("success", .bool true),
   ("message", .str ("Request status updated to " ++ status)),
   ("admin_comments", if truthy adminComments then adminComments else .null)]

/-- The variable `query` of the primary branch: the `UPDATE` statement, with the
`admin_comments` assignment when a comment is supplied. -/
def statusUpdateQuery (adminComments : JsVal) : String :=
  "UPDATE requests SET status = ?, updated_at = datetime('now')" ++
    (if truthy adminComments then ", admin_comments = ?" else "") ++ " WHERE id = ?"

/-- The variable `params` of the primary branch. -/
def statusUpdateParams (status : String) (adminComments : JsVal) (id : String) : List JsVal :=
  [JsVal.str status] ++ (if truthy adminComments then [adminComments] else []) ++ [JsVal.str id]

/-- The first handler registered for `PUT /api/admin/requests/:id/status`
("admin request status override").  Clock sites: 0 in `initializeFallbackData`,
1 for `updated_at`.  Query 0 is the `UPDATE`. -/
def putRequestStatusOverride (env : Env) (id : String) (body : StatusBody) (w : World) :
    Outcome × World :=
  if !truthy body.status then
    (.sent ⟨400, [("error", .str "Status is required")]⟩, w)
  else
    match body.status with
    | .str status =>
        if !validStatuses.contains (jsToLowerCase status) then
          (.sent ⟨400, [("error",
            .str "Invalid status. Must be one of: submitted, processing, failed, completed")]⟩, w)
        else if w.primary then
          match executeQuery (env.queryResult 0) w (statusUpdateQuery body.admin_comments)
              (statusUpdateParams status body.admin_comments id) with
          | some (_, w1) => (.sent ⟨200, overrideSuccessBody status body.admin_comments⟩, w1)
          | none => (.sent ⟨500, [("error", .str "Failed to update request status")]⟩, w)
        else
          let cache := ensureInitialized (env.isoNow 0) w.memoryCache
          match findIndex (fun r => looseEqNatStr r.id id) cache.requests with
          | none =>
              (.sent ⟨404, [("error", .str "Request not found")]⟩, { w with memoryCache := cache })
          | some i =>
              let requests :=
                updateAt (applyStatusOverride status (env.isoNow 1) body.admin_comments)
                  i cache.requests
              (.sent ⟨200, overrideSuccessBody status body.admin_comments⟩,
               { w with memoryCache := { cache with requests := requests } })
    | _ => (.uncaught, w)

/-- Dispatch of `PUT /api/admin/requests/:id/status`: Express runs the handlers
of a route in registration order, and the first one never passes control on, so
every such call is served by `putRequestStatusOverride`. -/
def putRequestStatusRoute (env : Env) (id : String) (body : StatusBody) (w : World) :
    Outcome × World :=
  putRequestStatusOverride env id body w

/-! ## `POST /api/requests` -/

/-- The fields the handler reads from the request body. -/
structure CreateBody where
  requestorName : JsVal
  requestorEmail : JsVal
  ccEmail : JsVal
  teamName : JsVal
  categoryName : JsVal
  requestDates : JsVal
  acctNumber : JsVal
  requestName : JsVal
  currency : JsVal
  amount : JsVal
  adjustment : JsVal
  description : JsVal
  userId : JsVal
  deriving DecidableEq, Repr

/-- The first validation test: some required field is falsy, or `adjustment` is
`undefined`. -/
def missingRequiredFields (b : CreateBody) : Bool :=
  !truthy b.requestorName || !truthy b.requestorEmail || !truthy b.teamName ||
  !truthy b.categoryName || !truthy b.requestDates || !truthy b.acctNumber ||
  !truthy b.requestName || !truthy b.currency || !truthy b.amount ||
  b.adjustment == .undefined

/-- The expression `userId ? parseInt(userId) : 2`. -/
def finalUserId (userId : JsVal) : Option JsNum :=
  if truthy userId then jsParseInt userId else some (.fin false 2 0)

/-- The expression `Math.max(0, ...requests.map(r => r.id)) + 1`. -/
def nextRequestId (requests : List Request) : Nat :=
  (requests.map (·.id)).foldl max 0 + 1

/-- The object `newRequest` of the fallback path; `none` when one of the
numeric conversions raises. -/
def newRequest (env : Env) (b : CreateBody) (requestId : String) (newId : Nat) :
    Option Request :=
  match finalUserId b.userId, jsParseFloat b.amount, jsParseInt b.adjustment with
  | some uid, some amount, some adjustment =>
      some
        { id := newId, request_id := requestId,
          requestor_name := sanitizeString b.requestorName,
          requestor_email := sanitizeString b.requestorEmail,
          cc_email := if truthy b.ccEmail then sanitizeString b.ccEmail else .null,
          team_name := sanitizeString b.teamName,
          category_name := sanitizeString b.categoryName,
          request_dates := sanitizeString b.requestDates,
          acct_number := sanitizeString b.acctNumber,
          request_name := sanitizeString b.requestName,
          currency := sanitizeString b.currency,
          amount := amount, adjustment := adjustment,
          description := if truthy b.description then sanitizeString b.description else .null,
          status := "submitted", user_id := uid,
          request_datetime := some (env.isoNow 1), created_at := env.isoNow 2,
          updated_at := none, admin_comments := none }
  | _, _, _ => none

/-- The template `insertQuery` of the handler. -/
def insertRequestQuery : String :=
  "INSERT INTO requests (request_id, requestor_name, requestor_email, cc_email, team_name, category_name, request_dates, acct_number, request_name, currency, amount, adjustment, description, status, user_id, request_datetime, created_at) VALUES (?, ?, ?, ?, ?, ?, ?, ?, ?, ?, ?, ?, ?, 'submitted', ?, datetime('now'), datetime('now'))"

/-- The parameter list of the insert; `none` when a numeric conversion raises. -/
def insertRequestParams (b : CreateBody) (requestId : String) : Option (List JsVal) :=
  match finalUserId b.userId, jsParseFloat b.amount, jsParseInt b.adjustment with
  | some uid, some amount, some adjustment =>
      some
        [.str requestId, sanitizeString b.requestorName, sanitizeString b.requestorEmail,
         if truthy b.ccEmail then sanitizeString b.ccEmail else .null,
         sanitizeString b.teamName, sanitizeString b.categoryName,
         sanitizeString b.requestDates, sanitizeString b.acctNumber,
         sanitizeString b.requestName, sanitizeString b.currency,
         .num amount, .num adjustment,
         if truthy b.description then sanitizeString b.description else .null,
         .num uid]
  | _, _, _ => none

/-- The JSON body of the 201 response. -/
def createdBody (requestId : String) : List (String × JsVal) :=
  [("success", .bool true), ("message", .str "Request created successfully"),
   ("requestId", .str requestId)]

/-- The fallback path of the handler ("add to memory cache"): the store is
seeded if it is not yet, and the new request is pushed.  An exception of a
numeric conversion is caught by the outer `try` (500).  Clock sites: 0 in
`initializeFallbackData`, 1 for `request_datetime`, 2 for `created_at`. -/
def createInFallback (env : Env) (b : CreateBody) (requestId : String) (w : World) :
    Outcome × World :=
  let cache := ensureInitialized (env.isoNow 0) w.memoryCache
  match newRequest env b requestId (nextRequestId cache.requests) with
  | none =>
      (.sent ⟨500, [("error", .str "Failed to create request")]⟩, { w with memoryCache := cache })
  | some r =>
      (.sent ⟨201, createdBody requestId⟩,
       { w with memoryCache := { cache with requests := cache.requests ++ [r] } })

/-- The handler of `POST /api/requests`.  Queries: 0 the insert, 1 the history
insert of `logStatusHistory`, 2 the pragma of `syncDatabase`.  A failure inside
the inner `try` (a conversion that raises, a rejected insert) seeds the
fallback store and falls through to the fallback path. -/
def postRequest (env : Env) (b : CreateBody) (w : World) : Outcome × World :=
  if missingRequiredFields b then
    (.sent ⟨400, [("error", .str "Missing required fields")]⟩, w)
  else if !validateString b.requestorName 1 100 then
    (.sent ⟨400, [("error", .str "Invalid requestor name")]⟩, w)
  else
    match validateEmail b.requestorEmail with
    | none => (.sent ⟨500, [("error", .str "Failed to create request")]⟩, w)
    | some false => (.sent ⟨400, [("error", .str "Invalid email format")]⟩, w)
    | some true =>
        let requestId := generateRequestId env.dateNow env.uuid
        if w.primary then
          match (insertRequestParams b requestId).bind
              (executeQuery (env.queryResult 0) w insertRequestQuery) with
          | some (_, w1) =>
              let w2 := logStatusHistory (env.queryResult 1) w1 requestId .null "submitted"
                (sanitizeString b.requestorName) (.str "Initial request submission")
              let w3 := syncDatabase (env.queryResult 2) w2
              (.sent ⟨201, createdBody requestId⟩, w3)
          | none =>
              createInFallback env b requestId
                { w with memoryCache := initializeFallbackData (env.isoNow 0) w.memoryCache }
        else createInFallback env b requestId w

/-! ## Sample inputs -/

/-- An environment in which every query succeeds with no rows. -/
def sampleEnv : Env :=
  { queryResult := fun _ => some []
    isoNow := fun _ => "2024-03-01T10:00:00.000Z"
    dateNow := 1709287200000
    uuid := "3f2a9c1e-7b4d-4e5f-8a6b-0c1d2e3f4a5b" }

/-- An environment in which every query is rejected. -/
def failingEnv : Env := { sampleEnv with queryResult := fun _ => none }

/-- A server running on the fallback store, already seeded. -/
def seededFallbackWorld : World :=
  { sqliteFound := false, isDbConnected := false,
    memoryCache := initializeFallbackData "2024-03-01T09:00:00.000Z" emptyCache,
    executed := [] }

/-- A server connected to the primary backend, with an untouched fallback store. -/
def primaryWorld : World :=
  { sqliteFound := true, isDbConnected := true, memoryCache := emptyCache, executed := [] }

/-- A complete, well-formed creation body. -/
def sampleCreateBody : CreateBody :=
  { requestorName := .str "Bob Lee", requestorEmail := .str "bob@company.com",
    ccEmail := .undefined, teamName := .str "Finance", categoryName := .str "val2",
    requestDates := .str "2024-03-04", acctNumber := .str "ACC777",
    requestName := .str "Audit", currency := .str "USD",
    amount := .num (.fin false 5000 0), adjustment := .num (.fin false 0 0),
    description := .undefined, userId := .num (.fin false 2 0) }

/-! ## Reachable stores and the shape of identifiers -/

/-- The fallback stores reachable from the seed by request creations and status
updates, whatever the backend flags of the server are. -/
inductive ReachableCache : MemoryCache → Prop where
  | seed (now : String) : ReachableCache (initializeFallbackData now emptyCache)
  | create (env : Env) (b : CreateBody) (w : World) :
      ReachableCache w.memoryCache → ReachableCache (postRequest env b w).2.memoryCache
  | transition (env : Env) (id : String) (body : StatusBody) (w : World) :
      ReachableCache w.memoryCache →
        ReachableCache (putRequestStatusRoute env id body w).2.memoryCache

/-- The digits `0`-`9` and the letters `a`-`f`. -/
def isLowerHex (c : Char) : Bool := "0123456789abcdef".data.contains c

/-- The digits `0`-`9` and the letters `A`-`F`. -/
def isUpperHex (c : Char) : Bool := "0123456789ABCDEF".data.contains c

/-- The layout of a version-4 UUID as `uuidv4()` prints it: `x` is a lower-case
hexadecimal digit, `y` one of `8`, `9`, `a`, `b`. -/
def uuidShape : String := "xxxxxxxx-xxxx-4xxx-yxxx-xxxxxxxxxxxx"

/-- Whether a text follows a layout of `x`, `y` and literal characters. -/
def matchesShape : List Char → List Char → Bool
  | [], [] => true
  | p :: ps, c :: cs =>
      (if p == 'x' then isLowerHex c
        else if p == 'y' then "89ab".data.contains c
        else c == p) && matchesShape ps cs
  | _, _ => false

/-- Whether a text is a version-4 UUID in the layout `uuidv4()` returns. -/
def isUuidV4 (s : String) : Bool := matchesShape uuidShape.data s.data

/-- An environment in which the first query of an invocation succeeds and every
later one is rejected. -/
def insertOnlyEnv : Env :=
  { sampleEnv with queryResult := fun k => if k = 0 then some [] else none }

/-! ## Strict equality and result rows -/

/-- Numeric equality of two JavaScript numbers (`NaN` equals nothing, the two
zeros are equal). -/
def JsNum.numEq : JsNum → JsNum → Bool
  | .inf a, .inf b => a == b
  | .fin n1 m1 e1, .fin n2 m2 e2 =>
      if m1 == 0 then m2 == 0
      else n1 == n2 && decide (m1 * 10 ^ (e1 - min e1 e2).toNat = m2 * 10 ^ (e2 - min e1 e2).toNat)
  | _, _ => false

/-- The comparison `a === b`.  Two values that stand for objects are never the
same object: one of them comes from the body or query of the current call. -/
def jsStrictEq : JsVal → JsVal → Bool
  | .undefined, .undefined => true
  | .null, .null => true
  | .bool a, .bool b => a == b
  | .num x, .num y => x.numEq y
  | .str a, .str b => a == b
  | _, _ => false

/-- The element `row[k]` of a result row: a string, `null` for an empty cell,
`undefined` past the end of the row. -/
def cellAt (row : List (Option String)) (k : Nat) : JsVal :=
  match row[k]? with
  | some (some s) => .str s
  | some none => .null
  | none => .undefined

/-- The call `parseInt(row[k])` on a cell, whose conversion to a string never raises. -/
def cellInt (row : List (Option String)) (k : Nat) : JsNum :=
  (jsParseInt (cellAt row k)).getD .nan

/-- The call `parseFloat(row[k])` on a cell. -/
def cellFloat (row : List (Option String)) (k : Nat) : JsNum :=
  (jsParseFloat (cellAt row k)).getD .nan

/-- The function `parseRows(rows, 'requests')`: each row becomes an object, here
the list of its fields in the order of the source. -/
def parseRows (rows : List (List (Option String))) : List (List (String × JsVal)) :=
  rows.map fun row =>
    [("id", .num (cellInt row 0)), ("request_id", cellAt row 1),
     ("requestor_name", cellAt row 2), ("requestor_email", cellAt row 3),
     ("cc_email", cellAt row 4), ("team_name", cellAt row 5),
     ("category_name", cellAt row 6), ("request_dates", cellAt row 7),
     ("acct_number", cellAt row 8), ("request_name", cellAt row 9),
     ("currency", cellAt row 10), ("amount", .num (cellFloat row 11)),
     ("adjustment", .num (cellInt row 12)), ("description", cellAt row 13),
     ("status", cellAt row 14), ("user_id", .num (cellInt row 15)),
     ("request_datetime", cellAt row 16), ("status_update_datetime", cellAt row 17),
     ("created_at", cellAt row 18), ("updated_at", cellAt row 19),
     ("failed_message", cellAt row 20), ("admin_comments", cellAt row 21)]

/-- The object returned by `parseUserRow(row)`. -/
structure UserRow where
  id : JsNum
  name : JsVal
  username : JsVal
  email : JsVal
  password : JsVal
  team : JsVal
  description : JsVal
  status : JsVal
  isAdmin : JsNum
  deriving DecidableEq, Repr

/-- The function `parseUserRow`. -/
def parseUserRow (row : List (Option String)) : UserRow :=
  { id := cellInt row 0, name := cellAt row 1, username := cellAt row 2,
    email := cellAt row 3, password := cellAt row 4, team := cellAt row 5,
    description := cellAt row 6, status := cellAt row 7, isAdmin := cellInt row 8 }

/-! ## `GET /api/requests` -/

/-- How `GET /api/requests` ends: a 200 answer whose `data` is the parsed rows of
the primary backend or the requests of the fallback store, or an error answer. -/
inductive RequestsOutcome where
  | parsed (data : List (List (String × JsVal)))
  | stored (data : List Request)
  | failed (status : Nat) (error : String)
  deriving DecidableEq, Repr

/-- The status code of the answer. -/
def RequestsOutcome.code : RequestsOutcome → Nat
  | .parsed _ => 200
  | .stored _ => 200
  | .failed status _ => status

/-- The method `Array.prototype.find`. -/
def jsFind {α : Type} (p : α → Bool) : List α → Option α
  | [] => none
  | x :: xs => if p x then some x else jsFind p xs

/-- The fallback answer of the handler (the same code in the `catch` block and
in fallback mode), on a store that has been seeded. -/
def fallbackRequests (cache : MemoryCache) (username : JsVal) (isAdmin : Bool) :
    RequestsOutcome :=
  if isAdmin then .stored cache.requests
  else
    .stored (cache.requests.filter fun r =>
      match jsFind (fun u => jsStrictEq u.username username) cache.users with
      | some user => r.user_id.eqNat user.id
      | none => false)

/-- The handler of `GET /api/requests`; `username` and `isAdminParam` are
`req.query.username` and `req.query.isAdmin`.  Queries: 0 the first `SELECT`, 1
the requests of the user.  Clock site 0 is in `initializeFallbackData`. -/
def getRequests (env : Env) (username isAdminParam : JsVal) (w : World) :
    RequestsOutcome × World :=
  let isAdmin := jsStrictEq isAdminParam (.str "true")
  if w.primary then
    if isAdmin then
      match executeQuery (env.queryResult 0) w
          "SELECT * FROM requests ORDER BY created_at DESC" [] with
      | some (rows, w1) => (.parsed (parseRows rows), w1)
      | none =>
          let cache := initializeFallbackData (env.isoNow 0) w.memoryCache
          (fallbackRequests cache username isAdmin, { w with memoryCache := cache })
    else if truthy username then
      match executeQuery (env.queryResult 0) w
          "SELECT id FROM users WHERE username = ?" [username] with
      | some (userRows, w1) =>
          match userRows with
          | [] => (.failed 404 "User not found", w1)
          | userRow :: _ =>
              match executeQuery (env.queryResult 1) w1
                  "SELECT * FROM requests WHERE user_id = ? ORDER BY created_at DESC"
                  [cellAt userRow 0] with
              | some (requestRows, w2) => (.parsed (parseRows requestRows), w2)
              | none =>
                  let cache := initializeFallbackData (env.isoNow 0) w1.memoryCache
                  (fallbackRequests cache username isAdmin, { w1 with memoryCache := cache })
      | none =>
          let cache := initializeFallbackData (env.isoNow 0) w.memoryCache
          (fallbackRequests cache username isAdmin, { w with memoryCache := cache })
    else (.failed 400 "Username is required for non-admin users", w)
  else
    let cache := initializeFallbackData (env.isoNow 0) w.memoryCache
    (fallbackRequests cache username isAdmin, { w with memoryCache := cache })

/-! ## `POST /api/auth/register` -/

/-- The fields the handler reads from the request body. -/
structure RegisterBody where
  name : JsVal
  username : JsVal
  email : JsVal
  password : JsVal
  team : JsVal
  description : JsVal
  deriving DecidableEq, Repr

/-- How a registration ends: the success answer with its `user` object
(`username`, `email`, `team` as sent, status `pending`), or an error answer. -/
inductive RegisterOutcome where
  | registered (username email team : JsVal)
  | failed (status : Nat) (error : String)
  deriving DecidableEq, Repr

/-- The status code of the answer. -/
def RegisterOutcome.code : RegisterOutcome → Nat
  | .registered _ _ _ => 200
  | .failed status _ => status

/-- The call `username.includes(' ')` on a value that has passed `validateString`. -/
def includesSpace : JsVal → Bool
  | .str s => s.data.contains ' '
  | _ => false

/-- The template `insertQuery` of the registration handler. -/
def insertUserQuery : String :=
  "INSERT INTO users (name, username, email, password, team, description, status, isAdmin, created_at, updated_at) VALUES (?, ?, ?, ?, ?, ?, 'pending', 0, datetime('now'), datetime('now'))"

/-- The expression `Math.max(0, ...users.map(u => u.id)) + 1`. -/
def nextUserId (users : List User) : Nat :=
  (users.map (·.id)).foldl max 0 + 1

/-- The object `newUser` of the fallback registration.  Clock sites: 1 for
`created_at`, 2 for `updated_at`. -/
def newUser (env : Env) (b : RegisterBody) (newId : Nat) : User :=
  { id := newId, name := sanitizeString b.name, username := sanitizeString b.username,
    email := sanitizeString b.email, password := b.password, team := sanitizeString b.team,
    description := if truthy b.description then sanitizeString b.description else .str "",
    status := "pending", isAdmin := 0,
    created_at := some (env.isoNow 1), updated_at := some (env.isoNow 2) }

/-- The fallback registration ("add to memory cache"): the store is seeded if it
is not yet, a user whose stored username equals the username sent is a conflict,
otherwise the new user is pushed. -/
def registerInFallback (env : Env) (b : RegisterBody) (w : World) : RegisterOutcome × World :=
  let cache := ensureInitialized (env.isoNow 0) w.memoryCache
  match jsFind (fun u => jsStrictEq u.username b.username) cache.users with
  | some _ => (.failed 409 "Username already exists", { w with memoryCache := cache })
  | none =>
      (.registered b.username b.email b.team,
       { w with memoryCache :=
          { cache with users := cache.users ++ [newUser env b (nextUserId cache.users)] } })

/-- The handler of `POST /api/auth/register`.  Queries: 0 the lookup of the
username, 1 the insert, 2 the pragma of `syncDatabase`. -/
def postRegister (env : Env) (b : RegisterBody) (w : World) : RegisterOutcome × World :=
  if !truthy b.name || !truthy b.username || !truthy b.email || !truthy b.password ||
      !truthy b.team then
    (.failed 400 "Name, username, email, password, and team are required", w)
  else if !validateString b.name 1 100 then (.failed 400 "Invalid name", w)
  else if !validateString b.username 1 50 || includesSpace b.username then
    (.failed 400 "Invalid username (no spaces allowed)", w)
  else
    match validateEmail b.email with
    | none => (.failed 500 "Registration error", w)
    | some false => (.failed 400 "Invalid email format", w)
    | some true =>
        if !validateString b.password 6 255 then
          (.failed 400 "Password must be 6-255 characters long", w)
        else if w.primary then
          match executeQuery (env.queryResult 0) w
              "SELECT username FROM users WHERE username = ?" [b.username] with
          | some (existingRows, w1) =>
              if existingRows.length > 0 then (.failed 409 "Username already exists", w1)
              else
                match executeQuery (env.queryResult 1) w1 insertUserQuery
                    [sanitizeString b.name, sanitizeString b.username, sanitizeString b.email,
                     b.password, sanitizeString b.team,
                     if truthy b.description then sanitizeString b.description else .str ""] with
                | some (_, w2) =>
                    (.registered b.username b.email b.team, syncDatabase (env.queryResult 2) w2)
                | none =>
                    registerInFallback env b
                      { w1 with memoryCache :=
                          initializeFallbackData (env.isoNow 0) w1.memoryCache }
          | none =>
              registerInFallback env b
                { w with memoryCache := initializeFallbackData (env.isoNow 0) w.memoryCache }
        else registerInFallback env b w

/-- The fallback stores reachable from the seed by registrations, whatever the
backend flags of the server are. -/
inductive ReachableByRegistration : MemoryCache → Prop where
  | seed (now : String) : ReachableByRegistration (initializeFallbackData now emptyCache)
  | register (env : Env) (b : RegisterBody) (w : World) :
      ReachableByRegistration w.memoryCache →
        ReachableByRegistration (postRegister env b w).2.memoryCache

/-! ## `POST /api/auth/login` -/

/-- The fields the handler reads from the request body. -/
structure LoginBody where
  username : JsVal
  password : JsVal
  deriving DecidableEq, Repr

/-- The `user` object of a successful login. -/
structure LoginProfile where
  id : JsNum
  name : JsVal
  username : JsVal
  email : JsVal
  team : JsVal
  isAdmin : Bool
  description : JsVal
  deriving DecidableEq, Repr

/-- How a login ends: success with the profile, an error answer, or the handler
returns without having sent anything. -/
inductive LoginOutcome where
  | success (user : LoginProfile)
  | failed (status : Nat) (error : String)
  | noAnswer
  deriving DecidableEq, Repr

/-- The text of the 403 answer for a pending account. -/
def pendingMessage : String :=
  "Your account is pending admin approval. Please wait for approval before logging in."

/-- The text of the 403 answer for a disabled account. -/
def disabledMessage : String :=
  "Your account has been disabled. Please contact an administrator."

/-- "Fallback authentication": the lookup in the fallback store, seeded if it is
not yet. -/
def loginInFallback (env : Env) (b : LoginBody) (w : World) : LoginOutcome × World :=
  let cache := ensureInitialized (env.isoNow 0) w.memoryCache
  let w1 := { w with memoryCache := cache }
  match jsFind (fun u => jsStrictEq u.username b.username) cache.users with
  | some user =>
      if jsStrictEq user.password b.password then
        if user.status == "approved" then
          (.success
            { id := JsNum.ofNat user.id, name := user.name, username := user.username,
              email := user.email, team := user.team, isAdmin := user.isAdmin == 1,
              description := user.description }, w1)
        else if user.status == "pending" then (.failed 403 pendingMessage, w1)
        else if user.status == "disabled" then (.failed 403 disabledMessage, w1)
        else (.noAnswer, w1)
      else (.failed 401 "Invalid username or password", w1)
  | none => (.failed 401 "Invalid username or password", w1)

/-- The handler of `POST /api/auth/login`.  Query 0 is the lookup of the user in
the primary backend; a row whose password or status does not lead to an answer
falls through to the fallback authentication. -/
def postLogin (env : Env) (b : LoginBody) (w : World) : LoginOutcome × World :=
  if !truthy b.username || !truthy b.password then
    (.failed 400 "Username and password are required", w)
  else if w.primary then
    match executeQuery (env.queryResult 0) w
        "SELECT * FROM users WHERE username = ?" [b.username] with
    | some (rows, w1) =>
        match rows with
        | row :: _ =>
            let userData := parseUserRow row
            if jsStrictEq userData.password b.password then
              if jsStrictEq userData.status (.str "approved") then
                (.success
                  { id := userData.id, name := userData.name, username := userData.username,
                    email := userData.email, team := userData.team,
                    isAdmin := userData.isAdmin.eqNat 1,
                    description := userData.description }, w1)
              else if jsStrictEq userData.status (.str "pending") then
                (.failed 403 pendingMessage, w1)
              else if jsStrictEq userData.status (.str "disabled") then
                (.failed 403 disabledMessage, w1)
              else loginInFallback env b w1
            else loginInFallback env b w1
        | [] => loginInFallback env b w1
    | none =>
        loginInFallback env b
          { w with memoryCache := initializeFallbackData (env.isoNow 0) w.memoryCache }
  else loginInFallback env b w

/-! ## Sample inputs for the account handlers -/

/-- A server connected to the primary backend whose fallback store is untouched
and in which the account `admin` carries a password other than the seeded one:
the row the lookup of `admin` returns. -/
def changedAdminRow : List (Option String) :=
  [some "1", some "Administrator", some "admin", some "admin@system.com",
   some "S3cure-new-pass", some "Administration", some "System Administrator",
   some "approved", some "1"]

/-- An environment whose queries all return the row `changedAdminRow`. -/
def changedAdminEnv : Env := { sampleEnv with queryResult := fun _ => some [changedAdminRow] }

/-- A registration whose username is `admin` followed by a tab. -/
def tabbedAdminBody : RegisterBody :=
  { name := .str "Eve", username := .str "admin\t", email := .str "eve@company.com",
    password := .str "secret1", team := .str "Operations", description := .undefined }

/-! ## Binary64 arithmetic for the percentage expressions -/

/-- The quotient `N / D` rounded to the nearest integer, ties to the even one. -/
def roundHalfEven (N D : Nat) : Nat :=
  if 2 * (N % D) < D then N / D
  else if D < 2 * (N % D) then N / D + 1
  else if N / D % 2 = 0 then N / D else N / D + 1

/-- Halves `n` until it is below 2, at most `fuel` times, and counts the steps. -/
def log2Fuel : Nat → Nat → Nat
  | 0, _ => 0
  | fuel + 1, n => if 2 ≤ n then log2Fuel fuel (n / 2) + 1 else 0

/-- The integer binary logarithm `⌊log₂ n⌋` (0 for `n = 0`). -/
def ilog2 (n : Nat) : Nat := log2Fuel n n

/-- The binary64 number nearest to the positive rational `p / q` (ties to even),
as a significand `m` of 53 bits and a binary exponent `e`: the number is
`m · 2 ^ e`.  The exponent range of binary64 is not limited here. -/
def roundToDouble (p q : Nat) : Nat × Int :=
  let s : Int := (ilog2 p : Int) - (ilog2 q : Int)
  let l : Int := if q * 2 ^ s.toNat ≤ p * 2 ^ (-s).toNat then s else s - 1
  let e : Int := l - 52
  (roundHalfEven (p * 2 ^ (-e).toNat) (q * 2 ^ e.toNat), e)

/-- A binary64 value: `NaN`, an infinity, or `± m · 2 ^ e` (a zero when `m = 0`). -/
inductive Dbl where
  | nan
  | inf (neg : Bool)
  | fin (neg : Bool) (m : Nat) (e : Int)
  deriving DecidableEq, Repr

/-- The binary64 value of the rational `± p / q`, with the IEEE results for a
zero denominator. -/
def Dbl.ofRatio (neg : Bool) (p q : Nat) : Dbl :=
  if q = 0 then (if p = 0 then .nan else .inf neg)
  else if p = 0 then .fin neg 0 0
  else .fin neg (roundToDouble p q).1 (roundToDouble p q).2

/-- Numerator of the magnitude of a finite number `mant · 10 ^ exp`. -/
def decimalNum (mant : Nat) (exp : Int) : Nat := mant * 10 ^ exp.toNat

/-- Denominator of the magnitude of a finite number `mant · 10 ^ exp`. -/
def decimalDen (exp : Int) : Nat := 10 ^ (-exp).toNat

/-- The operator `/` on two numbers (the operands are taken at their exact
values: integers below `2 ^ 53`, such as counts, are binary64 numbers). -/
def jsDivide : JsNum → JsNum → Dbl
  | .nan, _ => .nan
  | _, .nan => .nan
  | .inf _, .inf _ => .nan
  | .inf a, .fin b _ _ => .inf (a != b)
  | .fin a _ _, .inf b => .fin (a != b) 0 0
  | .fin a m1 e1, .fin b m2 e2 =>
      Dbl.ofRatio (a != b) (decimalNum m1 e1 * decimalDen e2) (decimalDen e1 * decimalNum m2 e2)

/-- The product of a binary64 value by a positive integer constant. -/
def Dbl.times (k : Nat) : Dbl → Dbl
  | .nan => .nan
  | .inf s => .inf s
  | .fin s m e => Dbl.ofRatio s (k * m * 2 ^ e.toNat) (2 ^ (-e).toNat)

/-- The function `Math.round`: the nearest integer, a tie going to the larger one. -/
def Dbl.mathRound : Dbl → JsNum
  | .nan => .nan
  | .inf s => .inf s
  | .fin false m e =>
      if 0 ≤ e then .fin false (m * 2 ^ e.toNat) 0
      else .fin false ((2 * m + 2 ^ (-e).toNat) / 2 ^ ((-e).toNat + 1)) 0
  | .fin true m e =>
      if 0 ≤ e then .fin true (m * 2 ^ e.toNat) 0
      else .fin true ((2 * m + 2 ^ (-e).toNat - 1) / 2 ^ ((-e).toNat + 1)) 0

/-- The test `x > 0` on a number. -/
def JsNum.isPositive : JsNum → Bool
  | .inf neg => !neg
  | .fin neg m _ => !neg && m != 0
  | .nan => false

/-- The expression `total > 0 ? Math.round((count / total) * 100) : 0` on two
numbers. -/
def percentOfNumbers (count total : JsNum) : JsNum :=
  if total.isPositive then ((jsDivide count total).times 100).mathRound else .fin false 0 0

/-- The percentage expression on two lengths of arrays. -/
def jsPercentage (count total : Nat) : JsNum :=
  percentOfNumbers (JsNum.ofNat count) (JsNum.ofNat total)

/-- The number a cell of a result row stands for in arithmetic (`ToNumber`). -/
def cellNumber : JsVal → JsNum
  | .str s => stringToNumber s
  | .null => .fin false 0 0
  | .bool true => .fin false 1 0
  | .bool false => .fin false 0 0
  | .num x => x
  | _ => .nan

/-! ## `GET /api/admin/analytics`: the percentage fields -/

/-- The expression `memoryCache.requests.filter(r => r.status === token).length`. -/
def countStatus (token : String) (requests : List Request) : Nat :=
  (requests.filter fun r => r.status == token).length

/-- The field `requests.completed_percentage` of the fallback analytics. -/
def fallbackCompletedPercentage (requests : List Request) : JsNum :=
  jsPercentage (countStatus "completed" requests) requests.length

/-- The field `requests.failed_percentage` of the fallback analytics. -/
def fallbackFailedPercentage (requests : List Request) : JsNum :=
  jsPercentage (countStatus "failed" requests) requests.length

/-- The field `requests.completed_percentage` of the primary analytics, from the
first row of `requestStats` (total, today, completed, failed). -/
def primaryCompletedPercentage (requestStats : List (Option String)) : JsNum :=
  percentOfNumbers (cellNumber (cellAt requestStats 2)) (cellNumber (cellAt requestStats 0))

/-- The field `requests.failed_percentage` of the primary analytics. -/
def primaryFailedPercentage (requestStats : List (Option String)) : JsNum :=
  percentOfNumbers (cellNumber (cellAt requestStats 3)) (cellNumber (cellAt requestStats 0))

/-- The value `round (100 · c / n)` of the specification for `n > 0`, computed
exactly on the integers (a half is rounded up, as `Math.round` does). -/
def specRoundedPercentage (c n : Nat) : Nat := (200 * c + n) / (2 * n)

/-- Tests whether `r` is an integer nearest to `100 · c / n`: the rounded value,
or the integer below it when `100 · c / n` lies exactly halfway. -/
def nearestPercentage (r c n : Nat) : Bool :=
  r == specRoundedPercentage c n ||
    ((200 * c + n) % (2 * n) == 0 && r + 1 == specRoundedPercentage c n)

/-- The first row of `requestStats` for a table of `n` requests of which `c` are
completed and `f` failed (`today` is the second cell). -/
def requestStatsRow (n c f : Nat) (today : Option String) : List (Option String) :=
  [some (Nat.repr n), today, some (Nat.repr c), some (Nat.repr f)]

/-! ## `GET /api/admin/trends` -/

/-- One element of the trends answer; `labelField` is the name of the property
that carries the label (`day` or `month`). -/
structure TrendBucket where
  labelField : String
  label : JsVal
  total_requests : JsVal
  completed : JsVal
  failed : JsVal
  success_rate : JsNum
  deriving DecidableEq, Repr

/-- The query of the primary branch for the given `dateFormat` and `timeRange`. -/
def trendsQuery (dateFormat timeRange : String) : String :=
  "\n                    SELECT\n                        strftime('" ++ dateFormat ++
  "', created_at) as period,\n                        COUNT(*) as total_requests,\n                        COUNT(CASE WHEN status = 'completed' THEN 1 END) as completed,\n                        COUNT(CASE WHEN status = 'failed' THEN 1 END) as failed\n                    FROM requests\n                    WHERE created_at >= date('now', '" ++ timeRange ++
  "')\n                    GROUP BY strftime('" ++ dateFormat ++
  "', created_at)\n                    ORDER BY period\n                "

/-- The bucket made of one result row in the primary branch. -/
def trendOfRow (labelField : String) (row : List (Option String)) : TrendBucket :=
  { labelField := labelField, label := cellAt row 0, total_requests := cellAt row 1,
    completed := cellAt row 2, failed := cellAt row 3,
    success_rate := percentOfNumbers (cellNumber (cellAt row 2)) (cellNumber (cellAt row 1)) }

/-- The "simple trends calculation for fallback": one bucket for the current
month over all stored requests; `now` is `new Date().toISOString()`. -/
def fallbackTrends (now : String) (requests : List Request) : List TrendBucket :=
  [{ labelField := "month", label := .str (String.mk (now.data.take 7)),
     total_requests := .num (JsNum.ofNat requests.length),
     completed := .num (JsNum.ofNat (countStatus "completed" requests)),
     failed := .num (JsNum.ofNat (countStatus "failed" requests)),
     success_rate := jsPercentage (countStatus "completed" requests) requests.length }]

/-- The handler of `GET /api/admin/trends`; `periodParam` is `req.query.period`.
Query 0 is the grouping query.  Clock sites: 0 in `initializeFallbackData`, 1 for
the current month. -/
def getTrends (env : Env) (periodParam : JsVal) (w : World) : List TrendBucket × World :=
  let period := if truthy periodParam then periodParam else .str "monthly"
  let daily := jsStrictEq period (.str "daily")
  let fallback (w0 : World) : List TrendBucket × World :=
    let cache := ensureInitialized (env.isoNow 0) w0.memoryCache
    (fallbackTrends (env.isoNow 1) cache.requests, { w0 with memoryCache := cache })
  if w.primary then
    match executeQuery (env.queryResult 0) w
        (if daily then trendsQuery "%Y-%m-%d" "-30 days" else trendsQuery "%Y-%m" "-6 months")
        [] with
    | some (rows, w1) => (rows.map (trendOfRow (if daily then "day" else "month")), w1)
    | none => fallback w
  else fallback w

/-- A request with the given id, status and creation time (other fields as in
the seed), for sample stores. -/
def sampleRequest (id : Nat) (status createdAt : String) : Request :=
  { seedRequest createdAt with id := id, status := status }

/-- A store of 40 requests of which 23 are completed. -/
def fortyRequests : List Request :=
  (List.range 23).map (fun i => sampleRequest (i + 1) "completed" "2024-03-01T09:00:00.000Z") ++
  (List.range 17).map (fun i => sampleRequest (i + 24) "submitted" "2024-03-01T09:00:00.000Z")

/-- A seeded fallback server whose store holds a request created in January and
one created in March 2024. -/
def twoMonthsWorld : World :=
  { seededFallbackWorld with
    memoryCache :=
      { users := seedUsers,
        requests := [sampleRequest 1 "completed" "2024-01-15T08:00:00.000Z",
          sampleRequest 2 "submitted" "2024-03-01T09:00:00.000Z"],
        initialized := true } }

/-- An environment whose grouping query returns two monthly rows. -/
def trendRowsEnv : Env :=
  { sampleEnv with
    queryResult := fun _ =>
      some [[some "2024-02", some "4", some "3", some "1"],
        [some "2024-03", some "2", some "1", some "0"]] }

/-- An environment whose grouping query returns two daily rows. -/
def trendDayRowsEnv : Env :=
  { sampleEnv with
    queryResult := fun _ =>
      some [[some "2024-02-28", some "4", some "3", some "1"],
        [some "2024-03-01", some "2", some "1", some "0"]] }

/-! ## Dates of the dashboard script (`src/js/dashboard-final.js`)

A `Date` object is its time value: `some t` with `t` the milliseconds since
1970-01-01T00:00:00Z, or `none` for an invalid date (`NaN`).  The calendar is the
proleptic Gregorian calendar of ECMAScript, with years counted from March so that
the leap day ends a year. -/

/-- Milliseconds in a day (`msPerDay`). -/
def msPerDay : Int := 86400000

/-- The operation `MakeDay`: the number of days from 1970-01-01 to day `d` of
month `m` (1 to 12) of year `y`; a day number beyond the end of the month runs
into the following months. -/
def daysFromCivil (y m d : Int) : Int :=
  let y1 := if m ≤ 2 then y - 1 else y
  let mp := if m ≤ 2 then m + 9 else m - 3
  365 * y1 + y1 / 4 - y1 / 100 + y1 / 400 + (153 * mp + 2) / 5 + d - 1 - 719468

/-- Year, month (1 to 12) and day of the month of a day number (`YearFromTime`,
`MonthFromTime` + 1, `DateFromTime`): the day number is split into 400-year,
100-year, 4-year and 1-year cycles that begin on the first of March. -/
def civilFromDays (z : Int) : Int × Int × Int :=
  let z1 := z + 719468
  let n400 := z1 / 146097
  let r400 := z1 % 146097
  let n100 := if r400 / 36524 ≤ 3 then r400 / 36524 else 3
  let r100 := r400 - n100 * 36524
  let n4 := r100 / 1461
  let r4 := r100 % 1461
  let n1 := if r4 / 365 ≤ 3 then r4 / 365 else 3
  let doy := r4 - n1 * 365
  let y1 := 400 * n400 + 100 * n100 + 4 * n4 + n1
  let mp := (5 * doy + 2) / 153
  let d := doy - (153 * mp + 2) / 5 + 1
  if mp < 10 then (y1, mp + 3, d) else (y1 + 1, mp - 9, d)

/-- The operation `TimeClip`: a time value beyond 100 000 000 days from the
epoch is `NaN`. -/
def timeClip (t : Int) : Option Int :=
  if t.natAbs ≤ 8640000000000000 then some t else none

/-- Whether a year is a leap year. -/
def isLeapYear (y : Nat) : Bool := y % 4 == 0 && (y % 100 != 0 || y % 400 == 0)

/-- Number of days of month `m` of year `y`. -/
def daysInMonth (y m : Nat) : Nat :=
  if m = 2 then (if isLeapYear y then 29 else 28)
  else if m = 4 ∨ m = 6 ∨ m = 9 ∨ m = 11 then 30
  else 31

/-- What the date functions of the page read from outside: the offset of local
time from UTC in milliseconds at a UTC instant (`LocalTZA(t, true)`) and at a
local time (`LocalTZA(t, false)`), whether the engine accepts the days 29 to 31 in
every month of a date string and lets them run into the next month (V8 does, where
other engines give an invalid date), and the implementation-defined result of
`new Date(s)` for a string that is not of the form `YYYY-MM-DD`. -/
structure DateEnv where
  offsetAtUtc : Int → Int
  offsetAtLocal : Int → Int
  rollsOverDays : Bool
  parseOther : String → Option Int

/-- Whether a text follows a layout in which `d` stands for a decimal digit and
every other character for itself. -/
def matchesDateShape : List Char → List Char → Bool
  | [], [] => true
  | p :: ps, c :: cs => (if p == 'd' then c.isDigit else c == p) && matchesDateShape ps cs
  | _, _ => false

/-- The test `/^\d{4}-\d{2}-\d{2}$/.test(s)`. -/
def dateRegexTest (s : String) : Bool := matchesDateShape "dddd-dd-dd".data s.data

/-- The numbers written in the year, month and day fields of a text of the form
`YYYY-MM-DD`. -/
def dateFields (s : String) : Nat × Nat × Nat :=
  (digitsToNat 10 (s.data.take 4), digitsToNat 10 ((s.data.drop 5).take 2),
    digitsToNat 10 ((s.data.drop 8).take 2))

/-- The time value of `new Date(s)` for a string: a date-only form is midnight
UTC of that date; month 0 or above 12, day 0 or above 31, and in an engine that
does not roll days over a day beyond the end of the month, give an invalid date. -/
def newDate (env : DateEnv) (s : String) : Option Int :=
  if dateRegexTest s then
    let f := dateFields s
    if 1 ≤ f.2.1 ∧ f.2.1 ≤ 12 ∧ 1 ≤ f.2.2 ∧
        f.2.2 ≤ (if env.rollsOverDays then 31 else daysInMonth f.1 f.2.1) then
      some (daysFromCivil f.1 f.2.1 f.2.2 * msPerDay)
    else none
  else env.parseOther s

/-- The comparison `a > b` of two dates (false when either is invalid). -/
def dateGt : Option Int → Option Int → Bool
  | some a, some b => decide (b < a)
  | _, _ => false

/-- The comparison `a <= b` of two dates (false when either is invalid). -/
def dateLe : Option Int → Option Int → Bool
  | some a, some b => decide (a ≤ b)
  | _, _ => false

/-- The call `getDate()` on a valid date: the day of the month in local time. -/
def getDate (env : DateEnv) (t : Int) : Int :=
  (civilFromDays ((t + env.offsetAtUtc t) / msPerDay)).2.2

/-- The call `setDate(dt)` on a valid date: the local time is moved to day `dt`
of its month at the same time of day, and converted back to UTC. -/
def setDate (env : DateEnv) (t : Int) (dt : Int) : Option Int :=
  let tl := t + env.offsetAtUtc t
  let c := civilFromDays (tl / msPerDay)
  let newDate := daysFromCivil c.1 c.2.1 dt * msPerDay + tl % msPerDay
  timeClip (newDate - env.offsetAtLocal newDate)

/-- Decimal digit character of a number below 10. -/
def digitChar (n : Nat) : Char := Char.ofNat (48 + n % 10)

/-- A number in `k` decimal digits, with leading zeros. -/
def padDigits : Nat → Nat → List Char
  | 0, _ => []
  | k + 1, n => padDigits k (n / 10) ++ [digitChar n]

/-- The expression `toISOString().split('T')[0]` on a valid date: the UTC date as
`YYYY-MM-DD`, the year in four digits from 0 to 9999 and otherwise with a sign
and six digits. -/
def isoDateText (t : Int) : String :=
  let c := civilFromDays (t / msPerDay)
  let year :=
    if 0 ≤ c.1 ∧ c.1 ≤ 9999 then padDigits 4 c.1.toNat
    else (if c.1 < 0 then '-' else '+') :: padDigits 6 c.1.natAbs
  String.mk (year ++ '-' :: padDigits 2 c.2.1.toNat ++ '-' :: padDigits 2 c.2.2.toNat)

/-- The loop `while (currentDate <= end) { allDates.push(...); currentDate.setDate(currentDate.getDate() + 1) }`,
run for at most `fuel` tests of its condition; `none` when they do not suffice. -/
def expandLoop (env : DateEnv) (endDate : Option Int) :
    Nat → Option Int → List String → Option (List String)
  | 0, _, _ => none
  | fuel + 1, currentDate, allDates =>
      match currentDate with
      | some t =>
          if dateLe (some t) endDate then
            expandLoop env endDate fuel (setDate env t (getDate env t + 1))
              (allDates ++ [isoDateText t])
          else some allDates
      | none => some allDates

/-- A number of tests that suffices for the loop from `start` to `end` when every
turn advances the date by at least a millisecond. -/
def loopBound : Option Int → Option Int → Nat
  | some s, some e => (e - s).toNat + 2
  | _, _ => 1

/-- The statements from `const currentDate = new Date(start)` to the end of the
loop: the dates pushed on `allDates`. -/
def expandDates (env : DateEnv) (start endDate : Option Int) (allDates : List String) :
    Option (List String) :=
  expandLoop env endDate (loopBound start endDate) start allDates

/-- The call `s.split(sep)` for a separator of one character. -/
def jsSplit (sep : Char) : List Char → List (List Char)
  | [] => [[]]
  | c :: cs =>
      if c == sep then [] :: jsSplit sep cs
      else (c :: (jsSplit sep cs).headD []) :: (jsSplit sep cs).tail

/-- The callback of `ranges.forEach` in `parseDataRanges`, on one trimmed element. -/
def parseRange (env : DateEnv) (range : List Char) (allDates : List String) :
    Option (List String) :=
  if range.contains ':' then
    let parts := (jsSplit ':' range).map jsTrim
    let startDate := String.mk (parts.getD 0 [])
    let endDate := String.mk (parts.getD 1 [])
    if !dateRegexTest startDate || !dateRegexTest endDate then some allDates
    else
      let start := newDate env startDate
      let endD := newDate env endDate
      if dateGt start endD then some allDates
      else expandDates env start endD allDates
  else if dateRegexTest (String.mk range) then some (allDates ++ [String.mk range])
  else some allDates

/-- The loop `ranges.forEach(...)` of `parseDataRanges`. -/
def parseRanges (env : DateEnv) : List (List Char) → List String → Option (List String)
  | [], allDates => some allDates
  | range :: rest, allDates =>
      match parseRange env range allDates with
      | some allDates1 => parseRanges env rest allDates1
      | none => none

/-- The call `allDates.join(',')`. -/
def joinDates (allDates : List String) : String :=
  String.mk (List.intercalate [','] (allDates.map String.data))

/-- The function `parseDataRanges(rangeInput)` on a string. -/
def parseDataRanges (env : DateEnv) (rangeInput : String) : Option String :=
  if rangeInput.data.isEmpty then some ""
  else
    (parseRanges env ((jsSplit ',' rangeInput.data).map jsTrim) []).map joinDates

/-- The values of the two date controls of a `.date-range-item`. -/
structure DateRangeItem where
  rangeStart : String
  rangeEnd : String
  deriving DecidableEq, Repr

/-- The callback of `each` in `collectDateRanges` on one item; the state is
`allDates` and `hasErrors`. -/
def collectItem (env : DateEnv) (item : DateRangeItem) (st : List String × Bool) :
    Option (List String × Bool) :=
  if !item.rangeStart.data.isEmpty && !item.rangeEnd.data.isEmpty then
    let start := newDate env item.rangeStart
    let endD := newDate env item.rangeEnd
    if dateGt start endD then some (st.1, true)
    else (expandDates env start endD st.1).map fun allDates => (allDates, st.2)
  else some st

/-- The loop `$('.date-range-item').each(...)` of `collectDateRanges`. -/
def collectItems (env : DateEnv) :
    List DateRangeItem → List String × Bool → Option (List String × Bool)
  | [], st => some st
  | item :: rest, st =>
      match collectItem env item st with
      | some st1 => collectItems env rest st1
      | none => none

/-- The function `collectDateRanges()` on the items of the page. -/
def collectDateRanges (env : DateEnv) (items : List DateRangeItem) : Option String :=
  match collectItems env items ([], false) with
  | some (allDates, hasErrors) => if hasErrors then some "" else some (joinDates allDates)
  | none => none

/-- The function `validateDateRanges()` on the items of the page. -/
def validateDateRanges (env : DateEnv) (items : List DateRangeItem) : Bool :=
  items.foldl
    (fun isValid item =>
      if item.rangeStart.data.isEmpty || item.rangeEnd.data.isEmpty then false
      else if dateGt (newDate env item.rangeStart) (newDate env item.rangeEnd) then false
      else isValid)
    true

/-- Every turn of the loop moves the date forward: adding a day to the local
time outweighs the change of offset between the two instants. -/
def DateEnv.Advances (env : DateEnv) : Prop :=
  ∀ t : Int, env.offsetAtLocal (t + env.offsetAtUtc t + msPerDay) < env.offsetAtUtc t + msPerDay

/-- Whether a text is a valid ISO calendar date `YYYY-MM-DD`: four-digit year,
month 01 to 12, day valid for that month. -/
def validIsoDate (s : String) : Bool :=
  dateRegexTest s && decide (1 ≤ (dateFields s).2.1) && decide ((dateFields s).2.1 ≤ 12) &&
    decide (1 ≤ (dateFields s).2.2) &&
    decide ((dateFields s).2.2 ≤ daysInMonth (dateFields s).1 (dateFields s).2.1)

/-- Whether the calendar date written by `a` is earlier than the one written by `b`. -/
def isoDateBefore (a b : String) : Bool :=
  let x := dateFields a
  let y := dateFields b
  decide (x.1 < y.1 ∨ (x.1 = y.1 ∧ (x.2.1 < y.2.1 ∨ (x.2.1 = y.2.1 ∧ x.2.2 < y.2.2))))

/-- A browser in the time zone UTC. -/
def utcEnv : DateEnv :=
  { offsetAtUtc := fun _ => 0, offsetAtLocal := fun _ => 0, rollsOverDays := true,
    parseOther := fun _ => none }

/-- The UTC instant of hour `h` of a calendar day, in milliseconds. -/
def utcInstant (y m d h : Int) : Int := daysFromCivil y m d * msPerDay + h * 3600000

/-- A browser in the time zone America/New_York with its transitions of 2024:
UTC-5 until 2024-03-10T07:00Z, UTC-4 until 2024-11-03T06:00Z, UTC-5 after.  A
local time that is skipped or repeated takes the offset before the transition. -/
def newYorkEnv : DateEnv :=
  { offsetAtUtc := fun t =>
      if t < utcInstant 2024 3 10 7 then -18000000
      else if t < utcInstant 2024 11 3 6 then -14400000
      else -18000000
    offsetAtLocal := fun tl =>
      if tl < utcInstant 2024 3 10 7 - 14400000 then -18000000
      else if tl < utcInstant 2024 11 3 6 - 14400000 then -14400000
      else -18000000
    rollsOverDays := true
    parseOther := fun _ => none }

/-! ## `GET /api/admin/recent-activity` -/

/-- The time value of `new Date(s)` for a text in the format that `toISOString`
prints, `YYYY-MM-DDTHH:mm:ss.sssZ`, which is the format of every time the server
stores; any other text is taken as an invalid date (`none`). -/
def isoTimeValue (s : String) : Option Int :=
  if matchesDateShape "dddd-dd-ddTdd:dd:dd.dddZ".data s.data then
    let year := digitsToNat 10 (s.data.take 4)
    let month := digitsToNat 10 ((s.data.drop 5).take 2)
    let day := digitsToNat 10 ((s.data.drop 8).take 2)
    let hour := digitsToNat 10 ((s.data.drop 11).take 2)
    let minute := digitsToNat 10 ((s.data.drop 14).take 2)
    let second := digitsToNat 10 ((s.data.drop 17).take 2)
    let milli := digitsToNat 10 ((s.data.drop 20).take 3)
    if 1 ≤ month ∧ month ≤ 12 ∧ 1 ≤ day ∧ day ≤ daysInMonth year month ∧ hour ≤ 23 ∧
        minute ≤ 59 ∧ second ≤ 59 then
      some (daysFromCivil year month day * msPerDay + hour * 3600000 + minute * 60000 +
        second * 1000 + milli)
    else none
  else none

/-- The time value of `new Date(r.updated_at)`; a request without `updated_at`
gives an invalid date. -/
def updatedTime (r : Request) : Option Int :=
  match r.updated_at with
  | some s => isoTimeValue s
  | none => none

/-- The comparator `(a, b) => new Date(b.updated_at) - new Date(a.updated_at)`;
`none` stands for `NaN`. -/
def recencyCompare (a b : Request) : Option Int :=
  match updatedTime b, updatedTime a with
  | some tb, some ta => some (tb - ta)
  | _, _ => none

/-- Places `x` in a list before the first element that the comparator puts
behind it (a negative result; `NaN` counts as 0). -/
def insertSorted {α : Type} (cmp : α → α → Option Int) (x : α) : List α → List α
  | [] => [x]
  | y :: ys =>
      if (match cmp x y with
          | some v => decide (v < 0)
          | none => false) then x :: y :: ys
      else y :: insertSorted cmp x ys

/-- The method `Array.prototype.sort` with a comparator: a stable sort.  The
language fixes the result when the comparator is consistent; the elements are
inserted one by one in their original order.  When the comparator is not
consistent (a `NaN` result against some elements only) the language leaves the
order to the engine, and the order computed here may differ from the engine's. -/
def jsSort {α : Type} (cmp : α → α → Option Int) (l : List α) : List α :=
  l.foldl (fun acc x => insertSorted cmp x acc) []

/-- The query of the primary branch of the handler. -/
def recentActivityQuery : String :=
  "\n                    SELECT\n                        r.request_name as title,\n                        r.status,\n                        r.team_name as team,\n                        u.username as requester,\n                        r.updated_at,\n                        r.created_at\n                    FROM requests r\n                    LEFT JOIN users u ON r.user_id = u.id\n                    ORDER BY r.updated_at DESC\n                    LIMIT 10\n                "

/-- The element of the answer made of a stored request in the fallback branch:
`title`, `team` and `requester` are read from properties a request does not have. -/
def activityOfRequest (r : Request) : List (String × JsVal) :=
  [("title", .undefined), ("status", .str r.status), ("team", .undefined),
   ("requester", .undefined),
   ("updated_at", match r.updated_at with
      | some s => .str s
      | none => .undefined),
   ("created_at", .str r.created_at)]

/-- The element of the answer made of a result row in the primary branch. -/
def activityOfRow (row : List (Option String)) : List (String × JsVal) :=
  [("title", cellAt row 0), ("status", cellAt row 1), ("team", cellAt row 2),
   ("requester", if truthy (cellAt row 3) then cellAt row 3 else .str "Unknown"),
   ("updated_at", cellAt row 4), ("created_at", cellAt row 5)]

/-- The handler of `GET /api/admin/recent-activity`.  Query 0 is the `SELECT`;
clock site 0 is in `initializeFallbackData`.  The fallback branch sorts
`memoryCache.requests` itself (`sort` works in place) and answers with its first
ten elements. -/
def getRecentActivity (env : Env) (w : World) : List (List (String × JsVal)) × World :=
  let fallback (w0 : World) : List (List (String × JsVal)) × World :=
    let cache := ensureInitialized (env.isoNow 0) w0.memoryCache
    let sorted := jsSort recencyCompare cache.requests
    ((sorted.take 10).map activityOfRequest,
     { w0 with memoryCache := { cache with requests := sorted } })
  if w.primary then
    match executeQuery (env.queryResult 0) w recentActivityQuery [] with
    | some (rows, w1) => (rows.map activityOfRow, w1)
    | none => fallback w
  else fallback w

/-- The clock of the sample environment set to the given text. -/
def envAt (now : String) : Env := { sampleEnv with isoNow := fun _ => now }

/-- A fallback server after one creation and two status updates: request 1 was
updated on 2 March 2024, request 2 on 3 March 2024. -/
def twoUpdatedWorld : World :=
  (putRequestStatusRoute (envAt "2024-03-03T10:00:00.000Z") "2" ⟨.str "processing", .undefined⟩
    (putRequestStatusRoute (envAt "2024-03-02T10:00:00.000Z") "1"
      ⟨.str "processing", .undefined⟩
      (postRequest sampleEnv sampleCreateBody seededFallbackWorld).2).2).2

/-! ## The second handler registered for `PUT /api/admin/requests/:id/status` -/

/-- The fields the second handler of the route reads from the request body. -/
structure LoggedStatusBody where
  status : JsVal
  changedBy : JsVal
  notes : JsVal
  deriving DecidableEq, Repr

/-- The array of statuses the second handler accepts. -/
def loggedStatuses : List String := ["submitted", "processing", "completed", "rejected"]

/-- The `UPDATE` statement of the second handler. -/
def loggedStatusUpdateQuery : String :=
  "UPDATE requests SET status = ?, status_update_datetime = datetime('now'), updated_at = datetime('now') WHERE id = ?"

/-- The two assignments of the fallback branch of the second handler. -/
def applyLoggedStatus (status now : String) (r : Request) : Request :=
  { r with status := status, updated_at := some now }

/-- The fallback branch of the second handler.  Clock sites: 0 in
`initializeFallbackData`, 1 for `updated_at`. -/
def loggedStatusInFallback (env : Env) (id status : String) (w : World) : Outcome × World :=
  let cache := ensureInitialized (env.isoNow 0) w.memoryCache
  match findIndex (fun r => looseEqNatStr r.id id) cache.requests with
  | none => (.sent ⟨404, [("error", .str "Request not found")]⟩, { w with memoryCache := cache })
  | some i =>
      let requests := updateAt (applyLoggedStatus status (env.isoNow 1)) i cache.requests
      (.sent ⟨200, [("success", .bool true),
          ("message", .str ("Request status updated to " ++ status))]⟩,
       { w with memoryCache := { cache with requests := requests } })

/-- The body of the second handler registered for
`PUT /api/admin/requests/:id/status` ("update request status"), as it would run if
control reached it.  Queries: 0 the lookup of the current status, 1 the `UPDATE`,
2 the history insert, 3 the pragma of `syncDatabase`.  A rejected lookup or
`UPDATE` leads to the fallback branch. -/
def putRequestStatusLogged (env : Env) (id : String) (body : LoggedStatusBody) (w : World) :
    Outcome × World :=
  match body.status with
  | .str status =>
      if !loggedStatuses.contains status then
        (.sent ⟨400, [("error", .str "Invalid status")]⟩, w)
      else if !truthy body.changedBy then
        (.sent ⟨400, [("error", .str "changedBy field is required")]⟩, w)
      else if w.primary then
        match executeQuery (env.queryResult 0) w
            "SELECT request_id, status FROM requests WHERE id = ?" [.str id] with
        | some (currentRows, w1) =>
            match currentRows with
            | [] => (.sent ⟨404, [("error", .str "Request not found")]⟩, w1)
            | row :: _ =>
                match executeQuery (env.queryResult 1) w1 loggedStatusUpdateQuery
                    [.str status, .str id] with
                | some (_, w2) =>
                    let w3 :=
                      if w2.primary then
                        match executeQuery (env.queryResult 2) w2 historyQuery
                            [cellAt row 0, cellAt row 1, .str status, body.changedBy,
                             body.notes] with
                        | some (_, w21) => w21
                        | none => w2
                      else w2
                    (.sent ⟨200, [("success", .bool true),
                        ("message", .str ("Request status updated to " ++ status))]⟩,
                     syncDatabase (env.queryResult 3) w3)
                | none => loggedStatusInFallback env id status w1
        | none => loggedStatusInFallback env id status w
      else loggedStatusInFallback env id status w
  | _ => (.sent ⟨400, [("error", .str "Invalid status")]⟩, w)

/-! ## `PUT /api/admin/users/:id/status` -/

/-- The array of statuses the handler accepts. -/
def userStatuses : List String := ["pending", "approved", "disabled"]

/-- The `UPDATE` statement of the handler. -/
def userStatusUpdateQuery : String :=
  "UPDATE users SET status = ?, updated_at = datetime('now') WHERE id = ?"

/-- The two assignments of the fallback branch to the addressed user. -/
def applyUserStatus (status now : String) (u : User) : User :=
  { u with status := status, updated_at := some now }

/-- The fallback branch of the handler.  Clock sites: 0 in
`initializeFallbackData`, 1 for `updated_at`. -/
def userStatusInFallback (env : Env) (id status : String) (w : World) : Outcome × World :=
  let cache := ensureInitialized (env.isoNow 0) w.memoryCache
  match findIndex (fun u => looseEqNatStr u.id id) cache.users with
  | none => (.sent ⟨404, [("error", .str "User not found")]⟩, { w with memoryCache := cache })
  | some i =>
      let users := updateAt (applyUserStatus status (env.isoNow 1)) i cache.users
      (.sent ⟨200, [("success", .bool true),
          ("message", .str ("User status updated to " ++ status))]⟩,
       { w with memoryCache := { cache with users := users } })

/-- The handler of `PUT /api/admin/users/:id/status`; `status` is
`req.body.status`.  Query 0 is the `UPDATE`; when it is rejected the store is
seeded and the fallback branch runs. -/
def putUserStatus (env : Env) (id : String) (status : JsVal) (w : World) : Outcome × World :=
  match status with
  | .str s =>
      if !userStatuses.contains s then (.sent ⟨400, [("error", .str "Invalid status")]⟩, w)
      else if w.primary then
        match executeQuery (env.queryResult 0) w userStatusUpdateQuery [.str s, .str id] with
        | some (_, w1) =>
            (.sent ⟨200, [("success", .bool true),
                ("message", .str ("User status updated to " ++ s))]⟩, w1)
        | none =>
            userStatusInFallback env id s
              { w with memoryCache := initializeFallbackData (env.isoNow 0) w.memoryCache }
      else userStatusInFallback env id s w
  | _ => (.sent ⟨400, [("error", .str "Invalid status")]⟩, w)

/-- The fallback stores reachable from the seed by registrations and request
creations, whatever the backend flags of the server are. -/
inductive ReachableByCreation : MemoryCache → Prop where
  | seed (now : String) : ReachableByCreation (initializeFallbackData now emptyCache)
  | register (env : Env) (b : RegisterBody) (w : World) :
      ReachableByCreation w.memoryCache →
        ReachableByCreation (postRegister env b w).2.memoryCache
  | create (env : Env) (b : CreateBody) (w : World) :
      ReachableByCreation w.memoryCache →
        ReachableByCreation (postRequest env b w).2.memoryCache

/-- The fallback stores reachable from the seed by registrations and updates of a
user's status, whatever the backend flags of the server are. -/
inductive ReachableByUserUpdates : MemoryCache → Prop where
  | seed (now : String) : ReachableByUserUpdates (initializeFallbackData now emptyCache)
  | register (env : Env) (b : RegisterBody) (w : World) :
      ReachableByUserUpdates w.memoryCache →
        ReachableByUserUpdates (postRegister env b w).2.memoryCache
  | userStatus (env : Env) (id : String) (status : JsVal) (w : World) :
      ReachableByUserUpdates w.memoryCache →
        ReachableByUserUpdates (putUserStatus env id status w).2.memoryCache

/-- A well-formed registration body. -/
def sampleRegisterBody : RegisterBody :=
  { name := .str "Carol Diaz", username := .str "carol.diaz", email := .str "carol@company.com",
    password := .str "s3cret-pw", team := .str "Finance", description := .undefined }

/-- The seeded fallback store after the registration of `sampleRegisterBody`. -/
def registeredOnceCache : MemoryCache :=
  (postRegister sampleEnv sampleRegisterBody seededFallbackWorld).2.memoryCache

/-- The seeded fallback store after the account of id 2 has been disabled. -/
def disabledAliceCache : MemoryCache :=
  (putUserStatus sampleEnv "2" (.str "disabled") seededFallbackWorld).2.memoryCache

/-! ## `executeQuery`: parsing of the output of a `SELECT` -/

/-- The line feed character. -/
def lineFeed : Char := Char.ofNat 10

/-- The expression
`output.trim().split('\n').filter(line => line.trim()).map(line => line.split('|').map(val => val || null))`:
the rows `executeQuery` resolves with for a `SELECT`. -/
def parseSelectOutput (output : String) : List (List (Option String)) :=
  ((jsSplit lineFeed (jsTrim output.data)).filter fun line => !(jsTrim line).isEmpty).map
    fun line => (jsSplit '|' line).map fun val => if val.isEmpty then none else some (String.mk val)

/-- The text of a cell in list mode: `NULL` is printed as the empty string. -/
def cellText : Option String → List Char
  | some s => s.data
  | none => []

/-- The line that list mode with separator `|` prints for a row. -/
def listModeLine (row : List (Option String)) : List Char :=
  List.intercalate ['|'] (row.map cellText)

/-- The output text of the claim: the lines of the rows joined by line feeds. -/
def listModeOutput (rows : List (List (Option String))) : String :=
  String.mk (List.intercalate [lineFeed] (rows.map listModeLine))

/-- A cell as the claim allows it: `NULL`, or a non-empty string that contains
neither `|` nor a line break (line feed, carriage return, line or paragraph
separator). -/
def claimedCell : Option String → Bool
  | none => true
  | some s =>
      !s.data.isEmpty &&
        s.data.all fun c =>
          c != '|' && c != lineFeed && c != Char.ofNat 13 && c != Char.ofNat 0x2028 &&
            c != Char.ofNat 0x2029

/-- A cell that survives the parser: a claimed cell that, if it is a string,
neither begins nor ends with a whitespace character. -/
def cleanCell : Option String → Bool
  | none => true
  | some s =>
      claimedCell (some s) && !(s.data.head?.any isJsWhitespace) &&
        !(s.data.getLast?.any isJsWhitespace)

/-- A row that survives the parser: it has a cell, its cells are clean, and it
is not a single `NULL`. -/
def cleanRow (row : List (Option String)) : Bool :=
  !row.isEmpty && row.all cleanCell && row != [none]

/-! ## The language of a regular expression -/

/-- The texts a regular expression matches. -/
inductive Re.Matches : Re → List Char → Prop where
  | eps : Re.Matches .eps []
  | cls (p : Char → Bool) (c : Char) : p c = true → Re.Matches (.cls p) [c]
  | seq {a b : Re} {s t : List Char} :
      Re.Matches a s → Re.Matches b t → Re.Matches (.seq a b) (s ++ t)
  | altLeft {a b : Re} {s : List Char} : Re.Matches a s → Re.Matches (.alt a b) s
  | altRight {a b : Re} {s : List Char} : Re.Matches b s → Re.Matches (.alt a b) s
  | starNil {a : Re} : Re.Matches (.star a) []
  | starCons {a : Re} {s t : List Char} :
      Re.Matches a s → Re.Matches (.star a) t → Re.Matches (.star a) (s ++ t)

/-- The function `validateEmailField` of the dashboard script, on the value of
the field and its `required` property (the classes it sets on the field are left
out). -/
def validateEmailField (value : String) (isRequired : Bool) : Bool :=
  let email := jsTrim value.data
  if isRequired && email.isEmpty then false
  else if !email.isEmpty && !emailRegex.fullMatch email then false
  else if !email.isEmpty && emailRegex.fullMatch email then true
  else true

/-! ## General lemmas -/

theorem JsNum.eqNat_inj {x : JsNum} {n m : Nat} (hn : x.eqNat n = true)
    (hm : x.eqNat m = true) : n = m := by
  cases x with
  | nan => simp [JsNum.eqNat] at hn
  | inf b => simp [JsNum.eqNat] at hn
  | fin neg mant e =>
    simp only [JsNum.eqNat] at hn hm
    by_cases h0 : (mant == 0) = true
    · simp only [h0, if_true] at hn hm
      rw [beq_iff_eq] at hn hm
      omega
    · simp only [h0] at hn hm
      cases neg with
      | true => simp at hn
      | false =>
        simp only [Bool.false_eq_true, if_false] at hn hm
        by_cases he : 0 ≤ e
        · simp only [he, if_true, beq_iff_eq] at hn hm
          omega
        · simp only [he, if_false, beq_iff_eq] at hn hm
          have hpos : 0 < 10 ^ (-e).toNat := Nat.pow_pos (by decide)
          exact Nat.eq_of_mul_eq_mul_right hpos (hn.symm.trans hm)

theorem looseEqNatStr_inj {n m : Nat} {s : String} (hn : looseEqNatStr n s = true)
    (hm : looseEqNatStr m s = true) : n = m :=
  JsNum.eqNat_inj hn hm

theorem findIndex_eq_none {α : Type} (p : α → Bool) (l : List α)
    (h : ∀ x ∈ l, p x = false) : findIndex p l = none := by
  induction l with
  | nil => rfl
  | cons x xs ih =>
    have hx : p x = false := h x (List.mem_cons_self x xs)
    have hxs : findIndex p xs = none := ih fun y hy => h y (List.mem_cons_of_mem x hy)
    simp [findIndex, hx, hxs]

theorem findIndex_eq_some {α : Type} (p : α → Bool) (l : List α) (i : Nat) (r : α)
    (hr : l[i]? = some r) (hp : p r = true)
    (hbefore : ∀ j x, j < i → l[j]? = some x → p x = false) : findIndex p l = some i := by
  induction l generalizing i with
  | nil => simp at hr
  | cons x xs ih =>
    cases i with
    | zero =>
      simp only [List.getElem?_cons_zero, Option.some.injEq] at hr
      subst hr
      simp [findIndex, hp]
    | succ k =>
      have hx : p x = false := hbefore 0 x (Nat.succ_pos k) (by simp)
      have hk : findIndex p xs = some k := by
        apply ih k
        · simpa using hr
        · intro j y hj hy
          exact hbefore (j + 1) y (Nat.succ_lt_succ hj) (by simpa using hy)
      simp [findIndex, hx, hk]

theorem getElem?_updateAt_self {α : Type} (f : α → α) (l : List α) (i : Nat) :
    (updateAt f i l)[i]? = (l[i]?).map f := by
  induction l generalizing i with
  | nil => simp [updateAt]
  | cons x xs ih =>
    cases i with
    | zero => simp [updateAt]
    | succ k => simpa [updateAt] using ih k

theorem getElem?_updateAt_ne {α : Type} (f : α → α) (l : List α) (i j : Nat) (h : j ≠ i) :
    (updateAt f i l)[j]? = l[j]? := by
  induction l generalizing i j with
  | nil => simp [updateAt]
  | cons x xs ih =>
    cases i with
    | zero =>
      cases j with
      | zero => exact absurd rfl h
      | succ m => simp [updateAt]
    | succ k =>
      cases j with
      | zero => simp [updateAt]
      | succ m =>
        have hmk : m ≠ k := fun e => h (by rw [e])
        simpa [updateAt] using ih k m hmk

theorem length_updateAt {α : Type} (f : α → α) (l : List α) (i : Nat) :
    (updateAt f i l).length = l.length := by
  induction l generalizing i with
  | nil => simp [updateAt]
  | cons x xs ih =>
    cases i with
    | zero => simp [updateAt]
    | succ k => simpa [updateAt] using ih k

theorem map_updateAt_of_preserved {α β : Type} (g : α → β) (f : α → α)
    (hf : ∀ a, g (f a) = g a) (l : List α) (i : Nat) :
    (updateAt f i l).map g = l.map g := by
  induction l generalizing i with
  | nil => simp [updateAt]
  | cons x xs ih =>
    cases i with
    | zero => simp [updateAt, hf]
    | succ k => simpa [updateAt] using ih k

theorem ensureInitialized_initialized (now : String) (m : MemoryCache) :
    (ensureInitialized now m).initialized = true := by
  unfold ensureInitialized initializeFallbackData
  cases h : m.initialized <;> simp [h]

theorem ensureInitialized_of_initialized (now : String) (m : MemoryCache)
    (h : m.initialized = true) : ensureInitialized now m = m := by
  simp [ensureInitialized, h]

theorem ensureInitialized_idem (now now2 : String) (m : MemoryCache) :
    ensureInitialized now2 (ensureInitialized now m) = ensureInitialized now m :=
  ensureInitialized_of_initialized _ _ (ensureInitialized_initialized now m)

/-- In a list of requests with pairwise distinct ids, `findIndex` with the
handler's loose id comparison finds the position of any request the id matches. -/
theorem findIndex_of_distinct_ids (l : List Request) (i : Nat) (r : Request) (id : String)
    (hr : l[i]? = some r) (hid : looseEqNatStr r.id id = true)
    (hnd : (l.map (·.id)).Nodup) :
    findIndex (fun q => looseEqNatStr q.id id) l = some i := by
  induction l generalizing i with
  | nil => simp at hr
  | cons x xs ih =>
    rw [List.map_cons, List.nodup_cons] at hnd
    cases i with
    | zero =>
      simp only [List.getElem?_cons_zero, Option.some.injEq] at hr
      subst hr
      simp [findIndex, hid]
    | succ k =>
      have hk : xs[k]? = some r := by simpa using hr
      have hmem : r ∈ xs := List.getElem?_mem hk
      have hx : looseEqNatStr x.id id = false := by
        cases hxe : looseEqNatStr x.id id with
        | false => rfl
        | true =>
          exfalso
          apply hnd.1
          rw [looseEqNatStr_inj hxe hid]
          exact List.mem_map_of_mem _ hmem
      simp [findIndex, hx, ih k hk hnd.2]

theorem executeQuery_some {res : Option (List (List (Option String)))} {w : World}
    {sql : String} {ps : List JsVal} {rows : List (List (Option String))} {w1 : World}
    (h : executeQuery res w sql ps = some (rows, w1)) :
    w1 = { w with executed := w.executed ++ [⟨sql, ps⟩] } := by
  unfold executeQuery at h
  split at h
  · simp at h
  · split at h
    · simp at h
    · split at h
      · simp at h
      · simp only [Option.some.injEq, Prod.mk.injEq] at h
        exact h.2.symm

theorem substituteParams_isSome (ps : List JsVal)
    (h : ∀ p ∈ ps, (renderParam p).isSome = true) (sql : List Char) :
    (substituteParams sql ps).isSome = true := by
  induction ps generalizing sql with
  | nil => rfl
  | cons p rest ih =>
    have hp := h p (List.mem_cons_self p rest)
    cases hr : renderParam p with
    | none => simp [hr] at hp
    | some t =>
      simp only [substituteParams, hr]
      exact ih (fun q hq => h q (List.mem_cons_of_mem p hq)) _

/-! ## Addressing a request by the decimal text of its id -/

theorem digitValue_digitChar (d : Nat) (h : d < 10) :
    digitValue 10 (Nat.digitChar d) = some d := by
  revert d
  decide

theorem isDecimal_toNat {c : Char} (h : (digitValue 10 c).isSome = true) :
    48 ≤ c.toNat ∧ c.toNat ≤ 57 := by
  unfold digitValue at h
  simp only [Bool.and_eq_true, decide_eq_true_eq] at h
  split at h
  · next h1 => exact h1
  · split at h
    · next h2 =>
      split at h
      · omega
      · simp at h
    · split at h
      · next h3 =>
        split at h
        · omega
        · simp at h
      · simp at h

theorem toDigitsCore_digits (fuel n : Nat) (ds : List Char)
    (hds : ∀ c ∈ ds, (digitValue 10 c).isSome = true) :
    ∀ c ∈ Nat.toDigitsCore 10 fuel n ds, (digitValue 10 c).isSome = true := by
  induction fuel generalizing n ds with
  | zero => simpa [Nat.toDigitsCore] using hds
  | succ k ih =>
    have hd : (digitValue 10 (Nat.digitChar (n % 10))).isSome = true := by
      rw [digitValue_digitChar _ (Nat.mod_lt n (by decide))]; rfl
    have hcons : ∀ c ∈ Nat.digitChar (n % 10) :: ds, (digitValue 10 c).isSome = true := by
      intro c hc
      rcases List.mem_cons.mp hc with rfl | hc
      · exact hd
      · exact hds c hc
    unfold Nat.toDigitsCore
    simp only
    split
    · exact hcons
    · exact ih _ _ hcons

theorem toDigitsCore_value (fuel n : Nat) (ds : List Char) (h : n < fuel) :
    List.foldl (fun acc c => 10 * acc + (digitValue 10 c).getD 0) 0
        (Nat.toDigitsCore 10 fuel n ds) =
      List.foldl (fun acc c => 10 * acc + (digitValue 10 c).getD 0) n ds := by
  induction fuel generalizing n ds with
  | zero => omega
  | succ k ih =>
    have hd : (digitValue 10 (Nat.digitChar (n % 10))).getD 0 = n % 10 := by
      rw [digitValue_digitChar _ (Nat.mod_lt n (by decide))]; rfl
    unfold Nat.toDigitsCore
    simp only
    split
    · next h0 =>
      simp only [List.foldl_cons, hd]
      have : 10 * 0 + n % 10 = n := by omega
      rw [this]
    · next h0 =>
      rw [ih (n / 10) _ (by omega)]
      simp only [List.foldl_cons, hd]
      have : 10 * (n / 10) + n % 10 = n := by omega
      rw [this]

theorem not_whitespace_of_decimal {c : Char} (h : (digitValue 10 c).isSome = true) :
    isJsWhitespace c = false := by
  have hc := isDecimal_toNat h
  unfold isJsWhitespace
  simp only [Bool.or_eq_false_iff, Bool.and_eq_false_imp, beq_eq_false_iff_ne, ne_eq,
    decide_eq_true_eq, decide_eq_false_iff_not]
  omega

theorem dropWhile_of_head {p : Char → Bool} (l : List Char) (h : ∀ c ∈ l, p c = false) :
    l.dropWhile p = l := by
  cases l with
  | nil => rfl
  | cons c t => simp [List.dropWhile, h c (List.mem_cons_self c t)]

theorem jsTrim_of_no_whitespace (l : List Char) (h : ∀ c ∈ l, isJsWhitespace c = false) :
    jsTrim l = l := by
  unfold jsTrim
  rw [dropWhile_of_head l h, dropWhile_of_head l.reverse (fun c hc => h c (List.mem_reverse.mp hc)),
    List.reverse_reverse]

theorem span_of_all {p : Char → Bool} (l : List Char) (h : ∀ c ∈ l, p c = true) :
    l.span p = (l, []) := by
  rw [List.span_eq_take_drop]
  have h1 : l.takeWhile p = l := List.takeWhile_eq_self_iff.mpr h
  have h2 : l.dropWhile p = [] := List.dropWhile_eq_nil_iff.mpr h
  rw [h1, h2]

theorem parseNonDecimal_of_decimal (l : List Char)
    (h : ∀ c ∈ l, (digitValue 10 c).isSome = true) : parseNonDecimal l = none := by
  unfold parseNonDecimal
  split
  · exact absurd (h 'x' (by simp)) (by decide)
  · exact absurd (h 'X' (by simp)) (by decide)
  · exact absurd (h 'o' (by simp)) (by decide)
  · exact absurd (h 'O' (by simp)) (by decide)
  · exact absurd (h 'b' (by simp)) (by decide)
  · exact absurd (h 'B' (by simp)) (by decide)
  · rfl

theorem parseDecimalPrefix_of_decimal (l : List Char) (hne : l ≠ [])
    (h : ∀ c ∈ l, (digitValue 10 c).isSome = true) :
    parseDecimalPrefix l = some (.fin false (digitsToNat 10 l) 0, []) := by
  have hspan : spanDigits 10 l = (l, []) := span_of_all l h
  have hl : (l == []) = false := by
    cases l with
    | nil => exact absurd rfl hne
    | cons c t => rfl
  have hud : parseUnsignedDecimal l = some (digitsToNat 10 l, 0, []) := by
    unfold parseUnsignedDecimal
    simp only [hspan, List.append_nil]
    simp [hl, parseExponent]
  have hinf : "Infinity".data.isPrefixOf l = false := by
    cases l with
    | nil => rfl
    | cons c t =>
      have hc : ('I' == c) = false := by
        rw [beq_eq_false_iff_ne]
        rintro rfl
        exact absurd (h 'I' (List.mem_cons_self _ _)) (by decide)
      simp [String.data, List.isPrefixOf, hc]
  unfold parseDecimalPrefix
  split
  · exact absurd (h '+' (by simp)) (by decide)
  · exact absurd (h '-' (by simp)) (by decide)
  · simp [hinf, hud]

/-- A non-empty text of decimal digits converts to the number it writes. -/
theorem stringToNumber_of_decimal (l : List Char) (hne : l ≠ [])
    (h : ∀ c ∈ l, (digitValue 10 c).isSome = true) :
    stringToNumber (String.mk l) = .fin false (digitsToNat 10 l) 0 := by
  have htrim : jsTrim l = l :=
    jsTrim_of_no_whitespace l fun c hc => not_whitespace_of_decimal (h c hc)
  have hl : (l == []) = false := by
    cases l with
    | nil => exact absurd rfl hne
    | cons c t => rfl
  unfold stringToNumber
  simp only [htrim, hl, parseNonDecimal_of_decimal l h, parseDecimalPrefix_of_decimal l hne h,
    Bool.false_eq_true, if_false]

/-- The decimal text of a numeric id is loosely equal to that id, so every
stored request can be addressed through the route. -/
theorem looseEqNatStr_repr (n : Nat) : looseEqNatStr n (Nat.repr n) = true := by
  have hdig : ∀ c ∈ Nat.toDigits 10 n, (digitValue 10 c).isSome = true :=
    toDigitsCore_digits (n + 1) n [] (by simp)
  have hval : digitsToNat 10 (Nat.toDigits 10 n) = n := by
    unfold digitsToNat Nat.toDigits
    rw [toDigitsCore_value (n + 1) n [] (Nat.lt_succ_self n)]
    rfl
  have hne : Nat.toDigits 10 n ≠ [] := by
    intro he
    rw [he] at hval
    have h0 : n = 0 := by simpa [digitsToNat] using hval.symm
    subst h0
    exact absurd he (by decide)
  have hs : stringToNumber (Nat.repr n) = .fin false n 0 := by
    have := stringToNumber_of_decimal _ hne hdig
    rw [hval] at this
    exact this
  unfold looseEqNatStr
  rw [hs]
  simp only [JsNum.eqNat]
  by_cases h0 : n = 0
  · simp [h0]
  · simp [h0]

/-! ## The status-transition handler -/

theorem validStatuses_truthy {status : String} (h : status ∈ validStatuses) :
    truthy (.str status) = true := by
  simp only [validStatuses, List.mem_cons, List.mem_singleton, List.not_mem_nil, or_false] at h
  rcases h with rfl | rfl | rfl | rfl <;> decide

theorem validStatuses_lower {status : String} (h : status ∈ validStatuses) :
    validStatuses.contains (jsToLowerCase status) = true := by
  simp only [validStatuses, List.mem_cons, List.mem_singleton, List.not_mem_nil, or_false] at h
  rcases h with rfl | rfl | rfl | rfl <;> decide

/-- The fallback branch of the handler, for an accepted status. -/
theorem override_fallback_eq (env : Env) (id status : String) (comments : JsVal) (w : World)
    (hfb : w.primary = false) (htr : truthy (.str status) = true)
    (hv : validStatuses.contains (jsToLowerCase status) = true) :
    putRequestStatusOverride env id ⟨.str status, comments⟩ w =
      match findIndex (fun r => looseEqNatStr r.id id)
          (ensureInitialized (env.isoNow 0) w.memoryCache).requests with
      | none =>
          (.sent ⟨404, [("error", .str "Request not found")]⟩,
           { w with memoryCache := ensureInitialized (env.isoNow 0) w.memoryCache })
      | some i =>
          (.sent ⟨200, overrideSuccessBody status comments⟩,
           { w with memoryCache :=
              { ensureInitialized (env.isoNow 0) w.memoryCache with
                requests := updateAt (applyStatusOverride status (env.isoNow 1) comments) i
                  (ensureInitialized (env.isoNow 0) w.memoryCache).requests } }) := by
  simp only [putRequestStatusOverride, htr, hv, hfb, Bool.not_true, Bool.false_eq_true,
    if_false]

/-- On the fallback store, an accepted status addressed to a request that the
id resolves to is answered 200 and written to that request. -/
theorem override_fallback_found (env : Env) (id status : String) (comments : JsVal)
    (w : World) (i : Nat) (hfb : w.primary = false) (htr : truthy (.str status) = true)
    (hv : validStatuses.contains (jsToLowerCase status) = true)
    (hfi : findIndex (fun r => looseEqNatStr r.id id)
      (ensureInitialized (env.isoNow 0) w.memoryCache).requests = some i) :
    putRequestStatusOverride env id ⟨.str status, comments⟩ w =
      (.sent ⟨200, overrideSuccessBody status comments⟩,
       { w with memoryCache :=
          { ensureInitialized (env.isoNow 0) w.memoryCache with
            requests := updateAt (applyStatusOverride status (env.isoNow 1) comments) i
              (ensureInitialized (env.isoNow 0) w.memoryCache).requests } }) := by
  rw [override_fallback_eq env id status comments w hfb htr hv, hfi]

/-- On the fallback store, an accepted status addressed to an id that resolves
to no request is answered 404 and only seeds the store. -/
theorem override_fallback_missing (env : Env) (id status : String) (comments : JsVal)
    (w : World) (hfb : w.primary = false) (htr : truthy (.str status) = true)
    (hv : validStatuses.contains (jsToLowerCase status) = true)
    (hfi : findIndex (fun r => looseEqNatStr r.id id)
      (ensureInitialized (env.isoNow 0) w.memoryCache).requests = none) :
    putRequestStatusOverride env id ⟨.str status, comments⟩ w =
      (.sent ⟨404, [("error", .str "Request not found")]⟩,
       { w with memoryCache := ensureInitialized (env.isoNow 0) w.memoryCache }) := by
  rw [override_fallback_eq env id status comments w hfb htr hv, hfi]

/-- The parameters of the `UPDATE` can be rendered when the comment, if one is
supplied, can be. -/
theorem statusUpdateParams_render (status : String) (comments : JsVal) (id : String)
    (hc : truthy comments = true → (renderParam comments).isSome = true) :
    (processedSql (statusUpdateQuery comments) (statusUpdateParams status comments id)).isSome
      = true := by
  unfold processedSql
  rw [Option.isSome_map']
  apply substituteParams_isSome
  intro p hp
  unfold statusUpdateParams at hp
  cases htc : truthy comments with
  | false =>
    simp only [htc, Bool.false_eq_true, if_false, List.append_nil, List.singleton_append,
      List.mem_cons, List.mem_singleton, List.not_mem_nil, or_false] at hp
    rcases hp with rfl | rfl <;> rfl
  | true =>
    simp only [htc, if_true, List.singleton_append, List.cons_append, List.nil_append,
      List.mem_cons, List.mem_singleton, List.not_mem_nil, or_false] at hp
    rcases hp with rfl | rfl | rfl
    · rfl
    · exact hc htc
    · rfl

/-- On the primary backend, an accepted status whose `UPDATE` runs is answered
200 and the statement is recorded; no lookup of the id takes place. -/
theorem override_primary_success (env : Env) (id status : String) (comments : JsVal)
    (w : World) (rows : List (List (Option String)))
    (hp : w.primary = true) (htr : truthy (.str status) = true)
    (hv : validStatuses.contains (jsToLowerCase status) = true)
    (hq : env.queryResult 0 = some rows)
    (hc : truthy comments = true → (renderParam comments).isSome = true) :
    putRequestStatusOverride env id ⟨.str status, comments⟩ w =
      (.sent ⟨200, overrideSuccessBody status comments⟩,
       { w with executed := w.executed ++
          [⟨statusUpdateQuery comments, statusUpdateParams status comments id⟩] }) := by
  have hsf : w.sqliteFound = true := by
    simp only [World.primary, Bool.and_eq_true] at hp
    exact hp.2
  obtain ⟨txt, htxt⟩ := Option.isSome_iff_exists.mp
    (statusUpdateParams_render status comments id hc)
  simp only [putRequestStatusOverride, htr, hv, hp, hq, executeQuery, hsf, htxt, Bool.not_true,
    Bool.false_eq_true, if_false, if_true]

/-- C1. For every recognised target status: on the fallback store, every stored
request (whatever its status; ids pairwise distinct), addressed by an id that
matches its numeric id, as the decimal text of that id always does, is answered
200 and left with the target status, and the identical call repeated is
answered 200 with the status still the target; on the primary backend, whenever
the `UPDATE` statements run, both calls are answered 200 and each sends the
same `UPDATE` of the status to the target. -/
theorem transition_any_to_any_idempotent
    (env env2 : Env) (w : World) (id target : String) (comments : JsVal)
    (ht : target ∈ validStatuses) :
    (∀ r : Request, looseEqNatStr r.id (Nat.repr r.id) = true) ∧
    (∀ (i : Nat) (r : Request), w.primary = false →
      (ensureInitialized (env.isoNow 0) w.memoryCache).requests[i]? = some r →
      ((ensureInitialized (env.isoNow 0) w.memoryCache).requests.map (·.id)).Nodup →
      looseEqNatStr r.id id = true →
      (putRequestStatusRoute env id ⟨.str target, comments⟩ w).1.code = some 200 ∧
      ((putRequestStatusRoute env id ⟨.str target, comments⟩ w).2.memoryCache.requests[i]?).map
          (fun q => (q.id, q.request_id, q.status)) = some (r.id, r.request_id, target) ∧
      (putRequestStatusRoute env2 id ⟨.str target, comments⟩
          (putRequestStatusRoute env id ⟨.str target, comments⟩ w).2).1.code = some 200 ∧
      ((putRequestStatusRoute env2 id ⟨.str target, comments⟩
          (putRequestStatusRoute env id ⟨.str target, comments⟩
            w).2).2.memoryCache.requests[i]?).map
          (fun q => (q.id, q.request_id, q.status)) = some (r.id, r.request_id, target)) ∧
    (w.primary = true → (env.queryResult 0).isSome = true →
      (env2.queryResult 0).isSome = true →
      (truthy comments = true → (renderParam comments).isSome = true) →
      (putRequestStatusRoute env id ⟨.str target, comments⟩ w).1.code = some 200 ∧
      (putRequestStatusRoute env id ⟨.str target, comments⟩ w).2.executed =
        w.executed ++ [⟨statusUpdateQuery comments, statusUpdateParams target comments id⟩] ∧
      (putRequestStatusRoute env2 id ⟨.str target, comments⟩
          (putRequestStatusRoute env id ⟨.str target, comments⟩ w).2).1.code = some 200 ∧
      (putRequestStatusRoute env2 id ⟨.str target, comments⟩
          (putRequestStatusRoute env id ⟨.str target, comments⟩ w).2).2.executed =
        w.executed ++ [⟨statusUpdateQuery comments, statusUpdateParams target comments id⟩,
          ⟨statusUpdateQuery comments, statusUpdateParams target comments id⟩]) := by
  have htr := validStatuses_truthy ht
  have hv := validStatuses_lower ht
  refine ⟨fun r => looseEqNatStr_repr r.id, ?_, ?_⟩
  · intro i r hfb hr hdistinct hid
    have hfi := findIndex_of_distinct_ids _ i r id hr hid hdistinct
    have h1 := override_fallback_found env id target comments w i hfb htr hv hfi
    simp only [putRequestStatusRoute]
    rw [h1]
    have hinit : ∀ now2, ensureInitialized now2
        { ensureInitialized (env.isoNow 0) w.memoryCache with
          requests := updateAt (applyStatusOverride target (env.isoNow 1) comments) i
            (ensureInitialized (env.isoNow 0) w.memoryCache).requests } =
        { ensureInitialized (env.isoNow 0) w.memoryCache with
          requests := updateAt (applyStatusOverride target (env.isoNow 1) comments) i
            (ensureInitialized (env.isoNow 0) w.memoryCache).requests } := by
      intro now2
      apply ensureInitialized_of_initialized
      exact ensureInitialized_initialized _ _
    have hr1 : (updateAt (applyStatusOverride target (env.isoNow 1) comments) i
        (ensureInitialized (env.isoNow 0) w.memoryCache).requests)[i]? =
        some (applyStatusOverride target (env.isoNow 1) comments r) := by
      rw [getElem?_updateAt_self, hr]; rfl
    have hids1 : (updateAt (applyStatusOverride target (env.isoNow 1) comments) i
        (ensureInitialized (env.isoNow 0) w.memoryCache).requests).map (·.id) =
        (ensureInitialized (env.isoNow 0) w.memoryCache).requests.map (·.id) :=
      map_updateAt_of_preserved (fun q : Request => q.id)
        (applyStatusOverride target (env.isoNow 1) comments) (fun _ => rfl) _ _
    have hfi2 : findIndex (fun q => looseEqNatStr q.id id)
        (updateAt (applyStatusOverride target (env.isoNow 1) comments) i
          (ensureInitialized (env.isoNow 0) w.memoryCache).requests) = some i :=
      findIndex_of_distinct_ids _ i _ id hr1 hid (by rw [hids1]; exact hdistinct)
    have h2 := override_fallback_found env2 id target comments
      { w with memoryCache :=
          { ensureInitialized (env.isoNow 0) w.memoryCache with
            requests := updateAt (applyStatusOverride target (env.isoNow 1) comments) i
              (ensureInitialized (env.isoNow 0) w.memoryCache).requests } }
      i hfb htr hv (by rw [hinit]; exact hfi2)
    rw [h2]
    refine ⟨rfl, ?_, rfl, ?_⟩
    · simp only [hr1, Option.map_some', applyStatusOverride]
    · simp only [hinit, getElem?_updateAt_self, hr1, Option.map_some', applyStatusOverride]
  · intro hp hq1 hq2 hc
    obtain ⟨rows1, hrows1⟩ := Option.isSome_iff_exists.mp hq1
    obtain ⟨rows2, hrows2⟩ := Option.isSome_iff_exists.mp hq2
    have h1 := override_primary_success env id target comments w rows1 hp htr hv hrows1 hc
    have h2 := override_primary_success env2 id target comments
      { w with executed := w.executed ++
          [⟨statusUpdateQuery comments, statusUpdateParams target comments id⟩] }
      rows2 hp htr hv hrows2 hc
    simp only [putRequestStatusRoute]
    rw [h1, h2]
    refine ⟨rfl, rfl, rfl, ?_⟩
    simp

/-- Witness for C1: the seeded request, in status `submitted`, is moved to
`completed` twice through id `1`; and the same two calls on the primary backend
with every query succeeding. -/
theorem transition_any_to_any_idempotent_witness :
    ((putRequestStatusRoute sampleEnv "1" ⟨.str "completed", .null⟩
        seededFallbackWorld).1.code = some 200 ∧
    ((putRequestStatusRoute sampleEnv "1" ⟨.str "completed", .null⟩
        seededFallbackWorld).2.memoryCache.requests[0]?).map
        (fun q => (q.id, q.request_id, q.status)) =
      some ((seedRequest "2024-03-01T09:00:00.000Z").id,
        (seedRequest "2024-03-01T09:00:00.000Z").request_id, "completed") ∧
    (putRequestStatusRoute failingEnv "1" ⟨.str "completed", .null⟩
        (putRequestStatusRoute sampleEnv "1" ⟨.str "completed", .null⟩
          seededFallbackWorld).2).1.code = some 200 ∧
    ((putRequestStatusRoute failingEnv "1" ⟨.str "completed", .null⟩
        (putRequestStatusRoute sampleEnv "1" ⟨.str "completed", .null⟩
          seededFallbackWorld).2).2.memoryCache.requests[0]?).map
        (fun q => (q.id, q.request_id, q.status)) =
      some ((seedRequest "2024-03-01T09:00:00.000Z").id,
        (seedRequest "2024-03-01T09:00:00.000Z").request_id, "completed")) ∧
    ((putRequestStatusRoute sampleEnv "1" ⟨.str "completed", .null⟩ primaryWorld).1.code
        = some 200 ∧
    (putRequestStatusRoute sampleEnv "1" ⟨.str "completed", .null⟩ primaryWorld).2.executed =
      primaryWorld.executed ++
        [⟨statusUpdateQuery .null, statusUpdateParams "completed" .null "1"⟩] ∧
    (putRequestStatusRoute sampleEnv "1" ⟨.str "completed", .null⟩
        (putRequestStatusRoute sampleEnv "1" ⟨.str "completed", .null⟩
          primaryWorld).2).1.code = some 200 ∧
    (putRequestStatusRoute sampleEnv "1" ⟨.str "completed", .null⟩
        (putRequestStatusRoute sampleEnv "1" ⟨.str "completed", .null⟩
          primaryWorld).2).2.executed =
      primaryWorld.executed ++
        [⟨statusUpdateQuery .null, statusUpdateParams "completed" .null "1"⟩,
          ⟨statusUpdateQuery .null, statusUpdateParams "completed" .null "1"⟩]) :=
  ⟨(transition_any_to_any_idempotent sampleEnv failingEnv seededFallbackWorld "1" "completed"
      .null (by decide)).2.1 0 (seedRequest "2024-03-01T09:00:00.000Z") (by decide) (by decide)
      (by decide) (by decide),
   (transition_any_to_any_idempotent sampleEnv sampleEnv primaryWorld "1" "completed"
      .null (by decide)).2.2 (by decide) (by decide) (by decide) (by decide)⟩

/-! ## Request creation: shape of the handler's result -/

theorem initializeFallbackData_eq_ensureInitialized (now : String) (m : MemoryCache) :
    initializeFallbackData now m = ensureInitialized now m := by
  unfold ensureInitialized initializeFallbackData
  cases h : m.initialized <;> simp [h]

/-- Once validation has passed, the handler either completes on the primary
backend or runs the fallback path. -/
theorem postRequest_of_valid (env : Env) (b : CreateBody) (w : World)
    (h1 : missingRequiredFields b = false) (h2 : validateString b.requestorName 1 100 = true)
    (h3 : validateEmail b.requestorEmail = some true) :
    postRequest env b w =
      if w.primary then
        match (insertRequestParams b (generateRequestId env.dateNow env.uuid)).bind
            (executeQuery (env.queryResult 0) w insertRequestQuery) with
        | some (_, w1) =>
            (.sent ⟨201, createdBody (generateRequestId env.dateNow env.uuid)⟩,
             syncDatabase (env.queryResult 2)
               (logStatusHistory (env.queryResult 1) w1 (generateRequestId env.dateNow env.uuid)
                 .null "submitted" (sanitizeString b.requestorName)
                 (.str "Initial request submission")))
        | none =>
            createInFallback env b (generateRequestId env.dateNow env.uuid)
              { w with memoryCache := initializeFallbackData (env.isoNow 0) w.memoryCache }
      else createInFallback env b (generateRequestId env.dateNow env.uuid) w := by
  simp only [postRequest, h1, h2, h3, Bool.not_true, Bool.false_eq_true, if_false]

/-- The handler answers 400 exactly on its three validation tests. -/
theorem postRequest_code_400_iff (env : Env) (b : CreateBody) (w : World) :
    (postRequest env b w).1.code = some 400 ↔
      (missingRequiredFields b = true ∨ validateString b.requestorName 1 100 = false ∨
        validateEmail b.requestorEmail = some false) := by
  cases h1 : missingRequiredFields b with
  | true => simp [postRequest, h1, Outcome.code]
  | false =>
    cases h2 : validateString b.requestorName 1 100 with
    | false => simp [postRequest, h1, h2, Outcome.code]
    | true =>
      cases h3 : validateEmail b.requestorEmail with
      | none => simp [postRequest, h1, h2, h3, Outcome.code]
      | some v =>
        cases v with
        | false => simp [postRequest, h1, h2, h3, Outcome.code]
        | true =>
          rw [postRequest_of_valid env b w h1 h2 h3]
          simp only [createInFallback]
          split
          · split
            · simp [Outcome.code]
            · split <;> simp [Outcome.code]
          · split <;> simp [Outcome.code]

/-- A 201 answer implies that the three validation tests have passed. -/
theorem valid_of_postRequest_201 (env : Env) (b : CreateBody) (w : World)
    (h : (postRequest env b w).1.code = some 201) :
    missingRequiredFields b = false ∧ validateString b.requestorName 1 100 = true ∧
      validateEmail b.requestorEmail = some true := by
  cases h1 : missingRequiredFields b with
  | true => simp [postRequest, h1, Outcome.code] at h
  | false =>
    cases h2 : validateString b.requestorName 1 100 with
    | false => simp [postRequest, h1, h2, Outcome.code] at h
    | true =>
      cases h3 : validateEmail b.requestorEmail with
      | none => simp [postRequest, h1, h2, h3, Outcome.code] at h
      | some v =>
        cases v with
        | false => simp [postRequest, h1, h2, h3, Outcome.code] at h
        | true => exact ⟨rfl, rfl, rfl⟩

/-- The fallback path answers 201 exactly when `newRequest` can be built, and
then appends it to the seeded store. -/
theorem createInFallback_201 (env : Env) (b : CreateBody) (requestId : String) (w : World)
    (h : (createInFallback env b requestId w).1.code = some 201) :
    ∃ r, newRequest env b requestId
          (nextRequestId (ensureInitialized (env.isoNow 0) w.memoryCache).requests) = some r ∧
      createInFallback env b requestId w =
        (.sent ⟨201, createdBody requestId⟩,
         { w with memoryCache :=
            { ensureInitialized (env.isoNow 0) w.memoryCache with
              requests := (ensureInitialized (env.isoNow 0) w.memoryCache).requests ++ [r] } }) := by
  unfold createInFallback at h ⊢
  cases hn : newRequest env b requestId
      (nextRequestId (ensureInitialized (env.isoNow 0) w.memoryCache).requests) with
  | none => simp [hn, Outcome.code] at h
  | some r => exact ⟨r, rfl, by simp [hn]⟩

theorem newRequest_fields (env : Env) (b : CreateBody) (requestId : String) (newId : Nat)
    (r : Request) (h : newRequest env b requestId newId = some r) :
    r.id = newId ∧ r.request_id = requestId ∧ r.status = "submitted" := by
  unfold newRequest at h
  split at h
  · simp only [Option.some.injEq] at h
    subst h
    exact ⟨rfl, rfl, rfl⟩
  · simp at h

/-! ## The ledger -/

theorem ledger_append (w : World) (c : SqlCall) :
    ledger { w with executed := w.executed ++ [c] } =
      ledger w ++ (if c.sql == historyQuery then [c] else []) := by
  simp only [ledger, List.filter_append, List.filter_cons, List.filter_nil]

theorem ledger_syncDatabase (res : Option (List (List (Option String)))) (w : World) :
    ledger (syncDatabase res w) = ledger w := by
  unfold syncDatabase
  split
  · rfl
  · split
    · next rows w1 h =>
      rw [executeQuery_some h, ledger_append]
      have hne : ("PRAGMA synchronous = FULL" == historyQuery) = false := by decide
      simp [hne]
    · rfl

theorem ledger_executeQuery_other {res : Option (List (List (Option String)))} {w : World}
    {sql : String} {ps : List JsVal} (hne : (sql == historyQuery) = false) :
    ledger (match executeQuery res w sql ps with
      | some (_, w1) => w1
      | none => w) = ledger w := by
  cases h : executeQuery res w sql ps with
  | none => rfl
  | some r =>
    obtain ⟨rows, w1⟩ := r
    simp only
    rw [executeQuery_some h, ledger_append]
    simp [hne]

/-- The handler that serves the status route leaves the ledger as it is. -/
theorem ledger_putRequestStatusRoute (env : Env) (id : String) (body : StatusBody) (w : World) :
    ledger (putRequestStatusRoute env id body w).2 = ledger w := by
  unfold putRequestStatusRoute putRequestStatusOverride
  cases hs : truthy body.status with
  | false => simp
  | true =>
    cases hb : body.status with
    | str status =>
      simp only [Bool.not_true, Bool.false_eq_true, if_false]
      cases hv : validStatuses.contains (jsToLowerCase status) with
      | false => simp only [Bool.not_false, if_true]
      | true =>
        cases hp : w.primary with
        | false =>
          simp only [Bool.not_true, Bool.false_eq_true, if_false]
          split <;> rfl
        | true =>
          simp only [Bool.not_true, Bool.false_eq_true, if_false, if_true]
          have hne : (statusUpdateQuery body.admin_comments == historyQuery) = false := by
            unfold statusUpdateQuery
            cases truthy body.admin_comments <;> decide
          have key := @ledger_executeQuery_other (env.queryResult 0) w _
            (statusUpdateParams status body.admin_comments id) hne
          cases hq : executeQuery (env.queryResult 0) w (statusUpdateQuery body.admin_comments)
              (statusUpdateParams status body.admin_comments id) with
          | none => rfl
          | some r =>
            rw [hq] at key
            exact key
    | undefined => simp
    | null => simp
    | bool v => simp
    | num x => simp
    | other t => simp

/-- The fallback path of request creation leaves the ledger as it is. -/
theorem ledger_createInFallback (env : Env) (b : CreateBody) (requestId : String) (w : World) :
    ledger (createInFallback env b requestId w).2 = ledger w := by
  dsimp only [createInFallback]
  split <;> rfl

/-- A history insert that runs on the primary backend is recorded. -/
theorem logStatusHistory_of_success (rows : List (List (Option String))) (w : World)
    (requestId : String) (oldStatus : JsVal) (newStatus : String) (changedBy notes : JsVal)
    (hp : w.primary = true)
    (hrender : (processedSql historyQuery
      [.str requestId, oldStatus, .str newStatus, changedBy, notes]).isSome = true) :
    logStatusHistory (some rows) w requestId oldStatus newStatus changedBy notes =
      { w with executed := w.executed ++
          [⟨historyQuery, [.str requestId, oldStatus, .str newStatus, changedBy, notes]⟩] } := by
  have hsf : w.sqliteFound = true := by
    simp only [World.primary, Bool.and_eq_true] at hp
    exact hp.2
  obtain ⟨txt, htxt⟩ := Option.isSome_iff_exists.mp hrender
  simp only [logStatusHistory, hp, if_true, executeQuery, hsf, Bool.not_true,
    Bool.false_eq_true, if_false, htxt]

/-- C2 (amended). For a creation body that passes validation: when the primary
backend runs the request insert and the history insert, the create is answered
201 and the ledger gains exactly one entry, for the returned requestId, with old
status null and new status `submitted`; when the fallback store serves the
create, the ledger gains nothing. -/
theorem create_appends_initial_ledger_entry (env : Env) (b : CreateBody) (w : World)
    (h1 : missingRequiredFields b = false) (h2 : validateString b.requestorName 1 100 = true)
    (h3 : validateEmail b.requestorEmail = some true) :
    (w.primary = true →
      ((insertRequestParams b (generateRequestId env.dateNow env.uuid)).bind
        (executeQuery (env.queryResult 0) w insertRequestQuery)).isSome = true →
      (env.queryResult 1).isSome = true →
      (postRequest env b w).1 =
          .sent ⟨201, createdBody (generateRequestId env.dateNow env.uuid)⟩ ∧
        ledger (postRequest env b w).2 =
          ledger w ++
            [⟨historyQuery,
              [.str (generateRequestId env.dateNow env.uuid), .null, .str "submitted",
               sanitizeString b.requestorName, .str "Initial request submission"]⟩]) ∧
    (w.primary = false → ledger (postRequest env b w).2 = ledger w) := by
  rw [postRequest_of_valid env b w h1 h2 h3]
  constructor
  · intro hp hins hhist
    simp only [hp, if_true]
    cases hq : (insertRequestParams b (generateRequestId env.dateNow env.uuid)).bind
        (executeQuery (env.queryResult 0) w insertRequestQuery) with
    | none => simp [hq] at hins
    | some res =>
      obtain ⟨rows, w1⟩ := res
      obtain ⟨ps, -, hex⟩ := Option.bind_eq_some.mp hq
      have hw1 := executeQuery_some hex
      have hsf : w.sqliteFound = true := by
        simp only [World.primary, Bool.and_eq_true] at hp
        exact hp.2
      have hp1 : w1.primary = true := by rw [hw1]; exact hp
      obtain ⟨name, hname⟩ : ∃ name, b.requestorName = .str name := by
        cases hn : b.requestorName <;> simp [validateString, hn] at h2
        exact ⟨_, rfl⟩
      obtain ⟨rows1, hrows1⟩ := Option.isSome_iff_exists.mp hhist
      have hrender : (processedSql historyQuery
          [.str (generateRequestId env.dateNow env.uuid), .null, .str "submitted",
           sanitizeString b.requestorName, .str "Initial request submission"]).isSome = true := by
        unfold processedSql
        rw [Option.isSome_map']
        apply substituteParams_isSome
        intro p hp
        simp only [List.mem_cons, List.mem_singleton, List.not_mem_nil, or_false] at hp
        rcases hp with rfl | rfl | rfl | rfl | rfl <;>
          simp [renderParam, hname, sanitizeString]
      refine ⟨rfl, ?_⟩
      simp only
      rw [ledger_syncDatabase, hrows1, logStatusHistory_of_success rows1 w1 _ _ _ _ _ hp1 hrender,
        ledger_append, hw1, ledger_append]
      have hne : (insertRequestQuery == historyQuery) = false := by decide
      simp [hne]
  · intro hp
    simp only [hp, Bool.false_eq_true, if_false]
    exact ledger_createInFallback env b _ w

/-- Witness for C2: the sample body on the primary backend with every query
succeeding, and on the seeded fallback store. -/
theorem create_appends_initial_ledger_entry_witness :
    (postRequest sampleEnv sampleCreateBody primaryWorld).1 =
        .sent ⟨201, createdBody "REQ17092872000003F2A9C1E"⟩ ∧
      ledger (postRequest sampleEnv sampleCreateBody primaryWorld).2 =
        [⟨historyQuery,
          [.str "REQ17092872000003F2A9C1E", .null, .str "submitted", .str "Bob Lee",
           .str "Initial request submission"]⟩] ∧
      ledger (postRequest sampleEnv sampleCreateBody seededFallbackWorld).2 = [] := by
  have h := create_appends_initial_ledger_entry sampleEnv sampleCreateBody
  have hp := (h primaryWorld (by decide) (by decide) (by decide)).1 (by decide) (by decide)
    (by decide)
  have hf := (h seededFallbackWorld (by decide) (by decide) (by decide)).2 (by decide)
  exact ⟨hp.1, hp.2, hf⟩

/-- Counterexample to C2 as stated: on the seeded fallback store a create is
answered 201 and a transition of the new request to `processing` is answered
200, yet the ledger of that request is empty. -/
theorem create_then_transition_ledger_counterexample :
    (postRequest sampleEnv sampleCreateBody seededFallbackWorld).1 =
        .sent ⟨201, createdBody "REQ17092872000003F2A9C1E"⟩ ∧
      (putRequestStatusRoute sampleEnv "2" ⟨.str "processing", .undefined⟩
        (postRequest sampleEnv sampleCreateBody seededFallbackWorld).2).1.code = some 200 ∧
      ledgerOf "REQ17092872000003F2A9C1E"
        (putRequestStatusRoute sampleEnv "2" ⟨.str "processing", .undefined⟩
          (postRequest sampleEnv sampleCreateBody seededFallbackWorld).2).2 = [] := by
  decide

/-! ## Rejected status tokens -/

/-- C3 (amended). A status update whose status is absent or otherwise falsy, or
is a string whose lower-cased form is none of `submitted`, `processing`,
`failed`, `completed`, is answered 400 and leaves the whole server state
unchanged. -/
theorem unrecognised_status_rejected (env : Env) (id : String) (body : StatusBody) (w : World)
    (h : truthy body.status = false ∨
      ∃ s, body.status = .str s ∧ validStatuses.contains (jsToLowerCase s) = false) :
    (putRequestStatusRoute env id body w).1.code = some 400 ∧
      (putRequestStatusRoute env id body w).2 = w := by
  unfold putRequestStatusRoute putRequestStatusOverride
  cases hs : truthy body.status with
  | false => simp [Outcome.code]
  | true =>
    rcases h with h | ⟨s, hb, hv⟩
    · rw [hs] at h
      exact absurd h (by decide)
    · simp only [hb, hv, Bool.not_true, Bool.false_eq_true, if_false, Bool.not_false, if_true,
        Outcome.code, and_self]

/-- Witness for C3: the token `rejected` on the seeded fallback store. -/
theorem unrecognised_status_rejected_witness :
    (putRequestStatusRoute sampleEnv "1" ⟨.str "rejected", .null⟩ seededFallbackWorld).1.code
        = some 400 ∧
      (putRequestStatusRoute sampleEnv "1" ⟨.str "rejected", .null⟩ seededFallbackWorld).2
        = seededFallbackWorld :=
  unrecognised_status_rejected sampleEnv "1" ⟨.str "rejected", .null⟩ seededFallbackWorld
    (Or.inr ⟨"rejected", rfl, by decide⟩)

/-- Counterexample to C3 as stated: `COMPLETED` is none of the four tokens, yet
the update is answered 200 and the seeded request is changed. -/
theorem uppercase_status_accepted_counterexample :
    "COMPLETED" ∉ validStatuses ∧
      (putRequestStatusRoute sampleEnv "1" ⟨.str "COMPLETED", .null⟩
        seededFallbackWorld).1.code = some 200 ∧
      (putRequestStatusRoute sampleEnv "1" ⟨.str "COMPLETED", .null⟩
        seededFallbackWorld).2.memoryCache.requests ≠ seededFallbackWorld.memoryCache.requests := by
  decide

/-! ## Unknown ids on the primary backend -/

/-- C4 (failing input). With the primary backend connected, a status update
with a recognised status is answered 200 for every id whenever the `UPDATE`
statement runs, and 500 when it does not: the handler never looks the id up, so
no id is answered 404.  The first conjunct is the call for id `999`. -/
theorem primary_unknown_id_answered_200 :
    (putRequestStatusRoute sampleEnv "999" ⟨.str "processing", .undefined⟩ primaryWorld).1 =
        .sent ⟨200, [("success", .bool true),
          ("message", .str "Request status updated to processing"),
          ("admin_comments", .null)]⟩ ∧
      ∀ (env : Env) (id : String) (comments : JsVal) (m : MemoryCache) (ex : List SqlCall),
        (putRequestStatusRoute env id ⟨.str "processing", comments⟩
            ⟨true, true, m, ex⟩).1.code = some 200 ∨
          (putRequestStatusRoute env id ⟨.str "processing", comments⟩
            ⟨true, true, m, ex⟩).1.code = some 500 := by
  refine ⟨by decide, ?_⟩
  intro env id comments m ex
  have htr : truthy (.str "processing") = true := by decide
  have hv : validStatuses.contains (jsToLowerCase "processing") = true := by decide
  have hp : (World.primary ⟨true, true, m, ex⟩) = true := rfl
  simp only [putRequestStatusRoute, putRequestStatusOverride, htr, hv, hp, Bool.not_true,
    Bool.false_eq_true, if_false, if_true]
  split <;> simp [Outcome.code]

/-! ## Stored status values -/

/-- C5 (failing input). The status update `COMPLETED` for id `1` on the seeded
fallback store passes the lower-cased validation and is stored as sent: the
state reached holds a request whose status is none of the four tokens. -/
theorem reachable_status_outside_tokens :
    ReachableCache (putRequestStatusRoute sampleEnv "1" ⟨.str "COMPLETED", .undefined⟩
        seededFallbackWorld).2.memoryCache ∧
      (putRequestStatusRoute sampleEnv "1" ⟨.str "COMPLETED", .undefined⟩
        seededFallbackWorld).2.memoryCache.requests.map (·.status) = ["COMPLETED"] ∧
      "COMPLETED" ∉ validStatuses :=
  ⟨ReachableCache.transition sampleEnv "1" ⟨.str "COMPLETED", .undefined⟩ seededFallbackWorld
      (ReachableCache.seed "2024-03-01T09:00:00.000Z"),
    by decide, by decide⟩

/-! ## Primary-backend failures in the status handler -/

/-- C9 (failing input). With the primary backend connected and its `UPDATE`
rejected, the status update is answered 500 and the fallback store is not
consulted: the server state is unchanged, for every id and every state of the
fallback store. -/
theorem primary_failure_answered_500 (id : String) (m : MemoryCache) (ex : List SqlCall) :
    putRequestStatusRoute failingEnv id ⟨.str "processing", .undefined⟩ ⟨true, true, m, ex⟩ =
      (.sent ⟨500, [("error", .str "Failed to update request status")]⟩,
       ⟨true, true, m, ex⟩) := by
  have htr : truthy (.str "processing") = true := by decide
  have hv : validStatuses.contains (jsToLowerCase "processing") = true := by decide
  have hp : (World.primary ⟨true, true, m, ex⟩) = true := rfl
  have hu : truthy .undefined = false := rfl
  have hq : ∀ sql ps, executeQuery (failingEnv.queryResult 0) ⟨true, true, m, ex⟩ sql ps
      = none := by
    intro sql ps
    unfold executeQuery
    cases processedSql sql ps <;> rfl
  simp only [putRequestStatusRoute, putRequestStatusOverride, htr, hv, hp, hu, hq,
    Bool.not_true, Bool.false_eq_true, if_false, if_true]

/-! ## Parameter substitution -/

/-- C10 (failing inputs). A question mark inside an earlier parameter takes the
next parameter, and a `$&` inside a parameter is expanded to the placeholder:
in both cases the text `executeQuery` builds differs from the template with
each placeholder replaced by the rendering of its parameter. -/
theorem substitution_diverges_from_spec :
    processedSql "SELECT * FROM users WHERE username = ? AND team = ?"
        [.str "a?", .str "b"] =
      some "SELECT * FROM users WHERE username = 'a'b'' AND team = ?" ∧
    specProcessedSql "SELECT * FROM users WHERE username = ? AND team = ?"
        [.str "a?", .str "b"] =
      "SELECT * FROM users WHERE username = 'a?' AND team = 'b'" ∧
    processedSql "SELECT * FROM users WHERE username = ?" [.str "a$&b"] =
      some "SELECT * FROM users WHERE username = 'a?b'" ∧
    specProcessedSql "SELECT * FROM users WHERE username = ?" [.str "a$&b"] =
      "SELECT * FROM users WHERE username = 'a$&b'" := by
  decide

/-! ## Creation on the fallback store -/

theorem isLowerHex_ne_dash {c : Char} (h : isLowerHex c = true) : (c != '-') = true := by
  simp only [isLowerHex, List.contains_eq_any_beq, List.any_eq_true, beq_iff_eq] at h
  obtain ⟨d, hd, rfl⟩ := h
  simp only [String.data, List.mem_cons, List.mem_singleton, List.not_mem_nil, or_false] at hd
  rcases hd with rfl | rfl | rfl | rfl | rfl | rfl | rfl | rfl | rfl | rfl | rfl | rfl | rfl |
    rfl | rfl | rfl <;> decide

theorem isUpperHex_toUpper {c : Char} (h : isLowerHex c = true) :
    isUpperHex c.toUpper = true := by
  simp only [isLowerHex, List.contains_eq_any_beq, List.any_eq_true, beq_iff_eq] at h
  obtain ⟨d, hd, rfl⟩ := h
  simp only [String.data, List.mem_cons, List.mem_singleton, List.not_mem_nil, or_false] at hd
  rcases hd with rfl | rfl | rfl | rfl | rfl | rfl | rfl | rfl | rfl | rfl | rfl | rfl | rfl |
    rfl | rfl | rfl <;> decide

theorem matchesShape_group (n : Nat) (ps cs : List Char)
    (h : matchesShape (List.replicate n 'x' ++ '-' :: ps) cs = true) :
    ∃ g rest, cs = g ++ '-' :: rest ∧ g.length = n ∧ ∀ c ∈ g, isLowerHex c = true := by
  induction n generalizing cs with
  | zero =>
    cases cs with
    | nil => simp [matchesShape] at h
    | cons c cs1 =>
      simp only [List.replicate, List.nil_append, matchesShape, Bool.and_eq_true] at h
      have hc : c = '-' := by
        have h1 := h.1
        simp only [show ('-' == 'x') = false by decide, show ('-' == 'y') = false by decide,
          Bool.false_eq_true, if_false, beq_iff_eq] at h1
        exact h1
      exact ⟨[], cs1, by simp [hc], rfl, by simp⟩
  | succ k ih =>
    cases cs with
    | nil => simp [matchesShape, List.replicate] at h
    | cons c cs1 =>
      simp only [List.replicate, List.cons_append, matchesShape, Bool.and_eq_true] at h
      have hc : isLowerHex c = true := by
        have h1 := h.1
        simp only [show ('x' == 'x') = true by decide, if_true] at h1
        exact h1
      obtain ⟨g, rest, hcs, hlen, hall⟩ := ih cs1 h.2
      refine ⟨c :: g, rest, by simp [hcs], by simp [hlen], ?_⟩
      intro d hd
      rcases List.mem_cons.mp hd with rfl | hd
      · exact hc
      · exact hall d hd

theorem firstDashGroup_append (g rest : List Char) (h : ∀ c ∈ g, isLowerHex c = true) :
    firstDashGroup (g ++ '-' :: rest) = g := by
  induction g with
  | nil => simp [firstDashGroup, List.takeWhile]
  | cons c g1 ih =>
    have hc := isLowerHex_ne_dash (h c (List.mem_cons_self c g1))
    have ih1 := ih fun d hd => h d (List.mem_cons_of_mem c hd)
    simp only [firstDashGroup] at ih1 ⊢
    rw [List.cons_append, List.takeWhile_cons]
    simp only [hc, if_true, ih1]

/-- For a well-formed UUID, the identifier is `REQ`, the timestamp in decimal
and eight upper-case hexadecimal digits. -/
theorem generateRequestId_shape (timestamp : Nat) (uuid : String)
    (h : isUuidV4 uuid = true) :
    ∃ suffix : String, generateRequestId timestamp uuid = "REQ" ++ Nat.repr timestamp ++ suffix ∧
      suffix.data.length = 8 ∧ ∀ c ∈ suffix.data, isUpperHex c = true := by
  have hshape : uuidShape.data = List.replicate 8 'x' ++ '-' :: "xxxx-4xxx-yxxx-xxxxxxxxxxxx".data := by
    decide
  unfold isUuidV4 at h
  rw [hshape] at h
  obtain ⟨g, rest, hcs, hlen, hall⟩ := matchesShape_group 8 _ _ h
  refine ⟨jsToUpperCase (String.mk (firstDashGroup uuid.data)), rfl, ?_, ?_⟩
  · rw [hcs, firstDashGroup_append g rest hall]
    simp [jsToUpperCase, hlen]
  · rw [hcs, firstDashGroup_append g rest hall]
    intro c hc
    simp only [jsToUpperCase, List.mem_map] at hc
    obtain ⟨d, hd, rfl⟩ := hc
    exact isUpperHex_toUpper (hall d hd)

/-- C7. When `POST /api/requests` is answered 201 from the fallback path (the
primary backend is not in use, or its insert did not run) and `uuidv4()` gave a
well-formed UUID, the response carries a requestId made of `REQ`, the value of
`Date.now()` in decimal and eight upper-case hexadecimal digits; the seeded
store gains exactly one request, appended last, with that request_id and status
`submitted`; the requests stored before and the users are unchanged. -/
theorem fallback_create_appends_submitted_request (env : Env) (b : CreateBody) (w : World)
    (huuid : isUuidV4 env.uuid = true)
    (hfb : w.primary = false ∨
      (insertRequestParams b (generateRequestId env.dateNow env.uuid)).bind
        (executeQuery (env.queryResult 0) w insertRequestQuery) = none)
    (hok : (postRequest env b w).1.code = some 201) :
    ∃ (suffix : String) (r : Request),
      suffix.data.length = 8 ∧ (∀ c ∈ suffix.data, isUpperHex c = true) ∧
      (postRequest env b w).1 =
        .sent ⟨201, createdBody ("REQ" ++ Nat.repr env.dateNow ++ suffix)⟩ ∧
      (postRequest env b w).2.memoryCache.requests =
        (ensureInitialized (env.isoNow 0) w.memoryCache).requests ++ [r] ∧
      r.request_id = "REQ" ++ Nat.repr env.dateNow ++ suffix ∧ r.status = "submitted" ∧
      (postRequest env b w).2.memoryCache.users =
        (ensureInitialized (env.isoNow 0) w.memoryCache).users := by
  obtain ⟨h1, h2, h3⟩ := valid_of_postRequest_201 env b w hok
  obtain ⟨suffix, hsuf, hlen, hall⟩ := generateRequestId_shape env.dateNow env.uuid huuid
  have hpath : postRequest env b w =
      createInFallback env b (generateRequestId env.dateNow env.uuid)
        { w with memoryCache := ensureInitialized (env.isoNow 0) w.memoryCache } := by
    rw [postRequest_of_valid env b w h1 h2 h3]
    have hsame : createInFallback env b (generateRequestId env.dateNow env.uuid) w =
        createInFallback env b (generateRequestId env.dateNow env.uuid)
          { w with memoryCache := ensureInitialized (env.isoNow 0) w.memoryCache } := by
      simp only [createInFallback, ensureInitialized_idem]
    cases hp : w.primary with
    | false => simpa using hsame
    | true =>
      rcases hfb with hfb | hfb
      · rw [hp] at hfb
        exact absurd hfb (by decide)
      · simp only [if_true, hfb, initializeFallbackData_eq_ensureInitialized]
  rw [hpath] at hok ⊢
  obtain ⟨r, hr, heq⟩ := createInFallback_201 env b _ _ hok
  obtain ⟨-, hrid, hst⟩ := newRequest_fields env b _ _ r hr
  refine ⟨suffix, r, hlen, hall, ?_, ?_, ?_, hst, ?_⟩
  · rw [heq, hsuf]
  · rw [heq]
    simp only [ensureInitialized_idem]
  · rw [hrid, hsuf]
  · rw [heq]
    simp only [ensureInitialized_idem]

/-- Witness for C7: the sample body on the seeded fallback store. -/
theorem fallback_create_appends_submitted_request_witness :
    ∃ (suffix : String) (r : Request),
      suffix.data.length = 8 ∧ (∀ c ∈ suffix.data, isUpperHex c = true) ∧
      (postRequest sampleEnv sampleCreateBody seededFallbackWorld).1 =
        .sent ⟨201, createdBody ("REQ" ++ Nat.repr sampleEnv.dateNow ++ suffix)⟩ ∧
      (postRequest sampleEnv sampleCreateBody seededFallbackWorld).2.memoryCache.requests =
        (ensureInitialized (sampleEnv.isoNow 0) seededFallbackWorld.memoryCache).requests ++ [r] ∧
      r.request_id = "REQ" ++ Nat.repr sampleEnv.dateNow ++ suffix ∧ r.status = "submitted" ∧
      (postRequest sampleEnv sampleCreateBody seededFallbackWorld).2.memoryCache.users =
        (ensureInitialized (sampleEnv.isoNow 0) seededFallbackWorld.memoryCache).users :=
  fallback_create_appends_submitted_request sampleEnv sampleCreateBody seededFallbackWorld
    (by decide) (Or.inl (by decide)) (by decide)

/-! ## Addressing a created request -/

theorem le_foldl_max (l : List Nat) (a : Nat) :
    a ≤ l.foldl max a ∧ ∀ x ∈ l, x ≤ l.foldl max a := by
  induction l generalizing a with
  | nil => simp
  | cons y ys ih =>
    obtain ⟨h1, h2⟩ := ih (max a y)
    refine ⟨Nat.le_trans (Nat.le_max_left a y) h1, ?_⟩
    intro x hx
    rcases List.mem_cons.mp hx with rfl | hx
    · exact Nat.le_trans (Nat.le_max_right a x) h1
    · exact h2 x hx

theorem id_lt_nextRequestId (l : List Request) (r : Request) (h : r ∈ l) :
    r.id < nextRequestId l := by
  have := (le_foldl_max (l.map (·.id)) 0).2 r.id (List.mem_map_of_mem _ h)
  unfold nextRequestId
  omega

/-- C6 (amended). After a create that the fallback store answered 201, a status
update with a recognised status that addresses the new request by the numeric
id the store gave it (one more than the largest id present) is answered 200 and
sets the status of that request, the one carrying the returned requestId. -/
theorem transition_by_assigned_id_succeeds (env envT : Env) (b : CreateBody) (w : World)
    (id target : String) (comments : JsVal)
    (hfb : w.primary = false)
    (hok : (postRequest env b w).1.code = some 201)
    (hid : looseEqNatStr
      (nextRequestId (ensureInitialized (env.isoNow 0) w.memoryCache).requests) id = true)
    (ht : target ∈ validStatuses) :
    (putRequestStatusRoute envT id ⟨.str target, comments⟩ (postRequest env b w).2).1.code
        = some 200 ∧
      ((putRequestStatusRoute envT id ⟨.str target, comments⟩
          (postRequest env b w).2).2.memoryCache.requests[
            (ensureInitialized (env.isoNow 0) w.memoryCache).requests.length]?).map
          (fun q => (q.id, q.request_id, q.status)) =
        some (nextRequestId (ensureInitialized (env.isoNow 0) w.memoryCache).requests,
          generateRequestId env.dateNow env.uuid, target) := by
  obtain ⟨h1, h2, h3⟩ := valid_of_postRequest_201 env b w hok
  have hpath : postRequest env b w =
      createInFallback env b (generateRequestId env.dateNow env.uuid) w := by
    rw [postRequest_of_valid env b w h1 h2 h3]
    simp [hfb]
  rw [hpath] at hok ⊢
  obtain ⟨r, hr, heq⟩ := createInFallback_201 env b _ _ hok
  obtain ⟨hrid, hrreq, -⟩ := newRequest_fields env b _ _ r hr
  rw [heq]
  have htr := validStatuses_truthy ht
  have hv := validStatuses_lower ht
  have hinit : ∀ now2, ensureInitialized now2
      { ensureInitialized (env.isoNow 0) w.memoryCache with
        requests := (ensureInitialized (env.isoNow 0) w.memoryCache).requests ++ [r] } =
      { ensureInitialized (env.isoNow 0) w.memoryCache with
        requests := (ensureInitialized (env.isoNow 0) w.memoryCache).requests ++ [r] } := by
    intro now2
    apply ensureInitialized_of_initialized
    exact ensureInitialized_initialized _ _
  have hlast : ((ensureInitialized (env.isoNow 0) w.memoryCache).requests ++ [r])[
      (ensureInitialized (env.isoNow 0) w.memoryCache).requests.length]? = some r := by
    simp
  have hfi : findIndex (fun q => looseEqNatStr q.id id)
      ((ensureInitialized (env.isoNow 0) w.memoryCache).requests ++ [r]) =
      some (ensureInitialized (env.isoNow 0) w.memoryCache).requests.length := by
    apply findIndex_eq_some _ _ _ r hlast
    · show looseEqNatStr r.id id = true
      rw [hrid]; exact hid
    · intro j x hj hx
      have hxold : (ensureInitialized (env.isoNow 0) w.memoryCache).requests[j]? = some x := by
        rw [List.getElem?_append_left hj] at hx
        exact hx
      have hlt := id_lt_nextRequestId _ x (List.getElem?_mem hxold)
      cases hxe : looseEqNatStr x.id id with
      | false => rfl
      | true =>
        have := looseEqNatStr_inj hxe hid
        omega
  have h200 := override_fallback_found envT id target comments
    { w with memoryCache :=
        { ensureInitialized (env.isoNow 0) w.memoryCache with
          requests := (ensureInitialized (env.isoNow 0) w.memoryCache).requests ++ [r] } }
    _ hfb htr hv (by rw [hinit]; exact hfi)
  simp only [putRequestStatusRoute]
  rw [h200]
  refine ⟨rfl, ?_⟩
  simp only [hinit, getElem?_updateAt_self, hlast, Option.map_some', applyStatusOverride,
    hrid, hrreq]

/-- Witness for C6: the sample body on the seeded fallback store gets id 2, and
the update addressed to `2` moves it to `processing`. -/
theorem transition_by_assigned_id_succeeds_witness :
    (putRequestStatusRoute failingEnv "2" ⟨.str "processing", .undefined⟩
        (postRequest sampleEnv sampleCreateBody seededFallbackWorld).2).1.code = some 200 ∧
      ((putRequestStatusRoute failingEnv "2" ⟨.str "processing", .undefined⟩
          (postRequest sampleEnv sampleCreateBody seededFallbackWorld).2).2.memoryCache.requests[
            (ensureInitialized (sampleEnv.isoNow 0)
              seededFallbackWorld.memoryCache).requests.length]?).map
          (fun q => (q.id, q.request_id, q.status)) =
        some (nextRequestId
            (ensureInitialized (sampleEnv.isoNow 0) seededFallbackWorld.memoryCache).requests,
          generateRequestId sampleEnv.dateNow sampleEnv.uuid, "processing") :=
  transition_by_assigned_id_succeeds sampleEnv failingEnv sampleCreateBody seededFallbackWorld
    "2" "processing" .undefined (by decide) (by decide) (by decide) (by decide)

/-- Counterexample to C6 as stated: on the seeded fallback store the create is
answered 201 with a requestId, and the status update that references the
request by that requestId is answered 404. -/
theorem transition_by_requestId_counterexample :
    (postRequest sampleEnv sampleCreateBody seededFallbackWorld).1 =
        .sent ⟨201, createdBody "REQ17092872000003F2A9C1E"⟩ ∧
      (putRequestStatusRoute sampleEnv "REQ17092872000003F2A9C1E"
        ⟨.str "processing", .undefined⟩
        (postRequest sampleEnv sampleCreateBody seededFallbackWorld).2).1.code = some 404 := by
  decide

/-! ## Validation of a creation body -/

/-- C8 (amended). `POST /api/requests` is answered 400 exactly when one of
requestorName, requestorEmail, teamName, categoryName, requestDates, acctNumber,
requestName, currency, amount is falsy, or adjustment is undefined, or
requestorName is not a string of 1 to 100 code units, or requestorEmail does
not match the e-mail pattern; a 400 leaves the server state unchanged. -/
theorem create_rejected_iff_validation_fails (env : Env) (b : CreateBody) (w : World) :
    ((postRequest env b w).1.code = some 400 ↔
      (missingRequiredFields b = true ∨ validateString b.requestorName 1 100 = false ∨
        validateEmail b.requestorEmail = some false)) ∧
    ((postRequest env b w).1.code = some 400 → (postRequest env b w).2 = w) := by
  refine ⟨postRequest_code_400_iff env b w, ?_⟩
  intro h
  rcases (postRequest_code_400_iff env b w).mp h with h1 | h2 | h3
  · simp [postRequest, h1]
  · cases h1 : missingRequiredFields b <;> simp [postRequest, h1, h2]
  · cases h1 : missingRequiredFields b <;>
      cases h2 : validateString b.requestorName 1 100 <;> simp [postRequest, h1, h2, h3]

/-- Counterexample to C8 as stated: an amount that is not a parseable number and
an adjustment that is not an integer are accepted, the create is answered 201
and the stored amount and adjustment are `NaN`. -/
theorem unparseable_amount_accepted_counterexample :
    jsParseFloat (.str "abc") = some .nan ∧ jsParseInt (.str "x") = some .nan ∧
      (postRequest sampleEnv
        { sampleCreateBody with amount := .str "abc", adjustment := .str "x" }
        seededFallbackWorld).1.code = some 201 ∧
      (postRequest sampleEnv
        { sampleCreateBody with amount := .str "abc", adjustment := .str "x" }
        seededFallbackWorld).2.memoryCache.requests.map (fun r => (r.amount, r.adjustment)) =
        [(.fin false 15000 0, .fin false 0 0), (.nan, .nan)] := by
  decide

/-! ## Seeding of the fallback store -/

/-- C11. `initializeFallbackData` on an uninitialised store installs the seed
(the users `admin` and `alice.johnson`, one request with status `submitted`) and
marks the store initialised; on an initialised store, whatever it holds, it
changes nothing; so a second call after the first changes nothing. -/
theorem initializeFallbackData_seeds_once (now now2 : String) (m : MemoryCache) :
    (m.initialized = false →
      (initializeFallbackData now m).users = seedUsers ∧
      (initializeFallbackData now m).users.map (·.username) =
        [.str "admin", .str "alice.johnson"] ∧
      (initializeFallbackData now m).requests = [seedRequest now] ∧
      (initializeFallbackData now m).requests.map (·.status) = ["submitted"] ∧
      (initializeFallbackData now m).initialized = true) ∧
    (m.initialized = true → initializeFallbackData now m = m) ∧
    initializeFallbackData now2 (initializeFallbackData now m) = initializeFallbackData now m := by
  refine ⟨?_, ?_, ?_⟩
  · intro h
    have he : initializeFallbackData now m =
        { users := seedUsers, requests := [seedRequest now], initialized := true } := by
      simp only [initializeFallbackData, h, Bool.false_eq_true, if_false]
    rw [he]
    exact ⟨rfl, rfl, rfl, rfl, rfl⟩
  · intro h
    simp only [initializeFallbackData, h, if_true]
  · cases h : m.initialized with
    | true => simp only [initializeFallbackData, h, if_true]
    | false => simp only [initializeFallbackData, h, Bool.false_eq_true, if_false, if_true]

/-! ## Ledger failures during creation -/

/-- The number of request inserts among the statements that have run. -/
theorem count_insert_append (l : List SqlCall) (c : SqlCall) :
    ((l ++ [c]).filter fun x => x.sql == insertRequestQuery).length =
      (l.filter fun x => x.sql == insertRequestQuery).length +
        (if c.sql == insertRequestQuery then 1 else 0) := by
  rw [List.filter_append, List.length_append]
  by_cases h : (c.sql == insertRequestQuery) = true
  · simp [List.filter, h]
  · simp [List.filter, h]

/-- What `logStatusHistory` does to the server state, for every outcome of its
query: nothing, or one history insert recorded. -/
theorem logStatusHistory_cases (result : Option (List (List (Option String)))) (w : World)
    (requestId : String) (oldStatus : JsVal) (newStatus : String) (changedBy notes : JsVal) :
    logStatusHistory result w requestId oldStatus newStatus changedBy notes = w ∨
      logStatusHistory result w requestId oldStatus newStatus changedBy notes =
        { w with executed := w.executed ++
            [⟨historyQuery, [.str requestId, oldStatus, .str newStatus, changedBy, notes]⟩] } := by
  unfold logStatusHistory
  split
  · split
    · next rows w1 h => exact Or.inr (executeQuery_some h)
    · exact Or.inl rfl
  · exact Or.inl rfl

theorem logStatusHistory_of_failure (w : World)
    (requestId : String) (oldStatus : JsVal) (newStatus : String) (changedBy notes : JsVal) :
    logStatusHistory none w requestId oldStatus newStatus changedBy notes = w := by
  have hq : ∀ sql ps, executeQuery none w sql ps = none := by
    intro sql ps
    unfold executeQuery
    split
    · rfl
    · split <;> rfl
  unfold logStatusHistory
  rw [hq]
  split <;> rfl

theorem syncDatabase_cases (result : Option (List (List (Option String)))) (w : World) :
    syncDatabase result w = w ∨
      syncDatabase result w =
        { w with executed := w.executed ++ [⟨"PRAGMA synchronous = FULL", []⟩] } := by
  unfold syncDatabase
  split
  · exact Or.inl rfl
  · split
    · next rows w1 h => exact Or.inr (executeQuery_some h)
    · exact Or.inl rfl

/-- C20. Whatever the outcome of the history insert (and of the pragma that
follows), a create whose request insert has run on the primary backend is
answered 201 with its requestId; exactly one request insert is recorded, the
fallback store is not written, and when the history insert is rejected the
ledger is as before. -/
theorem ledger_failure_does_not_block_create (env : Env) (b : CreateBody) (w : World)
    (h1 : missingRequiredFields b = false) (h2 : validateString b.requestorName 1 100 = true)
    (h3 : validateEmail b.requestorEmail = some true)
    (hp : w.primary = true)
    (hins : ((insertRequestParams b (generateRequestId env.dateNow env.uuid)).bind
      (executeQuery (env.queryResult 0) w insertRequestQuery)).isSome = true) :
    (postRequest env b w).1 =
        .sent ⟨201, createdBody (generateRequestId env.dateNow env.uuid)⟩ ∧
      (postRequest env b w).2.memoryCache = w.memoryCache ∧
      ((postRequest env b w).2.executed.filter fun c => c.sql == insertRequestQuery).length =
        (w.executed.filter fun c => c.sql == insertRequestQuery).length + 1 ∧
      (env.queryResult 1 = none → ledger (postRequest env b w).2 = ledger w) := by
  rw [postRequest_of_valid env b w h1 h2 h3]
  simp only [hp, if_true]
  cases hq : (insertRequestParams b (generateRequestId env.dateNow env.uuid)).bind
      (executeQuery (env.queryResult 0) w insertRequestQuery) with
  | none => simp [hq] at hins
  | some res =>
    obtain ⟨rows, w1⟩ := res
    obtain ⟨ps, -, hex⟩ := Option.bind_eq_some.mp hq
    have hw1 := executeQuery_some hex
    simp only
    have hne1 : (historyQuery == insertRequestQuery) = false := by decide
    have hne2 : ("PRAGMA synchronous = FULL" == insertRequestQuery) = false := by decide
    have hne3 : (insertRequestQuery == historyQuery) = false := by decide
    refine ⟨trivial, ?_, ?_, ?_⟩
    · rcases syncDatabase_cases (env.queryResult 2)
          (logStatusHistory (env.queryResult 1) w1 (generateRequestId env.dateNow env.uuid)
            .null "submitted" (sanitizeString b.requestorName)
            (.str "Initial request submission")) with hs | hs <;>
        rcases logStatusHistory_cases (env.queryResult 1) w1
          (generateRequestId env.dateNow env.uuid) .null "submitted"
          (sanitizeString b.requestorName) (.str "Initial request submission") with hl | hl <;>
        rw [hs, hl, hw1]
    · rcases syncDatabase_cases (env.queryResult 2)
          (logStatusHistory (env.queryResult 1) w1 (generateRequestId env.dateNow env.uuid)
            .null "submitted" (sanitizeString b.requestorName)
            (.str "Initial request submission")) with hs | hs <;>
        rcases logStatusHistory_cases (env.queryResult 1) w1
          (generateRequestId env.dateNow env.uuid) .null "submitted"
          (sanitizeString b.requestorName) (.str "Initial request submission") with hl | hl <;>
        rw [hs, hl, hw1] <;>
        simp only [count_insert_append, hne1, hne2, beq_self_eq_true, if_true,
          Bool.false_eq_true, if_false, Nat.add_zero]
    · intro hfail
      rw [ledger_syncDatabase, hfail, logStatusHistory_of_failure, hw1, ledger_append]
      simp [hne3]

/-- Witness for C20: the sample body on the primary backend, with the request
insert running and the history insert and the pragma rejected. -/
theorem ledger_failure_does_not_block_create_witness :
    (postRequest insertOnlyEnv sampleCreateBody primaryWorld).1 =
        .sent ⟨201, createdBody (generateRequestId insertOnlyEnv.dateNow insertOnlyEnv.uuid)⟩ ∧
      (postRequest insertOnlyEnv sampleCreateBody primaryWorld).2.memoryCache =
        primaryWorld.memoryCache ∧
      ((postRequest insertOnlyEnv sampleCreateBody primaryWorld).2.executed.filter
          fun c => c.sql == insertRequestQuery).length =
        (primaryWorld.executed.filter fun c => c.sql == insertRequestQuery).length + 1 ∧
      (insertOnlyEnv.queryResult 1 = none →
        ledger (postRequest insertOnlyEnv sampleCreateBody primaryWorld).2 =
          ledger primaryWorld) :=
  ledger_failure_does_not_block_create insertOnlyEnv sampleCreateBody primaryWorld
    (by decide) (by decide) (by decide) (by decide) (by decide)

/-! ## Usernames in the fallback store -/

/-- C17 (failing input). On the seeded fallback store the registration of the
username `admin` followed by a tab passes validation, is not found among the
stored usernames, and is answered with success; the user is stored under the
sanitised username `admin`, so the state reached holds two users named `admin`. -/
theorem reachable_duplicate_username :
    ReachableByRegistration
        (postRegister sampleEnv tabbedAdminBody seededFallbackWorld).2.memoryCache ∧
      (postRegister sampleEnv tabbedAdminBody seededFallbackWorld).1 =
        .registered (.str "admin\t") (.str "eve@company.com") (.str "Operations") ∧
      (postRegister sampleEnv tabbedAdminBody seededFallbackWorld).2.memoryCache.users.map
          (·.username) = [.str "admin", .str "alice.johnson", .str "admin"] :=
  ⟨ReachableByRegistration.register sampleEnv tabbedAdminBody seededFallbackWorld
      (ReachableByRegistration.seed "2024-03-01T09:00:00.000Z"),
    by decide, by decide⟩

/-! ## Login after a password mismatch on the primary backend -/

/-- C18 (failing input). The primary backend answers the lookup of `admin` with
a row whose password is not the one supplied; the handler then consults the
fallback store, seeds it, finds the seeded `admin` with password `admin123` and
answers success. -/
theorem login_succeeds_after_primary_mismatch :
    (parseUserRow changedAdminRow).password = .str "S3cure-new-pass" ∧
      (postLogin changedAdminEnv ⟨.str "admin", .str "admin123"⟩ primaryWorld).1 =
        .success
          { id := .fin false 1 0, name := .str "Administrator", username := .str "admin",
            email := .str "admin@system.com", team := .str "Administration", isAdmin := true,
            description := .str "System Administrator" } ∧
      (postLogin changedAdminEnv ⟨.str "admin", .str "admin123"⟩
        primaryWorld).2.memoryCache.initialized = true := by
  decide

/-! ## Listing requests without a username -/

/-- C19 (failing input). In fallback mode a call with neither `isAdmin=true` nor
a username is answered 200 with an empty list on the seeded store, and every
call is answered 200 whatever the store holds: the fallback branch has no
answer 400.  On the primary backend the same call is answered 400. -/
theorem missing_username_answered_200_in_fallback :
    (getRequests sampleEnv .undefined .undefined seededFallbackWorld).1 = .stored [] ∧
      (∀ (env : Env) (username isAdminParam : JsVal) (m : MemoryCache) (ex : List SqlCall),
        (getRequests env username isAdminParam ⟨false, false, m, ex⟩).1.code = 200) ∧
      (∀ (env : Env) (m : MemoryCache) (ex : List SqlCall),
        (getRequests env .undefined .undefined ⟨true, true, m, ex⟩).1 =
          .failed 400 "Username is required for non-admin users") := by
  refine ⟨by decide, ?_, ?_⟩
  · intro env username isAdminParam m ex
    simp only [getRequests, World.primary, Bool.and_self, Bool.false_eq_true, if_false,
      fallbackRequests]
    split <;> rfl
  · intro env m ex
    rfl

/-! ## Binary64 rounding: error bounds -/

theorem log2Fuel_eq (fuel n : Nat) (h : n ≤ fuel) : log2Fuel fuel n = Nat.log2 n := by
  induction fuel generalizing n with
  | zero =>
    have hn : n = 0 := Nat.le_zero.mp h
    subst hn
    simp [log2Fuel, Nat.log2]
  | succ k ih =>
    rw [Nat.log2]
    simp only [log2Fuel, ge_iff_le]
    by_cases h2 : 2 ≤ n
    · simp only [h2, if_true]
      rw [ih (n / 2) (by omega)]
    · simp only [h2, if_false]

theorem ilog2_eq (n : Nat) : ilog2 n = Nat.log2 n := log2Fuel_eq n n (Nat.le_refl n)

theorem ilog2_bounds (n : Nat) (h : 0 < n) : 2 ^ ilog2 n ≤ n ∧ n < 2 ^ (ilog2 n + 1) := by
  rw [ilog2_eq]
  exact ⟨Nat.log2_self_le (by omega), Nat.lt_log2_self⟩

theorem two_zpow_split (e : ℤ) :
    (2 : ℚ) ^ e = (2 : ℚ) ^ e.toNat / (2 : ℚ) ^ (-e).toNat := by
  rcases le_or_lt 0 e with h | h
  · have h1 : (-e).toNat = 0 := Int.toNat_eq_zero.mpr (by omega)
    have h2 : e = (e.toNat : ℤ) := (Int.toNat_of_nonneg h).symm
    rw [h1, pow_zero, div_one]
    conv_lhs => rw [h2]
    rw [zpow_natCast]
  · have h1 : e.toNat = 0 := Int.toNat_eq_zero.mpr (by omega)
    have h2 : e = -((-e).toNat : ℤ) := by
      rw [Int.toNat_of_nonneg (by omega)]; omega
    rw [h1, pow_zero]
    conv_lhs => rw [h2]
    rw [zpow_neg, zpow_natCast, one_div]

/-- Rounding a quotient to the nearest integer errs by at most one half. -/
theorem roundHalfEven_spec (N D : Nat) (hD : 0 < D) :
    2 * (roundHalfEven N D * D) ≤ 2 * N + D ∧ 2 * N ≤ 2 * (roundHalfEven N D * D) + D := by
  have hdm := Nat.div_add_mod N D
  have hlt := Nat.mod_lt N hD
  have hmul : (N / D + 1) * D = D * (N / D) + D := by ring
  have hmul0 : N / D * D = D * (N / D) := by ring
  unfold roundHalfEven
  split
  · rw [hmul0]; omega
  · split
    · rw [hmul]; omega
    · split
      · rw [hmul0]; omega
      · rw [hmul]; omega

theorem roundHalfEven_spec_rat (N D : Nat) (hD : 0 < D) :
    |(roundHalfEven N D : ℚ) - (N : ℚ) / D| ≤ 1 / 2 := by
  obtain ⟨h1, h2⟩ := roundHalfEven_spec N D hD
  have hDq : (0 : ℚ) < D := by exact_mod_cast hD
  have h1q : (2 : ℚ) * (roundHalfEven N D * D) ≤ 2 * N + D := by exact_mod_cast h1
  have h2q : (2 : ℚ) * N ≤ 2 * (roundHalfEven N D * D) + D := by exact_mod_cast h2
  have hN : (N : ℚ) = (N : ℚ) / D * D := by field_simp
  generalize (N : ℚ) / D = t at hN ⊢
  generalize (roundHalfEven N D : ℚ) = m at h1q h2q ⊢
  rw [hN] at h1q h2q
  have a1 : 2 * m ≤ 2 * t + 1 := by
    by_contra hc
    push_neg at hc
    nlinarith
  have a2 : 2 * t ≤ 2 * m + 1 := by
    by_contra hc
    push_neg at hc
    nlinarith
  rw [abs_le]
  constructor <;> linarith

/-- Rounding at a binary exponent `e` with `2 ^ 52 · 2 ^ e ≤ p / q`: the error is
at most `2 ^ -53` of the value, and the significand is positive. -/
theorem round_at_exponent (p q : Nat) (hq : 0 < q) (e : ℤ)
    (hbin : (2 : ℚ) ^ 52 * 2 ^ e ≤ (p : ℚ) / q) :
    |(roundHalfEven (p * 2 ^ (-e).toNat) (q * 2 ^ e.toNat) : ℚ) * 2 ^ e - (p : ℚ) / q|
        ≤ (p : ℚ) / q / 2 ^ 53 ∧
      0 < roundHalfEven (p * 2 ^ (-e).toNat) (q * 2 ^ e.toNat) := by
  have hqq : (0 : ℚ) < q := by exact_mod_cast hq
  have hD : 0 < q * 2 ^ e.toNat := Nat.mul_pos hq (Nat.pow_pos (by decide))
  have hr := roundHalfEven_spec_rat (p * 2 ^ (-e).toNat) (q * 2 ^ e.toNat) hD
  have he : (0 : ℚ) < 2 ^ e := zpow_pos (by norm_num) e
  have hND : ((p * 2 ^ (-e).toNat : ℕ) : ℚ) / ((q * 2 ^ e.toNat : ℕ) : ℚ) = (p : ℚ) / q / 2 ^ e := by
    rw [two_zpow_split e]
    push_cast
    have h1 : (0 : ℚ) < 2 ^ e.toNat := pow_pos (by norm_num) _
    have h2 : (0 : ℚ) < 2 ^ (-e).toNat := pow_pos (by norm_num) _
    field_simp
  rw [hND] at hr
  obtain ⟨mn, hmn⟩ : ∃ mn, mn = roundHalfEven (p * 2 ^ (-e).toNat) (q * 2 ^ e.toNat) :=
    ⟨_, rfl⟩
  rw [← hmn] at hr ⊢
  generalize (p : ℚ) / q = x at hbin hr ⊢
  generalize (2 : ℚ) ^ e = E at he hbin hr ⊢
  obtain ⟨hr1, hr2⟩ := abs_le.mp hr
  have hxE : x / E * E = x := by field_simp
  have h52 : (2 : ℚ) ^ 52 ≤ x / E := by
    rw [le_div_iff₀ he]; exact hbin
  have hE : E ≤ x / 2 ^ 52 := by
    rw [le_div_iff₀ (by norm_num)]; linarith
  have hx53 : x / 2 ^ 53 = x / 2 ^ 52 / 2 := by
    rw [div_div]; norm_num
  constructor
  · rw [abs_le]
    constructor
    · nlinarith
    · nlinarith
  · have hm : (0 : ℚ) < mn := by
      have : (1 : ℚ) ≤ 2 ^ 52 := by norm_num
      linarith
    exact_mod_cast hm


/-- The binary exponent chosen by `roundToDouble` does not exceed the exponent of
the quotient. -/
theorem binade_lower (p q : Nat) (hp : 0 < p) (hq : 0 < q) :
    (2 : ℚ) ^ (if q * 2 ^ ((ilog2 p : ℤ) - (ilog2 q : ℤ)).toNat ≤
          p * 2 ^ (-((ilog2 p : ℤ) - (ilog2 q : ℤ))).toNat
        then (ilog2 p : ℤ) - (ilog2 q : ℤ) else (ilog2 p : ℤ) - (ilog2 q : ℤ) - 1)
      ≤ (p : ℚ) / q := by
  have hqq : (0 : ℚ) < q := by exact_mod_cast hq
  obtain ⟨hp1, -⟩ := ilog2_bounds p hp
  obtain ⟨-, hq2⟩ := ilog2_bounds q hq
  generalize ilog2 p = lp at hp1 ⊢
  generalize ilog2 q = lq at hq2 ⊢
  split
  · next h =>
    rw [two_zpow_split, div_le_div_iff₀ (pow_pos (by norm_num) _) hqq]
    have : ((q * 2 ^ ((lp : ℤ) - (lq : ℤ)).toNat : ℕ) : ℚ) ≤
        ((p * 2 ^ (-((lp : ℤ) - (lq : ℤ))).toNat : ℕ) : ℚ) := by exact_mod_cast h
    push_cast at this
    linarith
  · have h1 : ((2 : ℚ) ^ lp) ≤ p := by exact_mod_cast hp1
    have h2 : (q : ℚ) ≤ 2 ^ (lq + 1) := by exact_mod_cast hq2.le
    have hs : (lp : ℤ) - (lq : ℤ) - 1 = (lp : ℤ) - ((lq + 1 : ℕ) : ℤ) := by push_cast; ring
    rw [hs, zpow_sub₀ (by norm_num), zpow_natCast, zpow_natCast]
    have hpos : (0 : ℚ) < 2 ^ (lq + 1) := pow_pos (by norm_num) _
    calc (2 : ℚ) ^ lp / 2 ^ (lq + 1) ≤ (p : ℚ) / 2 ^ (lq + 1) :=
          div_le_div_of_nonneg_right h1 hpos.le
      _ ≤ (p : ℚ) / q := div_le_div_of_nonneg_left (by positivity) hqq h2

/-- The binary64 rounding of a positive quotient errs by at most `2 ^ -53` of the
quotient, and its significand is positive. -/
theorem roundToDouble_spec (p q : Nat) (hp : 0 < p) (hq : 0 < q) :
    |((roundToDouble p q).1 : ℚ) * 2 ^ (roundToDouble p q).2 - (p : ℚ) / q|
        ≤ (p : ℚ) / q / 2 ^ 53 ∧
      0 < (roundToDouble p q).1 := by
  have hb := binade_lower p q hp hq
  simp only [roundToDouble]
  apply round_at_exponent p q hq
  generalize (if q * 2 ^ ((ilog2 p : ℤ) - (ilog2 q : ℤ)).toNat ≤
          p * 2 ^ (-((ilog2 p : ℤ) - (ilog2 q : ℤ))).toNat
        then (ilog2 p : ℤ) - (ilog2 q : ℤ) else (ilog2 p : ℤ) - (ilog2 q : ℤ) - 1) = l at hb ⊢
  rw [zpow_sub₀ (by norm_num : (2 : ℚ) ≠ 0)]
  have h52 : (2 : ℚ) ^ (52 : ℤ) = 2 ^ 52 := by norm_cast
  rw [h52]
  have : (2 : ℚ) ^ 52 * (2 ^ l / 2 ^ 52) = 2 ^ l := by field_simp
  rw [this]
  exact hb

/-- The integer `Math.round` yields on a non-negative binary64 value is the floor
of the value plus one half. -/
theorem mathRound_spec (m : Nat) (e : ℤ) :
    ∃ r : Nat, Dbl.mathRound (.fin false m e) = .fin false r 0 ∧
      (r : ℚ) ≤ (m : ℚ) * 2 ^ e + 1 / 2 ∧ (m : ℚ) * 2 ^ e + 1 / 2 < (r : ℚ) + 1 := by
  by_cases he : 0 ≤ e
  · refine ⟨m * 2 ^ e.toNat, by simp [Dbl.mathRound, he], ?_, ?_⟩
    · rw [two_zpow_split]
      have : (-e).toNat = 0 := by omega
      rw [this]
      push_cast
      simp
    · rw [two_zpow_split]
      have : (-e).toNat = 0 := by omega
      rw [this]
      push_cast
      simp
      linarith
  · refine ⟨(2 * m + 2 ^ (-e).toNat) / 2 ^ ((-e).toNat + 1), by simp [Dbl.mathRound, he], ?_, ?_⟩
    · rw [two_zpow_split]
      have h0 : e.toNat = 0 := by omega
      rw [h0]
      generalize (-e).toNat = k
      have hk : (0 : ℚ) < 2 ^ k := pow_pos (by norm_num) _
      have hdiv := Nat.div_mul_le_self (2 * m + 2 ^ k) (2 ^ (k + 1))
      have hq : (((2 * m + 2 ^ k) / 2 ^ (k + 1) * 2 ^ (k + 1) : ℕ) : ℚ) ≤
          ((2 * m + 2 ^ k : ℕ) : ℚ) := by exact_mod_cast hdiv
      push_cast at hq ⊢
      generalize (((2 * m + 2 ^ k) / 2 ^ (k + 1) : ℕ) : ℚ) = r at hq ⊢
      rw [pow_succ] at hq
      have hz : (m : ℚ) * (2 ^ 0 / 2 ^ k) + 1 / 2 = (2 * m + 2 ^ k) / (2 ^ k * 2) := by
        field_simp
        ring
      rw [hz, le_div_iff₀ (by positivity)]
      linarith
    · rw [two_zpow_split]
      have h0 : e.toNat = 0 := by omega
      rw [h0]
      generalize (-e).toNat = k
      have hk : (0 : ℚ) < 2 ^ k := pow_pos (by norm_num) _
      have hdiv := Nat.lt_succ_iff.mpr (le_refl ((2 * m + 2 ^ k) / 2 ^ (k + 1)))
      rw [Nat.div_lt_iff_lt_mul (Nat.pow_pos (by norm_num))] at hdiv
      have hq : ((2 * m + 2 ^ k : ℕ) : ℚ) <
          ((((2 * m + 2 ^ k) / 2 ^ (k + 1)).succ * 2 ^ (k + 1) : ℕ) : ℚ) := by exact_mod_cast hdiv
      push_cast at hq ⊢
      generalize (((2 * m + 2 ^ k) / 2 ^ (k + 1) : ℕ) : ℚ) = r at hq ⊢
      rw [pow_succ] at hq
      have hz : (m : ℚ) * (2 ^ 0 / 2 ^ k) + 1 / 2 = (2 * m + 2 ^ k) / (2 ^ k * 2) := by
        field_simp
        ring
      rw [hz, div_lt_iff₀ (by positivity)]
      linarith

/-- The quotient of two positive counts, times 100, as computed in binary64:
the result is within `300 / 2 ^ 53` of the exact percentage. -/
theorem times_divide_error (c n : Nat) (hc : 0 < c) (hn : 0 < n) (hcn : c ≤ n) :
    ∃ (m : Nat) (e : ℤ),
      (jsDivide (JsNum.ofNat c) (JsNum.ofNat n)).times 100 = .fin false m e ∧
      |(m : ℚ) * 2 ^ e - 100 * (c : ℚ) / n| ≤ 300 / 2 ^ 53 := by
  have hdiv : jsDivide (JsNum.ofNat c) (JsNum.ofNat n) =
      .fin false (roundToDouble c n).1 (roundToDouble c n).2 := by
    simp [jsDivide, JsNum.ofNat, decimalNum, decimalDen, Dbl.ofRatio, hc.ne.symm, hn.ne.symm]
  obtain ⟨h1, hm1⟩ := roundToDouble_spec c n hc hn
  generalize (roundToDouble c n).1 = m1 at hdiv h1 hm1
  generalize (roundToDouble c n).2 = e1 at hdiv h1
  have hp : 0 < 100 * m1 * 2 ^ e1.toNat := by positivity
  have hq : 0 < 2 ^ (-e1).toNat := by positivity
  have htimes : (jsDivide (JsNum.ofNat c) (JsNum.ofNat n)).times 100 =
      .fin false (roundToDouble (100 * m1 * 2 ^ e1.toNat) (2 ^ (-e1).toNat)).1
        (roundToDouble (100 * m1 * 2 ^ e1.toNat) (2 ^ (-e1).toNat)).2 := by
    rw [hdiv]
    simp [Dbl.times, Dbl.ofRatio, hp.ne.symm, hm1.ne.symm]
  obtain ⟨h2, -⟩ := roundToDouble_spec _ _ hp hq
  refine ⟨_, _, htimes, ?_⟩
  generalize ((roundToDouble (100 * m1 * 2 ^ e1.toNat) (2 ^ (-e1).toNat)).1 : ℚ) *
    2 ^ (roundToDouble (100 * m1 * 2 ^ e1.toNat) (2 ^ (-e1).toNat)).2 = z at h2 ⊢
  have hy : ((100 * m1 * 2 ^ e1.toNat : ℕ) : ℚ) / ((2 ^ (-e1).toNat : ℕ) : ℚ) =
      100 * ((m1 : ℚ) * 2 ^ e1) := by
    rw [two_zpow_split e1]
    push_cast
    ring
  rw [hy] at h2
  generalize (m1 : ℚ) * 2 ^ e1 = y at h1 h2
  have hx0 : (0 : ℚ) ≤ (c : ℚ) / n := by positivity
  have hx1 : (c : ℚ) / n ≤ 1 := by
    rw [div_le_one (by exact_mod_cast hn)]
    exact_mod_cast hcn
  have hxe : 100 * (c : ℚ) / n = 100 * ((c : ℚ) / n) := by ring
  rw [hxe]
  generalize (c : ℚ) / n = x at h1 hx0 hx1 ⊢
  rw [abs_le] at h1 h2 ⊢
  obtain ⟨h1a, h1b⟩ := h1
  obtain ⟨h2a, h2b⟩ := h2
  have h53 : (0 : ℚ) < 2 ^ 53 := by norm_num
  obtain ⟨u, hu⟩ : ∃ u : ℚ, u = ((2 : ℚ) ^ 53)⁻¹ := ⟨_, rfl⟩
  have hu0 : 0 < u := by rw [hu]; positivity
  have hu1 : u ≤ 1 := by rw [hu]; norm_num
  have e300 : (300 : ℚ) / 2 ^ 53 = 300 * u := by rw [hu]; ring
  have ex : x / 2 ^ 53 = x * u := by rw [hu]; ring
  have ey : 100 * y / 2 ^ 53 = 100 * (y * u) := by rw [hu]; ring
  rw [ex] at h1a h1b
  rw [ey] at h2a h2b
  rw [e300]
  have hxu : x * u ≤ u := by
    have := mul_le_mul_of_nonneg_right hx1 hu0.le
    linarith
  have hxu0 : 0 ≤ x * u := mul_nonneg hx0 hu0.le
  have hy2 : y ≤ 2 := by linarith
  have hyu : y * u ≤ 2 * u := mul_le_mul_of_nonneg_right hy2 hu0.le
  constructor <;> linarith

/-- Two-sided bound that makes `r` an integer nearest to `100 · c / n`, turned
into the value of `round` or of `round` lowered by one at an exact half. -/
theorem nearest_of_bounds (c n r : Nat) (hn : 0 < n)
    (h1 : 2 * n * r ≤ 200 * c + n) (h2 : 200 * c ≤ 2 * n * r + n) :
    r = (200 * c + n) / (2 * n) ∨
      ((200 * c + n) % (2 * n) = 0 ∧ r + 1 = (200 * c + n) / (2 * n)) := by
  have h2n : 0 < 2 * n := by omega
  have hdm := Nat.div_add_mod (200 * c + n) (2 * n)
  have hmod := Nat.mod_lt (200 * c + n) h2n
  generalize (200 * c + n) / (2 * n) = Q at hdm ⊢
  generalize (200 * c + n) % (2 * n) = R at hdm hmod ⊢
  have hrQ : r ≤ Q := by
    by_contra hlt
    have : 2 * n * (Q + 1) ≤ 2 * n * r := Nat.mul_le_mul_left _ (by omega)
    rw [Nat.mul_add] at this
    omega
  have hQr : Q ≤ r + 1 := by
    by_contra hlt
    have : 2 * n * (r + 2) ≤ 2 * n * Q := Nat.mul_le_mul_left _ (by omega)
    rw [Nat.mul_add] at this
    omega
  rcases Nat.lt_or_ge r Q with hlt | hge
  · right
    have hQ : Q = r + 1 := by omega
    subst hQ
    rw [Nat.mul_add] at hdm
    exact ⟨by omega, rfl⟩
  · left
    omega

/-- The percentage expression on two counts `c ≤ n < 2 ^ 32` is an integer from
0 to 100: 0 when `n = 0`, and otherwise an integer nearest to `100 · c / n`,
namely `round (100 · c / n)` or, at an exact half, possibly the integer below. -/
theorem jsPercentage_nearest (c n : Nat) (hcn : c ≤ n) (hn : n < 2 ^ 32) :
    ∃ r : Nat, jsPercentage c n = .fin false r 0 ∧ r ≤ 100 ∧ (n = 0 → r = 0) ∧
      (0 < n → r = (200 * c + n) / (2 * n) ∨
        ((200 * c + n) % (2 * n) = 0 ∧ r + 1 = (200 * c + n) / (2 * n))) := by
  rcases Nat.eq_zero_or_pos n with h0 | hpos
  · subst h0
    exact ⟨0, by simp [jsPercentage, percentOfNumbers, JsNum.ofNat, JsNum.isPositive],
      by omega, fun _ => rfl, fun h => absurd h (by omega)⟩
  have hposB : (JsNum.ofNat n).isPositive = true := by
    simp [JsNum.ofNat, JsNum.isPositive, hpos.ne.symm]
  rcases Nat.eq_zero_or_pos c with hc0 | hc
  · subst hc0
    refine ⟨0, ?_, by omega, fun _ => rfl, fun _ => Or.inl ?_⟩
    · simp [jsPercentage, percentOfNumbers, hposB]
      simp [jsDivide, JsNum.ofNat, decimalNum, decimalDen, Dbl.ofRatio, hpos.ne.symm,
        Dbl.times, Dbl.mathRound]
    · rw [Nat.mul_zero, Nat.zero_add]
      exact (Nat.div_eq_of_lt (by omega)).symm
  obtain ⟨m, e, htimes, herr⟩ := times_divide_error c n hc hpos hcn
  obtain ⟨r, hr, hlo, hhi⟩ := mathRound_spec m e
  have hval : jsPercentage c n = .fin false r 0 := by
    simp only [jsPercentage, percentOfNumbers, hposB, if_true, htimes, hr]
  generalize (m : ℚ) * 2 ^ e = z at herr hlo hhi
  rw [abs_le] at herr
  obtain ⟨hea, heb⟩ := herr
  have hnq : (0 : ℚ) < n := by exact_mod_cast hpos
  have hn32 : (n : ℚ) < 2 ^ 32 := by exact_mod_cast hn
  have hx : 100 * (c : ℚ) / n * n = 100 * c := by field_simp
  generalize 100 * (c : ℚ) / n = x at hea heb hx
  -- 2 n r ≤ 200 c + n + 2 n δ and 200 c + n - 2 n δ < 2 n r + 2 n, with 2 n δ < 1
  have hd : (2 : ℚ) * n * (300 / 2 ^ 53) < 1 := by
    have : (2 : ℚ) * n * (300 / 2 ^ 53) < 2 * 2 ^ 32 * (300 / 2 ^ 53) := by
      apply mul_lt_mul_of_pos_right _ (by norm_num)
      linarith
    have h2 : (2 : ℚ) * 2 ^ 32 * (300 / 2 ^ 53) < 1 := by norm_num
    linarith
  have b1 : (2 : ℚ) * n * r < 200 * c + n + 1 := by
    have : (r : ℚ) * n ≤ (x + 300 / 2 ^ 53 + 1 / 2) * n :=
      mul_le_mul_of_nonneg_right (by linarith) hnq.le
    nlinarith
  have b2 : (200 : ℚ) * c + n < 2 * n * r + 2 * n + 1 := by
    have : (x - 300 / 2 ^ 53 + 1 / 2) * n < ((r : ℚ) + 1) * n :=
      mul_lt_mul_of_pos_right (by linarith) hnq
    nlinarith
  have c1 : 2 * n * r < 200 * c + n + 1 := by exact_mod_cast b1
  have c2 : 200 * c + n < 2 * n * r + 2 * n + 1 := by exact_mod_cast b2
  have d1 : 2 * n * r ≤ 200 * c + n := by omega
  have d2 : 200 * c ≤ 2 * n * r + n := by omega
  refine ⟨r, hval, ?_, fun h => absurd h hpos.ne.symm, fun _ => nearest_of_bounds c n r hpos d1 d2⟩
  by_contra hgt
  have : 2 * n * 101 ≤ 2 * n * r := Nat.mul_le_mul_left _ (by omega)
  omega

/-- The decimal text of a count converts back to that count. -/
theorem stringToNumber_repr (n : Nat) : stringToNumber (Nat.repr n) = JsNum.ofNat n := by
  have hdig : ∀ c ∈ Nat.toDigits 10 n, (digitValue 10 c).isSome = true :=
    toDigitsCore_digits (n + 1) n [] (by simp)
  have hval : digitsToNat 10 (Nat.toDigits 10 n) = n := by
    unfold digitsToNat Nat.toDigits
    rw [toDigitsCore_value (n + 1) n [] (Nat.lt_succ_self n)]
    rfl
  have hne : Nat.toDigits 10 n ≠ [] := by
    intro he
    rw [he] at hval
    have h0 : n = 0 := by simpa [digitsToNat] using hval.symm
    subst h0
    exact absurd he (by decide)
  have := stringToNumber_of_decimal _ hne hdig
  rw [hval] at this
  exact this

/-- The percentage expression on two counts, in the terms of `nearestPercentage`. -/
theorem jsPercentage_spec (c n : Nat) (hcn : c ≤ n) (hn : n < 2 ^ 32) :
    ∃ r : Nat, jsPercentage c n = .fin false r 0 ∧ r ≤ 100 ∧ (n = 0 → r = 0) ∧
      (0 < n → nearestPercentage r c n = true) := by
  obtain ⟨r, h1, h2, h3, h4⟩ := jsPercentage_nearest c n hcn hn
  refine ⟨r, h1, h2, h3, fun hpos => ?_⟩
  rcases h4 hpos with h | ⟨ha, hb⟩
  · simp [nearestPercentage, specRoundedPercentage, h]
  · simp [nearestPercentage, specRoundedPercentage, ha, hb]

theorem primaryCompletedPercentage_row (n c f : Nat) (today : Option String) :
    primaryCompletedPercentage (requestStatsRow n c f today) = jsPercentage c n := by
  simp [primaryCompletedPercentage, requestStatsRow, cellAt, cellNumber, stringToNumber_repr,
    jsPercentage]

theorem primaryFailedPercentage_row (n c f : Nat) (today : Option String) :
    primaryFailedPercentage (requestStatsRow n c f today) = jsPercentage f n := by
  simp [primaryFailedPercentage, requestStatsRow, cellAt, cellNumber, stringToNumber_repr,
    jsPercentage]

theorem countStatus_le (token : String) (requests : List Request) :
    countStatus token requests ≤ requests.length :=
  List.length_filter_le _ _

/-- C12 (counterexample): of 40 stored requests 23 are completed, so that
`100 · c / n` is 57.5 and `round` gives 58, but the `completed_percentage` of the
fallback analytics is 57: the quotient `23 / 40` is rounded to binary64 before it
is multiplied by 100, and the product falls just below 57.5. -/
theorem completed_percentage_below_round :
    fortyRequests.length = 40 ∧ countStatus "completed" fortyRequests = 23 ∧
      specRoundedPercentage 23 40 = 58 ∧
      fallbackCompletedPercentage fortyRequests = .fin false 57 0 ∧
      primaryCompletedPercentage (requestStatsRow 40 23 0 (some "2")) = .fin false 57 0 := by
  decide

/-- C12 (amended): for a store of fewer than `2 ^ 32` requests (the limit of an
array length) the fields `completed_percentage` and `failed_percentage` of the
fallback analytics are integers from 0 to 100, exactly 0 for an empty store, and
otherwise an integer nearest to `100 · c / n`: the value `round (100 · c / n)`, or
the integer below it when `100 · c / n` lies exactly halfway between two integers.
The primary analytics computes the same from the decimal counts `n`, `c`, `f` of
the first row of its statistics query. -/
theorem percentage_fields_nearest_integer (requests : List Request) (n c f : Nat)
    (today : Option String) (hlen : requests.length < 2 ^ 32) (hn : n < 2 ^ 32)
    (hc : c ≤ n) (hf : f ≤ n) :
    (∃ r : Nat, fallbackCompletedPercentage requests = .fin false r 0 ∧ r ≤ 100 ∧
        (requests = [] → r = 0) ∧
        (requests ≠ [] →
          nearestPercentage r (countStatus "completed" requests) requests.length = true)) ∧
      (∃ r : Nat, fallbackFailedPercentage requests = .fin false r 0 ∧ r ≤ 100 ∧
        (requests = [] → r = 0) ∧
        (requests ≠ [] →
          nearestPercentage r (countStatus "failed" requests) requests.length = true)) ∧
      (∃ r : Nat, primaryCompletedPercentage (requestStatsRow n c f today) = .fin false r 0 ∧
        r ≤ 100 ∧ (n = 0 → r = 0) ∧ (0 < n → nearestPercentage r c n = true)) ∧
      (∃ r : Nat, primaryFailedPercentage (requestStatsRow n c f today) = .fin false r 0 ∧
        r ≤ 100 ∧ (n = 0 → r = 0) ∧ (0 < n → nearestPercentage r f n = true)) := by
  refine ⟨?_, ?_, ?_, ?_⟩
  · obtain ⟨r, h1, h2, h3, h4⟩ :=
      jsPercentage_spec (countStatus "completed" requests) requests.length
        (countStatus_le _ _) hlen
    exact ⟨r, h1, h2, fun he => h3 (by rw [he]; rfl),
      fun hne => h4 (List.length_pos.mpr hne)⟩
  · obtain ⟨r, h1, h2, h3, h4⟩ :=
      jsPercentage_spec (countStatus "failed" requests) requests.length
        (countStatus_le _ _) hlen
    exact ⟨r, h1, h2, fun he => h3 (by rw [he]; rfl),
      fun hne => h4 (List.length_pos.mpr hne)⟩
  · rw [primaryCompletedPercentage_row]
    exact jsPercentage_spec c n hc hn
  · rw [primaryFailedPercentage_row]
    exact jsPercentage_spec f n hf hn

theorem percentage_fields_nearest_integer_witness :
    ((seedRequest "2024-03-01T09:00:00.000Z" :: fortyRequests).length < 2 ^ 32 ∧
        8 < 2 ^ 32 ∧ 1 ≤ 8 ∧ 3 ≤ 8) ∧
      (∃ r : Nat,
        fallbackCompletedPercentage (seedRequest "2024-03-01T09:00:00.000Z" :: fortyRequests) =
          .fin false r 0 ∧ r ≤ 100 ∧
        (seedRequest "2024-03-01T09:00:00.000Z" :: fortyRequests = [] → r = 0) ∧
        (seedRequest "2024-03-01T09:00:00.000Z" :: fortyRequests ≠ [] →
          nearestPercentage r
            (countStatus "completed" (seedRequest "2024-03-01T09:00:00.000Z" :: fortyRequests))
            (seedRequest "2024-03-01T09:00:00.000Z" :: fortyRequests).length = true)) ∧
      (∃ r : Nat,
        fallbackFailedPercentage (seedRequest "2024-03-01T09:00:00.000Z" :: fortyRequests) =
          .fin false r 0 ∧ r ≤ 100 ∧
        (seedRequest "2024-03-01T09:00:00.000Z" :: fortyRequests = [] → r = 0) ∧
        (seedRequest "2024-03-01T09:00:00.000Z" :: fortyRequests ≠ [] →
          nearestPercentage r
            (countStatus "failed" (seedRequest "2024-03-01T09:00:00.000Z" :: fortyRequests))
            (seedRequest "2024-03-01T09:00:00.000Z" :: fortyRequests).length = true)) ∧
      (∃ r : Nat, primaryCompletedPercentage (requestStatsRow 8 1 3 none) = .fin false r 0 ∧
        r ≤ 100 ∧ (8 = 0 → r = 0) ∧ (0 < 8 → nearestPercentage r 1 8 = true)) ∧
      (∃ r : Nat, primaryFailedPercentage (requestStatsRow 8 1 3 none) = .fin false r 0 ∧
        r ≤ 100 ∧ (8 = 0 → r = 0) ∧ (0 < 8 → nearestPercentage r 3 8 = true)) :=
  ⟨⟨by decide, by decide, by decide, by decide⟩,
    percentage_fields_nearest_integer
      (seedRequest "2024-03-01T09:00:00.000Z" :: fortyRequests) 8 1 3 none
      (by decide) (by decide) (by decide) (by decide)⟩

/-- C13 (counterexample): the fallback store holds one request created on
2024-01-15 and one created on 2024-03-01; asked for `period=daily` at a time in
March 2024, the trends answer is a single bucket, keyed `month` and labelled
`2024-03`, that counts both requests. -/
theorem fallback_trends_single_bucket :
    twoMonthsWorld.primary = false ∧
      twoMonthsWorld.memoryCache.requests.map (fun r => r.created_at) =
        ["2024-01-15T08:00:00.000Z", "2024-03-01T09:00:00.000Z"] ∧
      (getTrends sampleEnv (.str "daily") twoMonthsWorld).1 =
        [{ labelField := "month", label := .str "2024-03",
           total_requests := .num (JsNum.ofNat 2), completed := .num (JsNum.ofNat 1),
           failed := .num (JsNum.ofNat 0), success_rate := .fin false 50 0 }] := by
  decide

theorem period_daily_iff (periodParam : JsVal) :
    jsStrictEq (if truthy periodParam then periodParam else .str "monthly") (.str "daily") =
      true ↔ periodParam = .str "daily" := by
  constructor
  · intro h
    cases periodParam with
    | undefined => simp [truthy, jsStrictEq] at h
    | null => simp [truthy, jsStrictEq] at h
    | bool b => cases b <;> simp [truthy, jsStrictEq] at h
    | num x => split at h <;> simp [jsStrictEq] at h
    | other t => simp [truthy, jsStrictEq] at h
    | str s =>
      split at h
      · simp only [jsStrictEq, beq_iff_eq] at h
        rw [h]
      · simp [jsStrictEq] at h
  · intro h
    subst h
    decide

theorem getTrends_primary (env : Env) (periodParam : JsVal) (w : World)
    (rows : List (List (Option String))) (hp : w.primary = true)
    (hq : env.queryResult 0 = some rows) :
    getTrends env periodParam w =
      (rows.map (trendOfRow
          (if jsStrictEq (if truthy periodParam then periodParam else .str "monthly")
              (.str "daily") then "day" else "month")),
        { w with executed := w.executed ++
          [⟨if jsStrictEq (if truthy periodParam then periodParam else .str "monthly")
              (.str "daily") then trendsQuery "%Y-%m-%d" "-30 days"
            else trendsQuery "%Y-%m" "-6 months", []⟩] }) := by
  have hs : w.sqliteFound = true := by
    simp only [World.primary, Bool.and_eq_true] at hp
    exact hp.2
  simp [getTrends, hp, executeQuery, hs, hq, processedSql, substituteParams]

theorem getTrends_fallback (env : Env) (periodParam : JsVal) (w : World)
    (h : w.primary = false ∨ env.queryResult 0 = none) :
    getTrends env periodParam w =
      (fallbackTrends (env.isoNow 1) (ensureInitialized (env.isoNow 0) w.memoryCache).requests,
        { w with memoryCache := ensureInitialized (env.isoNow 0) w.memoryCache }) := by
  by_cases hp : w.primary = true
  · have hq : env.queryResult 0 = none := by
      rcases h with h | h
      · rw [h] at hp
        exact absurd hp (by decide)
      · exact h
    have hs : w.sqliteFound = true := by
      simp only [World.primary, Bool.and_eq_true] at hp
      exact hp.2
    simp [getTrends, hp, executeQuery, hs, hq, processedSql, substituteParams]
  · simp [getTrends, hp]

set_option maxRecDepth 100000 in
theorem trendsQuery_daily_text :
    trendsQuery "%Y-%m-%d" "-30 days" =
      "\n                    SELECT\n                        strftime('%Y-%m-%d', created_at) as period,\n                        COUNT(*) as total_requests,\n                        COUNT(CASE WHEN status = 'completed' THEN 1 END) as completed,\n                        COUNT(CASE WHEN status = 'failed' THEN 1 END) as failed\n                    FROM requests\n                    WHERE created_at >= date('now', '-30 days')\n                    GROUP BY strftime('%Y-%m-%d', created_at)\n                    ORDER BY period\n                " := by
  decide

set_option maxRecDepth 100000 in
theorem trendsQuery_monthly_text :
    trendsQuery "%Y-%m" "-6 months" =
      "\n                    SELECT\n                        strftime('%Y-%m', created_at) as period,\n                        COUNT(*) as total_requests,\n                        COUNT(CASE WHEN status = 'completed' THEN 1 END) as completed,\n                        COUNT(CASE WHEN status = 'failed' THEN 1 END) as failed\n                    FROM requests\n                    WHERE created_at >= date('now', '-6 months')\n                    GROUP BY strftime('%Y-%m', created_at)\n                    ORDER BY period\n                " := by
  decide

/-- C13 (amended): on the primary backend, for `period=daily` the handler sends
the grouping query with the format `%Y-%m-%d` over the last 30 days (it selects
and groups by `strftime('%Y-%m-%d', created_at)`, with the counts of all, of the
completed and of the failed requests of each group) and answers one bucket per row
returned, keyed `day`, with the label and the counts of that row; for any other
period it sends the same query with the format `%Y-%m` over the last 6 months and
keys the buckets `month`.  Nothing else is sent and the store is not touched.
Over the fallback collection (no primary backend, or the query rejected) nothing
is sent and the answer is, whatever the period, a single bucket keyed `month`,
labelled with the current month and counting all stored requests. -/
theorem trends_buckets (env : Env) (periodParam : JsVal) (w : World) :
    (∀ rows, w.primary = true → env.queryResult 0 = some rows →
        (periodParam = .str "daily" →
          getTrends env periodParam w =
            (rows.map (trendOfRow "day"),
              { w with executed := w.executed ++
                [⟨trendsQuery "%Y-%m-%d" "-30 days", []⟩] })) ∧
        (periodParam ≠ .str "daily" →
          getTrends env periodParam w =
            (rows.map (trendOfRow "month"),
              { w with executed := w.executed ++
                [⟨trendsQuery "%Y-%m" "-6 months", []⟩] }))) ∧
      (w.primary = false ∨ env.queryResult 0 = none →
        getTrends env periodParam w =
          (fallbackTrends (env.isoNow 1)
              (ensureInitialized (env.isoNow 0) w.memoryCache).requests,
            { w with memoryCache := ensureInitialized (env.isoNow 0) w.memoryCache })) ∧
      (∀ now requests, ∃ b, fallbackTrends now requests = [b] ∧ b.labelField = "month" ∧
        b.label = .str (String.mk (now.data.take 7)) ∧
        b.total_requests = .num (JsNum.ofNat requests.length) ∧
        b.completed = .num (JsNum.ofNat (countStatus "completed" requests)) ∧
        b.failed = .num (JsNum.ofNat (countStatus "failed" requests))) ∧
      (∀ (labelField : String) (row : List (Option String)),
        (trendOfRow labelField row).labelField = labelField ∧
        (trendOfRow labelField row).label = cellAt row 0 ∧
        (trendOfRow labelField row).total_requests = cellAt row 1 ∧
        (trendOfRow labelField row).completed = cellAt row 2 ∧
        (trendOfRow labelField row).failed = cellAt row 3) ∧
      trendsQuery "%Y-%m-%d" "-30 days" =
        "\n                    SELECT\n                        strftime('%Y-%m-%d', created_at) as period,\n                        COUNT(*) as total_requests,\n                        COUNT(CASE WHEN status = 'completed' THEN 1 END) as completed,\n                        COUNT(CASE WHEN status = 'failed' THEN 1 END) as failed\n                    FROM requests\n                    WHERE created_at >= date('now', '-30 days')\n                    GROUP BY strftime('%Y-%m-%d', created_at)\n                    ORDER BY period\n                " ∧
      trendsQuery "%Y-%m" "-6 months" =
        "\n                    SELECT\n                        strftime('%Y-%m', created_at) as period,\n                        COUNT(*) as total_requests,\n                        COUNT(CASE WHEN status = 'completed' THEN 1 END) as completed,\n                        COUNT(CASE WHEN status = 'failed' THEN 1 END) as failed\n                    FROM requests\n                    WHERE created_at >= date('now', '-6 months')\n                    GROUP BY strftime('%Y-%m', created_at)\n                    ORDER BY period\n                " := by
  refine ⟨?_, getTrends_fallback env periodParam w,
    fun now requests => ⟨_, rfl, rfl, rfl, rfl, rfl, rfl⟩,
    fun _ _ => ⟨rfl, rfl, rfl, rfl, rfl⟩, trendsQuery_daily_text, trendsQuery_monthly_text⟩
  intro rows hp hq
  rw [getTrends_primary env periodParam w rows hp hq]
  constructor
  · intro hd
    have h := (period_daily_iff periodParam).mpr hd
    simp only [h, if_true]
  · intro hd
    have h : jsStrictEq (if truthy periodParam then periodParam else .str "monthly")
        (.str "daily") = false := by
      cases hb : jsStrictEq (if truthy periodParam then periodParam else .str "monthly")
          (.str "daily") with
      | false => rfl
      | true => exact absurd ((period_daily_iff periodParam).mp hb) hd
    simp only [h, Bool.false_eq_true, if_false]

theorem trends_buckets_witness :
    ((primaryWorld.primary = true ∧
        trendDayRowsEnv.queryResult 0 =
          some [[some "2024-02-28", some "4", some "3", some "1"],
            [some "2024-03-01", some "2", some "1", some "0"]]) ∧
      getTrends trendDayRowsEnv (.str "daily") primaryWorld =
        ([[some "2024-02-28", some "4", some "3", some "1"],
            [some "2024-03-01", some "2", some "1", some "0"]].map (trendOfRow "day"),
          { primaryWorld with executed := primaryWorld.executed ++
            [⟨trendsQuery "%Y-%m-%d" "-30 days", []⟩] })) ∧
      ((primaryWorld.primary = true ∧
          trendRowsEnv.queryResult 0 =
            some [[some "2024-02", some "4", some "3", some "1"],
              [some "2024-03", some "2", some "1", some "0"]] ∧
          JsVal.str "monthly" ≠ .str "daily") ∧
        getTrends trendRowsEnv (.str "monthly") primaryWorld =
          ([[some "2024-02", some "4", some "3", some "1"],
              [some "2024-03", some "2", some "1", some "0"]].map (trendOfRow "month"),
            { primaryWorld with executed := primaryWorld.executed ++
              [⟨trendsQuery "%Y-%m" "-6 months", []⟩] })) ∧
      ((twoMonthsWorld.primary = false ∨ sampleEnv.queryResult 0 = none) ∧
        getTrends sampleEnv (.str "monthly") twoMonthsWorld =
          (fallbackTrends (sampleEnv.isoNow 1)
              (ensureInitialized (sampleEnv.isoNow 0) twoMonthsWorld.memoryCache).requests,
            { twoMonthsWorld with
              memoryCache :=
                ensureInitialized (sampleEnv.isoNow 0) twoMonthsWorld.memoryCache })) :=
  ⟨⟨⟨by decide, rfl⟩,
      ((trends_buckets trendDayRowsEnv (.str "daily") primaryWorld).1 _ (by decide) rfl).1
        rfl⟩,
    ⟨⟨by decide, rfl, by decide⟩,
      ((trends_buckets trendRowsEnv (.str "monthly") primaryWorld).1 _ (by decide) rfl).2
        (by decide)⟩,
    ⟨Or.inl (by decide),
      (trends_buckets sampleEnv (.str "monthly") twoMonthsWorld).2.1 (Or.inl (by decide))⟩⟩

/-! ## The calendar -/

theorem daysFromCivil_add_day (y m d k : Int) :
    daysFromCivil y m (d + k) = daysFromCivil y m d + k := by
  simp only [daysFromCivil]
  omega

/-- The first days of the months are in the order of the months. -/
theorem daysFromCivil_mono_month (y m y' m' : Int) (hm : 1 ≤ m ∧ m ≤ 12)
    (hm' : 1 ≤ m' ∧ m' ≤ 12) (h : y < y' ∨ (y = y' ∧ m ≤ m')) :
    daysFromCivil y m 1 ≤ daysFromCivil y' m' 1 := by
  simp only [daysFromCivil]
  split_ifs <;> omega

/-- A month ends where the next one begins. -/
theorem daysFromCivil_month_length (y m : Nat) (hm : 1 ≤ m ∧ m ≤ 12) :
    daysFromCivil y m 1 + daysInMonth y m =
      if m = 12 then daysFromCivil (y + 1) 1 1 else daysFromCivil y (m + 1) 1 := by
  obtain ⟨h1, h2⟩ := hm
  interval_cases m <;> simp [daysFromCivil, daysInMonth, isLeapYear] <;> omega

/-- The cycles into which `civilFromDays` splits a day number. -/
theorem civilFromDays_cycles (z : Int) :
    ∃ n400 n100 n4 n1 doy : Int,
      0 ≤ n100 ∧ n100 ≤ 3 ∧ 0 ≤ n4 ∧ n4 ≤ 24 ∧ 0 ≤ n1 ∧ n1 ≤ 3 ∧ 0 ≤ doy ∧ doy ≤ 365 ∧
      z + 719468 = 146097 * n400 + 36524 * n100 + 1461 * n4 + 365 * n1 + doy ∧
      civilFromDays z =
        if (5 * doy + 2) / 153 < 10 then
          (400 * n400 + 100 * n100 + 4 * n4 + n1, (5 * doy + 2) / 153 + 3,
            doy - (153 * ((5 * doy + 2) / 153) + 2) / 5 + 1)
        else
          (400 * n400 + 100 * n100 + 4 * n4 + n1 + 1, (5 * doy + 2) / 153 - 9,
            doy - (153 * ((5 * doy + 2) / 153) + 2) / 5 + 1) := by
  obtain ⟨n400, h400⟩ : ∃ x, x = (z + 719468) / 146097 := ⟨_, rfl⟩
  obtain ⟨r400, hr400⟩ : ∃ x, x = (z + 719468) % 146097 := ⟨_, rfl⟩
  obtain ⟨n100, h100⟩ : ∃ x, x = if r400 / 36524 ≤ 3 then r400 / 36524 else 3 := ⟨_, rfl⟩
  obtain ⟨n4, h4⟩ : ∃ x, x = (r400 - n100 * 36524) / 1461 := ⟨_, rfl⟩
  obtain ⟨r4, hr4⟩ : ∃ x, x = (r400 - n100 * 36524) % 1461 := ⟨_, rfl⟩
  obtain ⟨n1, h1⟩ : ∃ x, x = if r4 / 365 ≤ 3 then r4 / 365 else 3 := ⟨_, rfl⟩
  have e : civilFromDays z =
      if (5 * (r4 - n1 * 365) + 2) / 153 < 10 then
        (400 * n400 + 100 * n100 + 4 * n4 + n1, (5 * (r4 - n1 * 365) + 2) / 153 + 3,
          (r4 - n1 * 365) - (153 * ((5 * (r4 - n1 * 365) + 2) / 153) + 2) / 5 + 1)
      else
        (400 * n400 + 100 * n100 + 4 * n4 + n1 + 1, (5 * (r4 - n1 * 365) + 2) / 153 - 9,
          (r4 - n1 * 365) - (153 * ((5 * (r4 - n1 * 365) + 2) / 153) + 2) / 5 + 1) := by
    simp only [civilFromDays, ← h400, ← hr400, ← h100, ← h4, ← hr4, ← h1]
  have b400 : 0 ≤ r400 ∧ r400 ≤ 146096 := by omega
  have b100 : 0 ≤ n100 ∧ n100 ≤ 3 := by
    split_ifs at h100 <;> omega
  have br100 : 0 ≤ r400 - n100 * 36524 ∧ r400 - n100 * 36524 ≤ 36524 := by
    split_ifs at h100 <;> omega
  have b4 : 0 ≤ n4 ∧ n4 ≤ 24 := by omega
  have br4 : 0 ≤ r4 ∧ r4 ≤ 1460 := by omega
  have b1 : 0 ≤ n1 ∧ n1 ≤ 3 := by
    split_ifs at h1 <;> omega
  have bdoy : 0 ≤ r4 - n1 * 365 ∧ r4 - n1 * 365 ≤ 365 := by
    split_ifs at h1 <;> omega
  refine ⟨n400, n100, n4, n1, r4 - n1 * 365, b100.1, b100.2, b4.1, b4.2, b1.1, b1.2,
    bdoy.1, bdoy.2, ?_, e⟩
  omega

/-- Turning a day number into a calendar date and back gives the day number. -/
theorem daysFromCivil_civilFromDays (z : Int) :
    daysFromCivil (civilFromDays z).1 (civilFromDays z).2.1 (civilFromDays z).2.2 = z := by
  obtain ⟨n400, n100, n4, n1, doy, h1, h2, h3, h4, h5, h6, h7, h8, hz, e⟩ :=
    civilFromDays_cycles z
  rw [e]
  have hy4 : (400 * n400 + 100 * n100 + 4 * n4 + n1) / 4 = 100 * n400 + 25 * n100 + n4 := by
    omega
  have hy100 : (400 * n400 + 100 * n100 + 4 * n4 + n1) / 100 = 4 * n400 + n100 := by omega
  have hy400 : (400 * n400 + 100 * n100 + 4 * n4 + n1) / 400 = n400 := by omega
  split_ifs with hmp
  · simp only [daysFromCivil]
    split_ifs <;> omega
  · have e1 : (400 * n400 + 100 * n100 + 4 * n4 + n1 + 1 - 1) =
        400 * n400 + 100 * n100 + 4 * n4 + n1 := by ring
    simp only [daysFromCivil]
    split_ifs <;> first | omega | (rw [e1, hy4, hy100, hy400]; omega)

theorem civilFromDays_bounds (z : Int) :
    1 ≤ (civilFromDays z).2.1 ∧ (civilFromDays z).2.1 ≤ 12 ∧
    1 ≤ (civilFromDays z).2.2 ∧ (civilFromDays z).2.2 ≤ 31 := by
  simp only [civilFromDays]
  split_ifs <;> simp only [] <;> omega

/-- Day numbers from 0000-01-01 to 9999-12-31 have a year from 0 to 9999. -/
theorem civilFromDays_year_bounds (z : Int) (h0 : -719528 ≤ z) (h1 : z ≤ 2932896) :
    0 ≤ (civilFromDays z).1 ∧ (civilFromDays z).1 ≤ 9999 := by
  have hr := daysFromCivil_civilFromDays z
  obtain ⟨hm1, hm2, hd1, hd2⟩ := civilFromDays_bounds z
  generalize (civilFromDays z).1 = y at hr ⊢
  generalize (civilFromDays z).2.1 = m at hr hm1 hm2
  generalize (civilFromDays z).2.2 = d at hr hd1 hd2
  have hsplit : daysFromCivil y m d = daysFromCivil y m 1 + (d - 1) := by
    rw [← daysFromCivil_add_day]
    congr 1
    ring
  constructor
  · by_contra hneg
    have hmono := daysFromCivil_mono_month y m (-1) 12 ⟨hm1, hm2⟩ ⟨by norm_num, le_refl _⟩
      (by omega)
    have hv : daysFromCivil (-1) 12 1 = -719559 := by decide
    omega
  · by_contra hbig
    have hmono := daysFromCivil_mono_month 10000 1 y m ⟨le_refl _, by norm_num⟩ ⟨hm1, hm2⟩
      (by omega)
    have hv : daysFromCivil 10000 1 1 = 2932897 := by decide
    omega

/-- Valid calendar dates are numbered in their order. -/
theorem daysFromCivil_lt (y m d y' m' d' : Nat) (hm : 1 ≤ m ∧ m ≤ 12)
    (hd : d ≤ daysInMonth y m) (hm' : 1 ≤ m' ∧ m' ≤ 12) (hd' : 1 ≤ d')
    (h : y < y' ∨ (y = y' ∧ (m < m' ∨ (m = m' ∧ d < d')))) :
    daysFromCivil y m d < daysFromCivil y' m' d' := by
  have e1 : daysFromCivil y m d = daysFromCivil y m 1 + ((d : Int) - 1) := by
    rw [← daysFromCivil_add_day]
    congr 1
    ring
  have e2 : daysFromCivil y' m' d' = daysFromCivil y' m' 1 + ((d' : Int) - 1) := by
    rw [← daysFromCivil_add_day]
    congr 1
    ring
  by_cases hsame : y = y' ∧ m = m'
  · obtain ⟨rfl, rfl⟩ := hsame
    omega
  · have hlen := daysFromCivil_month_length y m hm
    have hnext : (if m = 12 then daysFromCivil ((y : Int) + 1) 1 1
        else daysFromCivil y ((m : Int) + 1) 1) ≤ daysFromCivil y' m' 1 := by
      split_ifs with h12
      · exact daysFromCivil_mono_month _ _ _ _ ⟨le_refl _, by norm_num⟩
          ⟨by omega, by omega⟩ (by omega)
      · exact daysFromCivil_mono_month _ _ _ _ ⟨by omega, by omega⟩
          ⟨by omega, by omega⟩ (by omega)
    omega

/-! ## Texts of dates -/

theorem digitChar_isDigit (n : Nat) : (digitChar n).isDigit = true := by
  unfold digitChar
  have h : n % 10 < 10 := Nat.mod_lt _ (by norm_num)
  generalize n % 10 = k at h
  interval_cases k <;> rfl

theorem dateShape_data :
    "dddd-dd-dd".data = ['d', 'd', 'd', 'd', '-', 'd', 'd', '-', 'd', 'd'] := by
  decide

/-- The date of a time value from 0000-01-01 to 9999-12-31 is printed in the form
`YYYY-MM-DD`. -/
theorem isoDateText_shape (t : Int) (h0 : -719528 * msPerDay ≤ t)
    (h1 : t ≤ 2932896 * msPerDay) : dateRegexTest (isoDateText t) = true := by
  have hz0 : -719528 ≤ t / msPerDay := by
    simp only [msPerDay] at h0 ⊢
    omega
  have hz1 : t / msPerDay ≤ 2932896 := by
    simp only [msPerDay] at h1 ⊢
    omega
  obtain ⟨hy0, hy1⟩ := civilFromDays_year_bounds (t / msPerDay) hz0 hz1
  have hy : (0 ≤ (civilFromDays (t / msPerDay)).1 ∧ (civilFromDays (t / msPerDay)).1 ≤ 9999) :=
    ⟨hy0, hy1⟩
  simp only [isoDateText, hy, and_self, if_true, dateRegexTest, dateShape_data, padDigits,
    List.nil_append, List.cons_append, List.singleton_append, matchesDateShape,
    digitChar_isDigit, Bool.and_true, if_true, beq_self_eq_true]
  decide

/-! ## The loop over the days of a range -/

/-- The statement `currentDate.setDate(currentDate.getDate() + 1)` adds a day to
the local time. -/
theorem setDate_next (env : DateEnv) (t : Int) :
    setDate env t (getDate env t + 1) =
      timeClip (t + env.offsetAtUtc t + msPerDay -
        env.offsetAtLocal (t + env.offsetAtUtc t + msPerDay)) := by
  have hnew : daysFromCivil (civilFromDays ((t + env.offsetAtUtc t) / msPerDay)).1
        (civilFromDays ((t + env.offsetAtUtc t) / msPerDay)).2.1
        ((civilFromDays ((t + env.offsetAtUtc t) / msPerDay)).2.2 + 1) * msPerDay +
      (t + env.offsetAtUtc t) % msPerDay = t + env.offsetAtUtc t + msPerDay := by
    rw [daysFromCivil_add_day, daysFromCivil_civilFromDays]
    have := Int.ediv_add_emod (t + env.offsetAtUtc t) msPerDay
    linarith
  simp only [setDate, getDate, hnew]

theorem timeClip_eq {t u : Int} (h : timeClip t = some u) : u = t := by
  unfold timeClip at h
  split at h
  · exact (Option.some.inj h).symm
  · exact absurd h (by simp)

/-- In an environment whose days advance, the loop ends within the tests of
`loopBound` and pushes only dates of instants from the current one to the end. -/
theorem expandLoop_total (env : DateEnv) (hadv : env.Advances) (e : Int) :
    ∀ (fuel : Nat) (t : Int) (acc : List String), (e + 1 - t).toNat + 1 ≤ fuel →
      ∃ out, expandLoop env (some e) fuel (some t) acc = some (acc ++ out) ∧
        ∀ x ∈ out, ∃ u, t ≤ u ∧ u ≤ e ∧ x = isoDateText u := by
  intro fuel
  induction fuel with
  | zero => intro t acc h; omega
  | succ fuel ih =>
    intro t acc h
    by_cases hle : t ≤ e
    · have hstep : expandLoop env (some e) (fuel + 1) (some t) acc =
          expandLoop env (some e) fuel (setDate env t (getDate env t + 1))
            (acc ++ [isoDateText t]) := by
        simp [expandLoop, dateLe, hle]
      rw [hstep, setDate_next]
      have hlt := hadv t
      cases hc : timeClip (t + env.offsetAtUtc t + msPerDay -
          env.offsetAtLocal (t + env.offsetAtUtc t + msPerDay)) with
      | none =>
        obtain ⟨k, rfl⟩ : ∃ k, fuel = k + 1 := ⟨fuel - 1, by omega⟩
        refine ⟨[isoDateText t], by simp [expandLoop], ?_⟩
        intro x hx
        rw [List.mem_singleton] at hx
        exact ⟨t, le_refl _, hle, hx⟩
      | some u =>
        have hu := timeClip_eq hc
        have hgt : t < u := by omega
        have hfuel : (e + 1 - u).toNat + 1 ≤ fuel := by
          have h1 := Int.toNat_of_nonneg (show 0 ≤ e + 1 - t by omega)
          rcases le_or_lt 0 (e + 1 - u) with hp | hn
          · have h2 := Int.toNat_of_nonneg hp
            omega
          · have h2 : (e + 1 - u).toNat = 0 := Int.toNat_eq_zero.mpr hn.le
            omega
        obtain ⟨out, hout, hmem⟩ := ih u (acc ++ [isoDateText t]) hfuel
        refine ⟨isoDateText t :: out, by rw [hout]; simp, ?_⟩
        intro x hx
        rcases List.mem_cons.mp hx with rfl | hx
        · exact ⟨t, le_refl _, hle, rfl⟩
        · obtain ⟨v, hv1, hv2, hv3⟩ := hmem x hx
          exact ⟨v, by omega, hv2, hv3⟩
    · refine ⟨[], by simp [expandLoop, dateLe, hle], ?_⟩
      intro x hx
      exact absurd hx (List.not_mem_nil x)

/-- The expansion of a range returns, and every date it pushes is the date of an
instant between the start and the end. -/
theorem expandDates_total (env : DateEnv) (hadv : env.Advances) (start endD : Option Int)
    (acc : List String) :
    ∃ out, expandDates env start endD acc = some (acc ++ out) ∧
      ∀ x ∈ out, ∃ s e u, start = some s ∧ endD = some e ∧ s ≤ u ∧ u ≤ e ∧
        x = isoDateText u := by
  cases start with
  | none => exact ⟨[], by simp [expandDates, loopBound, expandLoop], by simp⟩
  | some s =>
    cases endD with
    | none => exact ⟨[], by simp [expandDates, loopBound, expandLoop, dateLe], by simp⟩
    | some e =>
      have hb : (e + 1 - s).toNat + 1 ≤ (e - s).toNat + 2 := by
        rcases le_or_lt 0 (e + 1 - s) with hp | hn
        · have h2 := Int.toNat_of_nonneg hp
          rcases le_or_lt 0 (e - s) with hp1 | hn1
          · have h3 := Int.toNat_of_nonneg hp1
            omega
          · have h3 : (e - s).toNat = 0 := Int.toNat_eq_zero.mpr hn1.le
            omega
        · have h2 : (e + 1 - s).toNat = 0 := Int.toNat_eq_zero.mpr hn.le
          omega
      obtain ⟨out, hout, hmem⟩ :=
        expandLoop_total env hadv e ((e - s).toNat + 2) s acc hb
      refine ⟨out, by simpa [expandDates, loopBound] using hout, ?_⟩
      intro x hx
      obtain ⟨u, h1, h2, h3⟩ := hmem x hx
      exact ⟨s, e, u, rfl, rfl, h1, h2, h3⟩

theorem digitValue_getD_le (c : Char) : (digitValue 10 c).getD 0 ≤ 9 := by
  unfold digitValue
  simp only []
  split_ifs <;> simp only [Option.getD_some, Option.getD_none] <;> omega

theorem digitsToNat_foldl_lt (l : List Char) (acc : Nat) :
    l.foldl (fun acc c => 10 * acc + (digitValue 10 c).getD 0) acc + 1 ≤
      (acc + 1) * 10 ^ l.length := by
  induction l generalizing acc with
  | nil => simp
  | cons c t ih =>
    have h := ih (10 * acc + (digitValue 10 c).getD 0)
    have hc := digitValue_getD_le c
    simp only [List.foldl_cons, List.length_cons, pow_succ]
    calc _ ≤ (10 * acc + (digitValue 10 c).getD 0 + 1) * 10 ^ t.length := h
      _ ≤ ((acc + 1) * 10) * 10 ^ t.length := Nat.mul_le_mul_right _ (by omega)
      _ = (acc + 1) * (10 ^ t.length * 10) := by ring

theorem digitsToNat_lt (l : List Char) : digitsToNat 10 l < 10 ^ l.length := by
  have := digitsToNat_foldl_lt l 0
  simp only [digitsToNat]
  omega

theorem dateFields_year_le (s : String) : (dateFields s).1 ≤ 9999 := by
  have h := digitsToNat_lt (s.data.take 4)
  have hl : (s.data.take 4).length ≤ 4 := by simp
  have hp : 10 ^ (s.data.take 4).length ≤ 10 ^ 4 := Nat.pow_le_pow_right (by norm_num) hl
  simp only [dateFields]
  omega

/-- A date string of the form `YYYY-MM-DD` that `new Date` accepts lies between
0000-01-01 and 9999-12-31. -/
theorem newDate_bounds (env : DateEnv) (s : String) (t : Int)
    (hs : dateRegexTest s = true) (h : newDate env s = some t) :
    -719528 * msPerDay ≤ t ∧ t ≤ 2932896 * msPerDay := by
  have hy := dateFields_year_le s
  simp only [newDate, hs, if_true] at h
  by_cases hv : 1 ≤ (dateFields s).2.1 ∧ (dateFields s).2.1 ≤ 12 ∧ 1 ≤ (dateFields s).2.2 ∧
      (dateFields s).2.2 ≤
        (if env.rollsOverDays then 31 else daysInMonth (dateFields s).1 (dateFields s).2.1)
  · rw [if_pos hv] at h
    obtain ⟨hm1, hm2, hd1, hd2⟩ := hv
    have hd31 : (dateFields s).2.2 ≤ 31 := by
      by_cases hr : env.rollsOverDays = true
      · rw [if_pos hr] at hd2
        exact hd2
      · rw [if_neg hr] at hd2
        have : daysInMonth (dateFields s).1 (dateFields s).2.1 ≤ 31 := by
          unfold daysInMonth
          split_ifs <;> omega
        omega
    have ht := (Option.some.inj h).symm
    generalize (dateFields s).1 = y at hy ht
    generalize (dateFields s).2.1 = m at hm1 hm2 ht
    generalize (dateFields s).2.2 = d at hd1 hd31 ht
    have e1 : daysFromCivil y m d = daysFromCivil y m 1 + ((d : Int) - 1) := by
      rw [← daysFromCivil_add_day]
      congr 1
      ring
    have hlo := daysFromCivil_mono_month 0 1 y m ⟨le_refl _, by norm_num⟩
      ⟨by omega, by omega⟩ (by omega)
    have hhi := daysFromCivil_mono_month y m 9999 12 ⟨by omega, by omega⟩
      ⟨by norm_num, le_refl _⟩ (by omega)
    have v0 : daysFromCivil 0 1 1 = -719528 := by decide
    have v1 : daysFromCivil 9999 12 1 = 2932866 := by decide
    rw [ht, e1]
    simp only [msPerDay]
    omega
  · rw [if_neg hv] at h
    exact absurd h (by simp)

/-- The callback of `parseDataRanges` returns on every element, and what it
pushes has the form `YYYY-MM-DD`. -/
theorem parseRange_total (env : DateEnv) (hadv : env.Advances) (range : List Char)
    (acc : List String) :
    ∃ out, parseRange env range acc = some (acc ++ out) ∧
      ∀ x ∈ out, dateRegexTest x = true := by
  unfold parseRange
  by_cases hc : range.contains ':' = true
  · simp only [hc, if_true]
    by_cases hre : (!dateRegexTest (String.mk (((jsSplit ':' range).map jsTrim).getD 0 [])) ||
        !dateRegexTest (String.mk (((jsSplit ':' range).map jsTrim).getD 1 []))) = true
    · rw [if_pos hre]
      exact ⟨[], by simp, by simp⟩
    · rw [if_neg hre]
      simp only [Bool.or_eq_true, Bool.not_eq_true', not_or, Bool.not_eq_false] at hre
      by_cases hgt : dateGt
          (newDate env (String.mk (((jsSplit ':' range).map jsTrim).getD 0 [])))
          (newDate env (String.mk (((jsSplit ':' range).map jsTrim).getD 1 []))) = true
      · rw [if_pos hgt]
        exact ⟨[], by simp, by simp⟩
      · rw [if_neg hgt]
        obtain ⟨out, hout, hmem⟩ := expandDates_total env hadv
          (newDate env (String.mk (((jsSplit ':' range).map jsTrim).getD 0 [])))
          (newDate env (String.mk (((jsSplit ':' range).map jsTrim).getD 1 []))) acc
        refine ⟨out, hout, ?_⟩
        intro x hx
        obtain ⟨s, e, u, hs, he, h1, h2, rfl⟩ := hmem x hx
        have bs := newDate_bounds env _ s hre.1 hs
        have be := newDate_bounds env _ e hre.2 he
        exact isoDateText_shape u (by omega) (by omega)
  · simp only [hc, Bool.false_eq_true, if_false]
    by_cases hre : dateRegexTest (String.mk range) = true
    · rw [if_pos hre]
      refine ⟨[String.mk range], rfl, ?_⟩
      intro x hx
      rw [List.mem_singleton] at hx
      rw [hx]
      exact hre
    · rw [if_neg hre]
      exact ⟨[], by simp, by simp⟩

theorem parseRanges_total (env : DateEnv) (hadv : env.Advances) (ranges : List (List Char)) :
    ∀ acc : List String, ∃ out, parseRanges env ranges acc = some (acc ++ out) ∧
      ∀ x ∈ out, dateRegexTest x = true := by
  induction ranges with
  | nil => intro acc; exact ⟨[], by simp [parseRanges], by simp⟩
  | cons r rest ih =>
    intro acc
    obtain ⟨o1, h1, m1⟩ := parseRange_total env hadv r acc
    obtain ⟨o2, h2, m2⟩ := ih (acc ++ o1)
    refine ⟨o1 ++ o2, by simp [parseRanges, h1, h2], ?_⟩
    intro x hx
    rcases List.mem_append.mp hx with h | h
    · exact m1 x h
    · exact m2 x h

/-! ## Splitting and the characters of a date -/

theorem jsSplit_ne_nil (sep : Char) (l : List Char) : jsSplit sep l ≠ [] := by
  cases l with
  | nil => simp [jsSplit]
  | cons c cs =>
    simp only [jsSplit]
    split_ifs <;> simp

theorem jsSplit_append (sep : Char) (a b : List Char) :
    jsSplit sep (a ++ sep :: b) = jsSplit sep a ++ jsSplit sep b := by
  induction a with
  | nil => simp [jsSplit]
  | cons c cs ih =>
    have hne := jsSplit_ne_nil sep cs
    simp only [List.cons_append, jsSplit]
    have ih2 : jsSplit sep (cs.append (sep :: b)) = jsSplit sep cs ++ jsSplit sep b := ih
    rw [ih2]
    split_ifs
    · simp
    · cases hs : jsSplit sep cs with
      | nil => exact absurd hs hne
      | cons p ps => simp

theorem jsSplit_of_not_mem (sep : Char) (l : List Char) (h : sep ∉ l) :
    jsSplit sep l = [l] := by
  induction l with
  | nil => simp [jsSplit]
  | cons c cs ih =>
    have hc : (c == sep) = false := by
      simp only [beq_eq_false_iff_ne, ne_eq]
      intro he
      exact h (by simp [he])
    have := ih (fun hm => h (List.mem_cons_of_mem c hm))
    simp [jsSplit, hc, this]

theorem matchesDateShape_chars (p l : List Char) (h : matchesDateShape p l = true) :
    ∀ c ∈ l, c.isDigit = true ∨ (c ∈ p ∧ c ≠ 'd') := by
  induction p generalizing l with
  | nil =>
    cases l with
    | nil => simp
    | cons c cs => simp [matchesDateShape] at h
  | cons q qs ih =>
    cases l with
    | nil => simp
    | cons c cs =>
      simp only [matchesDateShape, Bool.and_eq_true] at h
      intro x hx
      rcases List.mem_cons.mp hx with rfl | hx
      · by_cases hq : (q == 'd') = true
        · rw [if_pos hq] at h
          exact Or.inl h.1
        · rw [if_neg hq] at h
          have hxq : x = q := by simpa using h.1
          right
          refine ⟨by simp [hxq], ?_⟩
          intro hd
          rw [hxq] at hd
          exact hq (by simp [hd])
      · rcases ih cs h.2 x hx with h1 | ⟨h1, h2⟩
        · exact Or.inl h1
        · exact Or.inr ⟨List.mem_cons_of_mem q h1, h2⟩

/-- A text of the form `YYYY-MM-DD` consists of digits and dashes. -/
theorem dateRegexTest_chars (s : String) (h : dateRegexTest s = true) :
    ∀ c ∈ s.data, c.isDigit = true ∨ c = '-' := by
  intro c hc
  rcases matchesDateShape_chars _ _ h c hc with h1 | ⟨h1, h2⟩
  · exact Or.inl h1
  · right
    rw [dateShape_data] at h1
    simp only [List.mem_cons, List.mem_singleton, List.not_mem_nil, or_false] at h1
    tauto

theorem isDigit_toNat {c : Char} (h : c.isDigit = true) : 48 ≤ c.toNat ∧ c.toNat ≤ 57 := by
  simp only [Char.isDigit, Bool.and_eq_true, decide_eq_true_eq] at h
  exact ⟨by exact_mod_cast h.1, by exact_mod_cast h.2⟩

theorem date_char_facts {c : Char} (h : c.isDigit = true ∨ c = '-') :
    c ≠ ':' ∧ c ≠ ',' ∧ isJsWhitespace c = false := by
  rcases h with h | rfl
  · have hn := isDigit_toNat h
    refine ⟨?_, ?_, ?_⟩
    · rintro rfl
      exact absurd hn (by decide)
    · rintro rfl
      exact absurd hn (by decide)
    · unfold isJsWhitespace
      simp only [Bool.or_eq_false_iff, Bool.and_eq_false_imp, beq_eq_false_iff_ne, ne_eq,
        decide_eq_true_eq, decide_eq_false_iff_not]
      omega
  · decide

/-! ## Reversed ranges -/

theorem daysInMonth_le (y m : Nat) : daysInMonth y m ≤ 31 := by
  unfold daysInMonth
  split_ifs <;> omega

theorem validIsoDate_parts {s : String} (h : validIsoDate s = true) :
    dateRegexTest s = true ∧ 1 ≤ (dateFields s).2.1 ∧ (dateFields s).2.1 ≤ 12 ∧
      1 ≤ (dateFields s).2.2 ∧
      (dateFields s).2.2 ≤ daysInMonth (dateFields s).1 (dateFields s).2.1 := by
  simpa [validIsoDate, and_assoc] using h

/-- A valid calendar date is parsed to its midnight in UTC, in every engine. -/
theorem newDate_of_valid (env : DateEnv) {s : String} (h : validIsoDate s = true) :
    newDate env s =
      some (daysFromCivil (dateFields s).1 (dateFields s).2.1 (dateFields s).2.2 * msPerDay) := by
  obtain ⟨hre, hm1, hm2, hd1, hd2⟩ := validIsoDate_parts h
  have hd31 := daysInMonth_le (dateFields s).1 (dateFields s).2.1
  have hv : 1 ≤ (dateFields s).2.1 ∧ (dateFields s).2.1 ≤ 12 ∧ 1 ≤ (dateFields s).2.2 ∧
      (dateFields s).2.2 ≤
        (if env.rollsOverDays then 31 else daysInMonth (dateFields s).1 (dateFields s).2.1) := by
    refine ⟨hm1, hm2, hd1, ?_⟩
    split_ifs
    · omega
    · exact hd2
  simp only [newDate, hre, if_true]
  rw [if_pos hv]

/-- The test `start > end` holds for a range whose end is the earlier date. -/
theorem dateGt_of_reversed (env : DateEnv) {s e : String} (hs : validIsoDate s = true)
    (he : validIsoDate e = true) (hrev : isoDateBefore e s = true) :
    dateGt (newDate env s) (newDate env e) = true := by
  rw [newDate_of_valid env hs, newDate_of_valid env he]
  obtain ⟨-, hm1, hm2, hd1, hd2⟩ := validIsoDate_parts hs
  obtain ⟨-, km1, km2, kd1, kd2⟩ := validIsoDate_parts he
  simp only [isoDateBefore, decide_eq_true_eq] at hrev
  have hlt := daysFromCivil_lt (dateFields e).1 (dateFields e).2.1 (dateFields e).2.2
    (dateFields s).1 (dateFields s).2.1 (dateFields s).2.2 ⟨km1, km2⟩ kd2 ⟨hm1, hm2⟩ hd1 hrev
  simp only [dateGt, decide_eq_true_eq, msPerDay]
  omega

theorem dateRegexTest_ne_nil {s : String} (h : dateRegexTest s = true) : s.data ≠ [] := by
  intro hn
  rw [dateRegexTest, hn, dateShape_data] at h
  simp [matchesDateShape] at h

theorem date_trim {s : String} (h : dateRegexTest s = true) : jsTrim s.data = s.data :=
  jsTrim_of_no_whitespace _ fun c hc => (date_char_facts (dateRegexTest_chars s h c hc)).2.2

theorem date_no_colon {s : String} (h : dateRegexTest s = true) : ':' ∉ s.data :=
  fun hc => (date_char_facts (dateRegexTest_chars s h _ hc)).1 rfl

theorem date_no_comma {s : String} (h : dateRegexTest s = true) : ',' ∉ s.data :=
  fun hc => (date_char_facts (dateRegexTest_chars s h _ hc)).2.1 rfl

/-- The text `s:e` of a reversed range pushes nothing. -/
theorem parseRange_reversed (env : DateEnv) {s e : String} (hs : validIsoDate s = true)
    (he : validIsoDate e = true) (hrev : isoDateBefore e s = true) (acc : List String) :
    parseRange env (s.data ++ ':' :: e.data) acc = some acc := by
  have hrs := (validIsoDate_parts hs).1
  have hre := (validIsoDate_parts he).1
  have hsplit : (jsSplit ':' (s.data ++ ':' :: e.data)).map jsTrim = [s.data, e.data] := by
    rw [jsSplit_append, jsSplit_of_not_mem _ _ (date_no_colon hrs),
      jsSplit_of_not_mem _ _ (date_no_colon hre)]
    simp [date_trim hrs, date_trim hre]
  have hc : (s.data ++ ':' :: e.data).contains ':' = true := by simp
  unfold parseRange
  simp only [hc, if_true, hsplit, List.getD_cons_zero, List.getD_cons_succ, hrs, hre,
    Bool.not_true, Bool.or_self, Bool.false_eq_true, if_false,
    dateGt_of_reversed env hs he hrev]

theorem jsTrim_range {s e : String} (hs : dateRegexTest s = true)
    (he : dateRegexTest e = true) :
    jsTrim (s.data ++ ':' :: e.data) = s.data ++ ':' :: e.data := by
  apply jsTrim_of_no_whitespace
  intro c hc
  rcases List.mem_append.mp hc with h | h
  · exact (date_char_facts (dateRegexTest_chars s hs c h)).2.2
  · rcases List.mem_cons.mp h with rfl | h
    · decide
    · exact (date_char_facts (dateRegexTest_chars e he c h)).2.2

theorem range_no_comma {s e : String} (hs : dateRegexTest s = true)
    (he : dateRegexTest e = true) : ',' ∉ s.data ++ ':' :: e.data := by
  intro hc
  rcases List.mem_append.mp hc with h | h
  · exact date_no_comma hs h
  · rcases List.mem_cons.mp h with h | h
    · exact absurd h (by decide)
    · exact date_no_comma he h

theorem parseRanges_append (env : DateEnv) (pre post : List (List Char)) (acc : List String) :
    parseRanges env (pre ++ post) acc =
      (parseRanges env pre acc).bind (parseRanges env post) := by
  induction pre generalizing acc with
  | nil => simp [parseRanges]
  | cons r rest ih =>
    simp only [List.cons_append, parseRanges]
    cases parseRange env r acc with
    | none => simp
    | some a => simp [ih]

/-- A reversed range among the elements changes nothing in the result. -/
theorem parseRanges_skip_reversed (env : DateEnv) {s e : String} (hs : validIsoDate s = true)
    (he : validIsoDate e = true) (hrev : isoDateBefore e s = true)
    (pre post : List (List Char)) (acc : List String) :
    parseRanges env (pre ++ (s.data ++ ':' :: e.data) :: post) acc =
      parseRanges env (pre ++ post) acc := by
  rw [parseRanges_append, parseRanges_append]
  cases parseRanges env pre acc with
  | none => rfl
  | some a => simp [parseRanges, parseRange_reversed env hs he hrev]

theorem parseDataRanges_eq (env : DateEnv) (x : String) :
    parseDataRanges env x =
      (parseRanges env ((jsSplit ',' x.data).map jsTrim) []).map joinDates := by
  unfold parseDataRanges
  by_cases hx : x.data.isEmpty = true
  · have : x.data = [] := List.isEmpty_iff.mp hx
    rw [if_pos hx, this]
    rfl
  · rw [if_neg hx]

/-! ## `collectDateRanges` and `validateDateRanges` -/

theorem collectItem_total (env : DateEnv) (hadv : env.Advances) (item : DateRangeItem)
    (st : List String × Bool) :
    ∃ st1, collectItem env item st = some st1 ∧ (st.2 = true → st1.2 = true) := by
  unfold collectItem
  by_cases hne : (!item.rangeStart.data.isEmpty && !item.rangeEnd.data.isEmpty) = true
  · rw [if_pos hne]
    by_cases hgt : dateGt (newDate env item.rangeStart) (newDate env item.rangeEnd) = true
    · simp only [hgt, if_true]
      exact ⟨_, rfl, fun _ => rfl⟩
    · obtain ⟨out, hout, -⟩ := expandDates_total env hadv (newDate env item.rangeStart)
        (newDate env item.rangeEnd) st.1
      simp only [hgt, Bool.false_eq_true, if_false, hout, Option.map_some']
      exact ⟨_, rfl, fun h => h⟩
  · rw [if_neg hne]
    exact ⟨st, rfl, fun h => h⟩

theorem collectItems_total (env : DateEnv) (hadv : env.Advances) (items : List DateRangeItem) :
    ∀ st : List String × Bool,
      ∃ st1, collectItems env items st = some st1 ∧ (st.2 = true → st1.2 = true) := by
  induction items with
  | nil => intro st; exact ⟨st, rfl, fun h => h⟩
  | cons item rest ih =>
    intro st
    obtain ⟨s1, h1, k1⟩ := collectItem_total env hadv item st
    obtain ⟨s2, h2, k2⟩ := ih s1
    exact ⟨s2, by simp [collectItems, h1, h2], fun h => k2 (k1 h)⟩

theorem collectItems_append (env : DateEnv) (a b : List DateRangeItem)
    (st : List String × Bool) :
    collectItems env (a ++ b) st = (collectItems env a st).bind (collectItems env b) := by
  induction a generalizing st with
  | nil => simp [collectItems]
  | cons r rest ih =>
    simp only [List.cons_append, collectItems]
    cases collectItem env r st with
    | none => simp
    | some x => simp [ih]

theorem collectItem_reversed (env : DateEnv) {s e : String} (hs : validIsoDate s = true)
    (he : validIsoDate e = true) (hrev : isoDateBefore e s = true)
    (st : List String × Bool) :
    collectItem env ⟨s, e⟩ st = some (st.1, true) := by
  have h1 : s.data.isEmpty = false := by
    cases hd : s.data with
    | nil => exact absurd hd (dateRegexTest_ne_nil (validIsoDate_parts hs).1)
    | cons c cs => rfl
  have h2 : e.data.isEmpty = false := by
    cases hd : e.data with
    | nil => exact absurd hd (dateRegexTest_ne_nil (validIsoDate_parts he).1)
    | cons c cs => rfl
  simp [collectItem, h1, h2, dateGt_of_reversed env hs he hrev]

/-- With a reversed range among the items, `collectDateRanges` returns the empty
string. -/
theorem collectDateRanges_reversed (env : DateEnv) (hadv : env.Advances) {s e : String}
    (hs : validIsoDate s = true) (he : validIsoDate e = true)
    (hrev : isoDateBefore e s = true) (items1 items2 : List DateRangeItem) :
    collectDateRanges env (items1 ++ ⟨s, e⟩ :: items2) = some "" := by
  obtain ⟨s1, h1, -⟩ := collectItems_total env hadv items1 ([], false)
  obtain ⟨s2, h2, k2⟩ := collectItems_total env hadv items2 (s1.1, true)
  have hall : collectItems env (items1 ++ ⟨s, e⟩ :: items2) ([], false) = some s2 := by
    rw [collectItems_append, h1]
    simp [collectItems, collectItem_reversed env hs he hrev, h2]
  have hflag : s2.2 = true := k2 rfl
  unfold collectDateRanges
  rw [hall]
  obtain ⟨d, f⟩ := s2
  simp only at hflag
  simp [hflag]

theorem validate_foldl_false (env : DateEnv) (items : List DateRangeItem) :
    items.foldl
      (fun isValid item =>
        if item.rangeStart.data.isEmpty || item.rangeEnd.data.isEmpty then false
        else if dateGt (newDate env item.rangeStart) (newDate env item.rangeEnd) then false
        else isValid)
      false = false := by
  induction items with
  | nil => rfl
  | cons item rest ih =>
    simp only [List.foldl_cons]
    split_ifs <;> exact ih

/-- With a reversed range among the items, `validateDateRanges` returns false. -/
theorem validateDateRanges_reversed (env : DateEnv) {s e : String}
    (hs : validIsoDate s = true) (he : validIsoDate e = true)
    (hrev : isoDateBefore e s = true) (items1 items2 : List DateRangeItem) :
    validateDateRanges env (items1 ++ ⟨s, e⟩ :: items2) = false := by
  unfold validateDateRanges
  rw [List.foldl_append, List.foldl_cons]
  simp only [dateGt_of_reversed env hs he hrev, if_true, ite_self]
  exact validate_foldl_false env items2

/-! ## Sample environments -/

theorem utcEnv_advances : utcEnv.Advances := by
  intro t
  show (0 : Int) < 0 + 86400000
  decide

theorem newYorkEnv_advances : newYorkEnv.Advances := by
  intro t
  have h1 : utcInstant 2024 3 10 7 = 1710054000000 := by decide
  have h2 : utcInstant 2024 11 3 6 = 1730613600000 := by decide
  simp only [newYorkEnv, h1, h2, msPerDay]
  split_ifs <;> omega

theorem jsSplit_intercalate (l : List (List Char)) (hne : l ≠ [])
    (h : ∀ x ∈ l, ',' ∉ x) : jsSplit ',' (List.intercalate [','] l) = l := by
  induction l with
  | nil => exact absurd rfl hne
  | cons x rest ih =>
    cases rest with
    | nil =>
      have e : List.intercalate [','] [x] = x := by
        simp [List.intercalate, List.intersperse]
      rw [e]
      exact jsSplit_of_not_mem _ _ (h x (List.mem_cons_self _ _))
    | cons y r =>
      have ih2 := ih (by simp) (fun z hz => h z (List.mem_cons_of_mem _ hz))
      have e : List.intercalate [','] (x :: y :: r) =
          x ++ ',' :: List.intercalate [','] (y :: r) := by
        simp [List.intercalate, List.intersperse]
      rw [e, jsSplit_append, ih2, jsSplit_of_not_mem _ _ (h x (List.mem_cons_self _ _))]
      rfl

/-! ## The claims on date ranges -/

theorem parseDataRanges_total (env : DateEnv) (hadv : env.Advances) (x : String) :
    ∃ allDates, parseDataRanges env x = some (joinDates allDates) ∧
      ∀ d ∈ allDates, dateRegexTest d = true := by
  obtain ⟨out, hout, hmem⟩ :=
    parseRanges_total env hadv ((jsSplit ',' x.data).map jsTrim) []
  refine ⟨out, ?_, hmem⟩
  rw [parseDataRanges_eq, hout]
  rfl

/-- C14 (evaluation): in a browser in the time zone America/New_York the range
2024-03-09:2024-03-12 expands to `2024-03-09,2024-03-10,2024-03-10,2024-03-11`,
in `parseDataRanges` and in `collectDateRanges`: the day after the change to
daylight-saving time is repeated and the last day is missing.  The range
2024-11-02:2024-11-04 loses its last day.  In UTC the range
2024-01-01:2024-01-03 expands to its three days. -/
theorem range_expansion_repeats_and_skips :
    validIsoDate "2024-03-09" = true ∧ validIsoDate "2024-03-12" = true ∧
      isoDateBefore "2024-03-09" "2024-03-12" = true ∧
      parseDataRanges newYorkEnv "2024-03-09:2024-03-12" =
        some "2024-03-09,2024-03-10,2024-03-10,2024-03-11" ∧
      collectDateRanges newYorkEnv [⟨"2024-03-09", "2024-03-12"⟩] =
        some "2024-03-09,2024-03-10,2024-03-10,2024-03-11" ∧
      parseDataRanges newYorkEnv "2024-11-02:2024-11-04" = some "2024-11-02,2024-11-03" ∧
      parseDataRanges utcEnv "2024-01-01:2024-01-03" =
        some "2024-01-01,2024-01-02,2024-01-03" := by
  decide

theorem data_middle (a s e b : String) :
    (a ++ "," ++ s ++ ":" ++ e ++ "," ++ b).data =
      a.data ++ ',' :: ((s.data ++ ':' :: e.data) ++ ',' :: b.data) := by
  simp [String.data_append]

theorem data_last (a s e : String) :
    (a ++ "," ++ s ++ ":" ++ e).data = a.data ++ ',' :: (s.data ++ ':' :: e.data) := by
  simp [String.data_append]

theorem data_first (s e b : String) :
    (s ++ ":" ++ e ++ "," ++ b).data = (s.data ++ ':' :: e.data) ++ ',' :: b.data := by
  simp [String.data_append]

theorem data_alone (s e : String) : (s ++ ":" ++ e).data = s.data ++ ':' :: e.data := by
  simp [String.data_append]

theorem data_pair (a b : String) : (a ++ "," ++ b).data = a.data ++ ',' :: b.data := by
  simp [String.data_append]

/-- C15: a reversed range `s:e` (both valid calendar dates, `e` the earlier one)
is rejected, in every time zone in which days advance.  `parseDataRanges` gives the
empty list for it alone, and with other ranges before or after it in the input it
returns what it returns for those ranges alone (and it does return);
`collectDateRanges` returns the empty string whatever the other items are;
`validateDateRanges` returns false. -/
theorem reversed_range_rejected (env : DateEnv) (s e : String) (hadv : env.Advances)
    (hs : validIsoDate s = true) (he : validIsoDate e = true)
    (hrev : isoDateBefore e s = true) :
    parseDataRanges env (s ++ ":" ++ e) = some "" ∧
      (∀ a b : String,
        parseDataRanges env (a ++ "," ++ s ++ ":" ++ e ++ "," ++ b) =
          parseDataRanges env (a ++ "," ++ b) ∧
        parseDataRanges env (a ++ "," ++ s ++ ":" ++ e) = parseDataRanges env a ∧
        parseDataRanges env (s ++ ":" ++ e ++ "," ++ b) = parseDataRanges env b ∧
        (parseDataRanges env (a ++ "," ++ b)).isSome = true ∧
        (parseDataRanges env a).isSome = true) ∧
      (∀ items1 items2 : List DateRangeItem,
        collectDateRanges env (items1 ++ ⟨s, e⟩ :: items2) = some "") ∧
      (∀ items1 items2 : List DateRangeItem,
        validateDateRanges env (items1 ++ ⟨s, e⟩ :: items2) = false) := by
  have hrs := (validIsoDate_parts hs).1
  have hre := (validIsoDate_parts he).1
  have hsp : jsSplit ',' (s.data ++ ':' :: e.data) = [s.data ++ ':' :: e.data] :=
    jsSplit_of_not_mem _ _ (range_no_comma hrs hre)
  have htr := jsTrim_range hrs hre
  have hskip := parseRanges_skip_reversed env hs he hrev
  refine ⟨?_, ?_, fun i1 i2 => collectDateRanges_reversed env hadv hs he hrev i1 i2,
    fun i1 i2 => validateDateRanges_reversed env hs he hrev i1 i2⟩
  · rw [parseDataRanges_eq, data_alone, hsp]
    simp only [List.map_cons, List.map_nil, htr]
    have := hskip [] [] []
    simp only [List.nil_append] at this
    rw [this]
    rfl
  · intro a b
    refine ⟨?_, ?_, ?_, ?_, ?_⟩
    · rw [parseDataRanges_eq, parseDataRanges_eq, data_middle, data_pair, jsSplit_append,
        jsSplit_append, jsSplit_append, hsp]
      simp only [List.map_append, List.map_cons, List.map_nil, htr, List.singleton_append]
      rw [hskip]
    · rw [parseDataRanges_eq, parseDataRanges_eq, data_last, jsSplit_append, hsp]
      simp only [List.map_append, List.map_cons, List.map_nil, htr]
      have := hskip ((jsSplit ',' a.data).map jsTrim) [] []
      rw [List.append_nil] at this
      rw [this]
    · rw [parseDataRanges_eq, parseDataRanges_eq, data_first, jsSplit_append, hsp]
      simp only [List.map_append, List.map_cons, List.map_nil, htr, List.singleton_append]
      have := hskip [] ((jsSplit ',' b.data).map jsTrim) []
      simp only [List.nil_append] at this
      rw [this]
    · obtain ⟨d, hd, -⟩ := parseDataRanges_total env hadv (a ++ "," ++ b)
      rw [hd]
      rfl
    · obtain ⟨d, hd, -⟩ := parseDataRanges_total env hadv a
      rw [hd]
      rfl

theorem reversed_range_rejected_witness :
    (newYorkEnv.Advances ∧ validIsoDate "2024-03-12" = true ∧
        validIsoDate "2024-03-09" = true ∧ isoDateBefore "2024-03-09" "2024-03-12" = true) ∧
      (parseDataRanges newYorkEnv ("2024-03-12" ++ ":" ++ "2024-03-09") = some "" ∧
        (∀ a b : String,
          parseDataRanges newYorkEnv (a ++ "," ++ "2024-03-12" ++ ":" ++ "2024-03-09" ++ "," ++ b) =
            parseDataRanges newYorkEnv (a ++ "," ++ b) ∧
          parseDataRanges newYorkEnv (a ++ "," ++ "2024-03-12" ++ ":" ++ "2024-03-09") =
            parseDataRanges newYorkEnv a ∧
          parseDataRanges newYorkEnv ("2024-03-12" ++ ":" ++ "2024-03-09" ++ "," ++ b) =
            parseDataRanges newYorkEnv b ∧
          (parseDataRanges newYorkEnv (a ++ "," ++ b)).isSome = true ∧
          (parseDataRanges newYorkEnv a).isSome = true) ∧
        (∀ items1 items2 : List DateRangeItem,
          collectDateRanges newYorkEnv (items1 ++ ⟨"2024-03-12", "2024-03-09"⟩ :: items2) =
            some "") ∧
        (∀ items1 items2 : List DateRangeItem,
          validateDateRanges newYorkEnv (items1 ++ ⟨"2024-03-12", "2024-03-09"⟩ :: items2) =
            false)) :=
  ⟨⟨newYorkEnv_advances, by decide, by decide, by decide⟩,
    reversed_range_rejected newYorkEnv "2024-03-12" "2024-03-09" newYorkEnv_advances
      (by decide) (by decide) (by decide)⟩

/-- C16 (counterexample): the single date `2024-13-45` has the form `YYYY-MM-DD`
and is returned as it is, although it is not a calendar date. -/
theorem unchecked_single_date_returned :
    parseDataRanges utcEnv "2024-13-45" = some "2024-13-45" ∧
      parseDataRanges newYorkEnv "2024-01-10, 2024-02-31" = some "2024-01-10,2024-02-31" ∧
      validIsoDate "2024-13-45" = false ∧ validIsoDate "2024-02-31" = false := by
  decide

/-- C16 (amended): in every time zone in which days advance, `parseDataRanges`
returns for every input string the comma-joined list of the dates it collected,
and every one of them has the form `YYYY-MM-DD` (four digits, two digits, two
digits); when the list is not empty its elements are the comma-separated tokens
of the result.  Month and day are not checked. -/
theorem parseDataRanges_tokens_have_date_form (env : DateEnv) (rangeInput : String)
    (hadv : env.Advances) :
    ∃ allDates : List String,
      parseDataRanges env rangeInput = some (joinDates allDates) ∧
      (∀ d ∈ allDates, dateRegexTest d = true) ∧
      (allDates ≠ [] →
        jsSplit ',' (joinDates allDates).data = allDates.map String.data) := by
  obtain ⟨allDates, h1, h2⟩ := parseDataRanges_total env hadv rangeInput
  refine ⟨allDates, h1, h2, fun hne => ?_⟩
  simp only [joinDates]
  apply jsSplit_intercalate
  · simpa using hne
  · intro x hx
    obtain ⟨d, hd, rfl⟩ := List.mem_map.mp hx
    exact date_no_comma (h2 d hd)

theorem parseDataRanges_tokens_have_date_form_witness :
    utcEnv.Advances ∧
      ∃ allDates : List String,
        parseDataRanges utcEnv "2024-02-27:2024-03-01, 2024-13-45" =
          some (joinDates allDates) ∧
        (∀ d ∈ allDates, dateRegexTest d = true) ∧
        (allDates ≠ [] →
          jsSplit ',' (joinDates allDates).data = allDates.map String.data) :=
  ⟨utcEnv_advances,
    parseDataRanges_tokens_have_date_form utcEnv "2024-02-27:2024-03-01, 2024-13-45"
      utcEnv_advances⟩

/-! ## The store under the aggregation endpoints -/

/-- C21 (evaluation): a fallback store, reached by one creation and two status
updates, holds request 1 (updated on 2 March) before request 2 (updated on
3 March).  After `GET /api/admin/recent-activity` the store holds request 2
before request 1: the handler sorts `memoryCache.requests` in place.  The users
and the set of requests are as before. -/
theorem recent_activity_reorders_store :
    twoUpdatedWorld.primary = false ∧ twoUpdatedWorld.memoryCache.initialized = true ∧
      twoUpdatedWorld.memoryCache.requests.map (fun r => (r.id, r.updated_at)) =
        [(1, some "2024-03-02T10:00:00.000Z"), (2, some "2024-03-03T10:00:00.000Z")] ∧
      (getRecentActivity sampleEnv twoUpdatedWorld).2.memoryCache.requests.map
          (fun r => (r.id, r.updated_at)) =
        [(2, some "2024-03-03T10:00:00.000Z"), (1, some "2024-03-02T10:00:00.000Z")] ∧
      (getRecentActivity sampleEnv twoUpdatedWorld).2.memoryCache.requests =
        twoUpdatedWorld.memoryCache.requests.reverse ∧
      (getRecentActivity sampleEnv twoUpdatedWorld).2.memoryCache.requests ≠
        twoUpdatedWorld.memoryCache.requests ∧
      (getRecentActivity sampleEnv twoUpdatedWorld).2.memoryCache.users =
        twoUpdatedWorld.memoryCache.users := by
  decide

/-! ## The legacy status `rejected` -/

/-- C23 (evaluation): a call of `PUT /api/admin/requests/:id/status` with the
status `rejected` is answered 400 by the first handler of the route, whatever the
id, the rest of the body and the state of the server are, and nothing is changed.
The second handler registered for the route would accept it (200, status set to
`rejected` on the seeded fallback store), but control never reaches it. -/
theorem rejected_status_answered_400 :
    (∀ (env : Env) (id : String) (comments : JsVal) (w : World),
        putRequestStatusRoute env id ⟨.str "rejected", comments⟩ w =
          (.sent ⟨400, [("error",
            .str "Invalid status. Must be one of: submitted, processing, failed, completed")]⟩,
           w)) ∧
      (putRequestStatusRoute sampleEnv "1" ⟨.str "rejected", .undefined⟩
          seededFallbackWorld).2.memoryCache.requests.map (fun r => (r.id, r.status)) =
        [(1, "submitted")] ∧
      (putRequestStatusLogged sampleEnv "1" ⟨.str "rejected", .str "admin", .undefined⟩
          seededFallbackWorld).1.code = some 200 ∧
      (putRequestStatusLogged sampleEnv "1" ⟨.str "rejected", .str "admin", .undefined⟩
          seededFallbackWorld).2.memoryCache.requests.map (fun r => (r.id, r.status)) =
        [(1, "rejected")] := by
  refine ⟨?_, by decide, by decide, by decide⟩
  intro env id comments w
  have h1 : truthy (.str "rejected") = true := by decide
  have h2 : validStatuses.contains (jsToLowerCase "rejected") = false := by decide
  simp only [putRequestStatusRoute, putRequestStatusOverride, h1, h2, Bool.not_true,
    Bool.not_false, Bool.false_eq_true, if_false, if_true]

/-! ## Repeated sanitising -/

/-- C29 (evaluation): `sanitizeString` applied to
`<scr<script></script>ipt>alert(1)</script>` returns `<script>alert(1)</script>`,
a script block, and applied to that returns the empty string; applied to
`a <script></script>` it returns `a ` with a trailing blank, and applied to that
returns `a`.  A value that is not a string is returned as it is. -/
theorem sanitizeString_not_idempotent :
    sanitizeString (.str "<scr<script></script>ipt>alert(1)</script>") =
        .str "<script>alert(1)</script>" ∧
      sanitizeString (.str "<script>alert(1)</script>") = .str "" ∧
      sanitizeString (.str "a <script></script>") = .str "a " ∧
      sanitizeString (.str "a ") = .str "a" ∧
      (∀ x : JsNum, sanitizeString (.num x) = .num x) ∧
      (∀ b : Bool, sanitizeString (.bool b) = .bool b) ∧
      (∀ t : Option String, sanitizeString (.other t) = .other t) ∧
      sanitizeString .null = .null ∧ sanitizeString .undefined = .undefined := by
  refine ⟨by decide, by decide, by decide, by decide, fun _ => rfl, fun _ => rfl,
    fun _ => rfl, rfl, rfl⟩

/-! ## A status that is not a string -/

/-- C30 (evaluation): when the `status` of the body is the number 1, the
boolean `true`, or an array or object, the handler of
`PUT /api/admin/requests/:id/status` raises (`status.toLowerCase` is not a
function) before its `try` block: it ends without having sent a response and
without having changed anything, whatever the id and the state of the server. -/
theorem non_string_status_raises :
    (∀ (env : Env) (id : String) (comments : JsVal) (w : World),
        putRequestStatusRoute env id ⟨.num (.fin false 1 0), comments⟩ w = (.uncaught, w)) ∧
      (∀ (env : Env) (id : String) (comments : JsVal) (w : World),
        putRequestStatusRoute env id ⟨.bool true, comments⟩ w = (.uncaught, w)) ∧
      (∀ (env : Env) (id : String) (comments : JsVal) (w : World) (t : Option String),
        putRequestStatusRoute env id ⟨.other t, comments⟩ w = (.uncaught, w)) ∧
      (putRequestStatusRoute sampleEnv "1" ⟨.num (.fin false 1 0), .undefined⟩
          seededFallbackWorld).1.code = none := by
  refine ⟨?_, ?_, ?_, by decide⟩
  · intro env id comments w
    have h1 : truthy (.num (.fin false 1 0)) = true := by decide
    simp only [putRequestStatusRoute, putRequestStatusOverride, h1, Bool.not_true,
      Bool.false_eq_true, if_false]
  · intro env id comments w
    have h1 : truthy (.bool true) = true := by decide
    simp only [putRequestStatusRoute, putRequestStatusOverride, h1, Bool.not_true,
      Bool.false_eq_true, if_false]
  · intro env id comments w t
    have h1 : truthy (.other t) = true := by rfl
    simp only [putRequestStatusRoute, putRequestStatusOverride, h1, Bool.not_true,
      Bool.false_eq_true, if_false]

/-! ## What a status transition changes -/

theorem findIndex_some_spec {α : Type} (p : α → Bool) (l : List α) (i : Nat)
    (h : findIndex p l = some i) : ∃ r, l[i]? = some r ∧ p r = true := by
  induction l generalizing i with
  | nil => simp [findIndex] at h
  | cons x xs ih =>
    by_cases hx : p x = true
    · simp only [findIndex, hx, if_true, Option.some.injEq] at h
      subst h
      exact ⟨x, by simp, hx⟩
    · simp only [findIndex, hx, Bool.false_eq_true, if_false, Option.map_eq_some'] at h
      obtain ⟨k, hk, rfl⟩ := h
      obtain ⟨r, hr, hp⟩ := ih k hk
      exact ⟨r, by simpa using hr, hp⟩

/-- A 200 answer of the handler on the fallback store: the status is a string
accepted by the whitelist and the id resolves to a stored request. -/
theorem override_fallback_200 (env : Env) (id : String) (body : StatusBody) (w : World)
    (hfb : w.primary = false)
    (hok : (putRequestStatusOverride env id body w).1.code = some 200) :
    ∃ (status : String) (i : Nat), body.status = .str status ∧
      findIndex (fun r => looseEqNatStr r.id id)
        (ensureInitialized (env.isoNow 0) w.memoryCache).requests = some i ∧
      putRequestStatusOverride env id body w =
        (.sent ⟨200, overrideSuccessBody status body.admin_comments⟩,
         { w with memoryCache :=
            { ensureInitialized (env.isoNow 0) w.memoryCache with
              requests := updateAt (applyStatusOverride status (env.isoNow 1) body.admin_comments)
                i (ensureInitialized (env.isoNow 0) w.memoryCache).requests } }) := by
  obtain ⟨st, comments⟩ := body
  cases htr : truthy st with
  | false => simp [putRequestStatusOverride, htr, Outcome.code] at hok
  | true =>
    cases st with
    | str status =>
      cases hv : validStatuses.contains (jsToLowerCase status) with
      | false =>
        simp only [putRequestStatusOverride, htr, hv, Bool.not_true, Bool.not_false,
          Bool.false_eq_true, if_false, if_true, Outcome.code] at hok
        exact absurd hok (by decide)
      | true =>
        rw [override_fallback_eq env id status comments w hfb htr hv] at hok ⊢
        cases hfi : findIndex (fun r => looseEqNatStr r.id id)
            (ensureInitialized (env.isoNow 0) w.memoryCache).requests with
        | none => simp [hfi, Outcome.code] at hok
        | some i => exact ⟨status, i, rfl, rfl, rfl⟩
    | undefined => simp [truthy] at htr
    | null => simp [truthy] at htr
    | bool b => simp [putRequestStatusOverride, htr, Outcome.code] at hok
    | num x => simp [putRequestStatusOverride, htr, Outcome.code] at hok
    | other t => simp [putRequestStatusOverride, htr, Outcome.code] at hok

/-- C22: a status transition that the fallback store answers 200 addresses a
stored request `r` (the first whose id equals the id of the call) and replaces it
by `r` with the status of the call, `updated_at` set to the clock and, when the
body carries a comment, `admin_comments` set to that comment; `request_id` and
every other field of `r` are as before, so are every other request, the number
and order of the requests, the users, and the rest of the server state.  The
store before is the seeded one (the store itself once it is initialised). -/
theorem transition_changes_only_status_fields (env : Env) (id : String) (body : StatusBody)
    (w : World) (hfb : w.primary = false)
    (hok : (putRequestStatusRoute env id body w).1.code = some 200) :
    ∃ (i : Nat) (r : Request) (status : String),
      body.status = .str status ∧
      (ensureInitialized (env.isoNow 0) w.memoryCache).requests[i]? = some r ∧
      looseEqNatStr r.id id = true ∧
      (putRequestStatusRoute env id body w).2.memoryCache.requests[i]? =
        some { r with
          status := status
          updated_at := some (env.isoNow 1)
          admin_comments :=
            if truthy body.admin_comments then some body.admin_comments else r.admin_comments } ∧
      ((putRequestStatusRoute env id body w).2.memoryCache.requests[i]?).map (·.request_id) =
        some r.request_id ∧
      (∀ j, j ≠ i →
        (putRequestStatusRoute env id body w).2.memoryCache.requests[j]? =
          (ensureInitialized (env.isoNow 0) w.memoryCache).requests[j]?) ∧
      (putRequestStatusRoute env id body w).2.memoryCache.requests.map (·.request_id) =
        (ensureInitialized (env.isoNow 0) w.memoryCache).requests.map (·.request_id) ∧
      (putRequestStatusRoute env id body w).2.memoryCache.users =
        (ensureInitialized (env.isoNow 0) w.memoryCache).users ∧
      (putRequestStatusRoute env id body w).2.executed = w.executed ∧
      (putRequestStatusRoute env id body w).2.sqliteFound = w.sqliteFound ∧
      (putRequestStatusRoute env id body w).2.isDbConnected = w.isDbConnected ∧
      (w.memoryCache.initialized = true →
        ensureInitialized (env.isoNow 0) w.memoryCache = w.memoryCache) := by
  unfold putRequestStatusRoute at hok ⊢
  obtain ⟨status, i, hst, hfi, heq⟩ := override_fallback_200 env id body w hfb hok
  obtain ⟨r, hr, hp⟩ := findIndex_some_spec _ _ i hfi
  rw [heq]
  refine ⟨i, r, status, hst, hr, hp, ?_, ?_, ?_, ?_, rfl, rfl, rfl, rfl,
    fun h => ensureInitialized_of_initialized _ _ h⟩
  · simp only [getElem?_updateAt_self, hr, Option.map_some', applyStatusOverride]
  · simp only [getElem?_updateAt_self, hr, Option.map_some', applyStatusOverride]
  · intro j hj
    exact getElem?_updateAt_ne _ _ i j hj
  · exact map_updateAt_of_preserved (fun q : Request => q.request_id)
      (applyStatusOverride status (env.isoNow 1) body.admin_comments) (fun a => rfl) _ i

theorem transition_changes_only_status_fields_witness :
    (seededFallbackWorld.primary = false ∧
        (putRequestStatusRoute sampleEnv "1" ⟨.str "completed", .str "done"⟩
          seededFallbackWorld).1.code = some 200) ∧
      ∃ (i : Nat) (r : Request) (status : String),
        (⟨.str "completed", .str "done"⟩ : StatusBody).status = .str status ∧
        (ensureInitialized (sampleEnv.isoNow 0) seededFallbackWorld.memoryCache).requests[i]? =
          some r ∧
        looseEqNatStr r.id "1" = true ∧
        (putRequestStatusRoute sampleEnv "1" ⟨.str "completed", .str "done"⟩
            seededFallbackWorld).2.memoryCache.requests[i]? =
          some { r with
            status := status
            updated_at := some (sampleEnv.isoNow 1)
            admin_comments :=
              if truthy (⟨.str "completed", .str "done"⟩ : StatusBody).admin_comments then
                some (⟨.str "completed", .str "done"⟩ : StatusBody).admin_comments
              else r.admin_comments } ∧
        ((putRequestStatusRoute sampleEnv "1" ⟨.str "completed", .str "done"⟩
            seededFallbackWorld).2.memoryCache.requests[i]?).map (·.request_id) =
          some r.request_id ∧
        (∀ j, j ≠ i →
          (putRequestStatusRoute sampleEnv "1" ⟨.str "completed", .str "done"⟩
              seededFallbackWorld).2.memoryCache.requests[j]? =
            (ensureInitialized (sampleEnv.isoNow 0) seededFallbackWorld.memoryCache).requests[j]?) ∧
        (putRequestStatusRoute sampleEnv "1" ⟨.str "completed", .str "done"⟩
            seededFallbackWorld).2.memoryCache.requests.map (·.request_id) =
          (ensureInitialized (sampleEnv.isoNow 0) seededFallbackWorld.memoryCache).requests.map
            (·.request_id) ∧
        (putRequestStatusRoute sampleEnv "1" ⟨.str "completed", .str "done"⟩
            seededFallbackWorld).2.memoryCache.users =
          (ensureInitialized (sampleEnv.isoNow 0) seededFallbackWorld.memoryCache).users ∧
        (putRequestStatusRoute sampleEnv "1" ⟨.str "completed", .str "done"⟩
            seededFallbackWorld).2.executed = seededFallbackWorld.executed ∧
        (putRequestStatusRoute sampleEnv "1" ⟨.str "completed", .str "done"⟩
            seededFallbackWorld).2.sqliteFound = seededFallbackWorld.sqliteFound ∧
        (putRequestStatusRoute sampleEnv "1" ⟨.str "completed", .str "done"⟩
            seededFallbackWorld).2.isDbConnected = seededFallbackWorld.isDbConnected ∧
        (seededFallbackWorld.memoryCache.initialized = true →
          ensureInitialized (sampleEnv.isoNow 0) seededFallbackWorld.memoryCache =
            seededFallbackWorld.memoryCache) :=
  ⟨⟨by decide, by decide⟩,
    transition_changes_only_status_fields sampleEnv "1" ⟨.str "completed", .str "done"⟩
      seededFallbackWorld (by decide) (by decide)⟩

/-! ## The requests a user is shown -/

theorem jsFind_eq_none {α : Type} (p : α → Bool) (l : List α) (h : ∀ x ∈ l, p x = false) :
    jsFind p l = none := by
  induction l with
  | nil => rfl
  | cons x xs ih =>
    simp [jsFind, h x (List.mem_cons_self x xs),
      ih fun y hy => h y (List.mem_cons_of_mem x hy)]

theorem jsFind_some_mem {α : Type} (p : α → Bool) (l : List α) (x : α)
    (h : jsFind p l = some x) : x ∈ l ∧ p x = true := by
  induction l with
  | nil => simp [jsFind] at h
  | cons y ys ih =>
    by_cases hy : p y = true
    · simp only [jsFind, hy, if_true, Option.some.injEq] at h
      subst h
      exact ⟨List.mem_cons_self _ _, hy⟩
    · simp only [jsFind, hy, Bool.false_eq_true, if_false] at h
      obtain ⟨h1, h2⟩ := ih h
      exact ⟨List.mem_cons_of_mem _ h1, h2⟩

/-- The handler answers from the fallback store when the primary backend is not
in use, and when its first query is rejected. -/
theorem getRequests_fallback (env : Env) (username isAdminParam : JsVal) (w : World)
    (hfb : w.primary = false ∨
      (env.queryResult 0 = none ∧
        (jsStrictEq isAdminParam (.str "true") = true ∨ truthy username = true))) :
    getRequests env username isAdminParam w =
      (fallbackRequests (initializeFallbackData (env.isoNow 0) w.memoryCache) username
          (jsStrictEq isAdminParam (.str "true")),
        { w with memoryCache := initializeFallbackData (env.isoNow 0) w.memoryCache }) := by
  cases hp : w.primary with
  | false => simp [getRequests, hp]
  | true =>
    rcases hfb with hfb | ⟨hq, hcase⟩
    · rw [hp] at hfb
      exact absurd hfb (by decide)
    · have hex : ∀ sql ps, executeQuery (env.queryResult 0) w sql ps = none := by
        intro sql ps
        unfold executeQuery
        rw [hq]
        split
        · rfl
        · split <;> rfl
      cases ha : jsStrictEq isAdminParam (.str "true") with
      | true => simp [getRequests, hp, ha, hex]
      | false =>
        rw [ha] at hcase
        have hu : truthy username = true := by
          rcases hcase with h | h
          · exact absurd h (by decide)
          · exact h
        simp [getRequests, hp, ha, hu, hex]

/-- C24: when `GET /api/requests` is answered from the fallback store (the
primary backend is not in use, or its first query is rejected), an admin call
returns every stored request, and a call that is not an admin call returns, in
their stored order, exactly the requests whose `user_id` equals the id of the
first stored user with the username of the call, and no request when no user has
that username.  Hence two stores with the same users, in which the requests of
that user are the same, give the same answer whatever the other requests are. -/
theorem fallback_requests_of_user (env : Env) (username isAdminParam : JsVal) (w : World)
    (hfb : w.primary = false ∨
      (env.queryResult 0 = none ∧
        (jsStrictEq isAdminParam (.str "true") = true ∨ truthy username = true))) :
    (jsStrictEq isAdminParam (.str "true") = true →
        (getRequests env username isAdminParam w).1 =
          .stored (initializeFallbackData (env.isoNow 0) w.memoryCache).requests) ∧
      (jsStrictEq isAdminParam (.str "true") = false →
        (∀ user : User,
          jsFind (fun u => jsStrictEq u.username username)
              (initializeFallbackData (env.isoNow 0) w.memoryCache).users = some user →
            user ∈ (initializeFallbackData (env.isoNow 0) w.memoryCache).users ∧
            jsStrictEq user.username username = true ∧
            (getRequests env username isAdminParam w).1 =
              .stored ((initializeFallbackData (env.isoNow 0) w.memoryCache).requests.filter
                fun r => r.user_id.eqNat user.id)) ∧
        ((∀ u ∈ (initializeFallbackData (env.isoNow 0) w.memoryCache).users,
            jsStrictEq u.username username = false) →
          (getRequests env username isAdminParam w).1 = .stored []) ∧
        (∀ (env2 : Env) (w2 : World), w2.primary = false →
          (initializeFallbackData (env2.isoNow 0) w2.memoryCache).users =
            (initializeFallbackData (env.isoNow 0) w.memoryCache).users →
          (∀ user : User,
            jsFind (fun u => jsStrictEq u.username username)
                (initializeFallbackData (env.isoNow 0) w.memoryCache).users = some user →
            (initializeFallbackData (env2.isoNow 0) w2.memoryCache).requests.filter
                (fun r => r.user_id.eqNat user.id) =
              (initializeFallbackData (env.isoNow 0) w.memoryCache).requests.filter
                (fun r => r.user_id.eqNat user.id)) →
          (getRequests env2 username isAdminParam w2).1 =
            (getRequests env username isAdminParam w).1)) ∧
      (getRequests env username isAdminParam w).2.memoryCache =
        initializeFallbackData (env.isoNow 0) w.memoryCache := by
  rw [getRequests_fallback env username isAdminParam w hfb]
  have hform : ∀ (cache : MemoryCache),
      fallbackRequests cache username false =
        match jsFind (fun u => jsStrictEq u.username username) cache.users with
        | some user => .stored (cache.requests.filter fun r => r.user_id.eqNat user.id)
        | none => .stored [] := by
    intro cache
    unfold fallbackRequests
    cases jsFind (fun u => jsStrictEq u.username username) cache.users with
    | none => simp
    | some user => simp
  refine ⟨?_, ?_, rfl⟩
  · intro ha
    simp [ha, fallbackRequests]
  · intro ha
    simp only [ha]
    refine ⟨?_, ?_, ?_⟩
    · intro user hu
      obtain ⟨h1, h2⟩ := jsFind_some_mem _ _ _ hu
      refine ⟨h1, h2, ?_⟩
      rw [hform, hu]
    · intro hnone
      rw [hform, jsFind_eq_none _ _ hnone]
    · intro env2 w2 hfb2 husers hreqs
      rw [getRequests_fallback env2 username isAdminParam w2 (Or.inl hfb2)]
      simp only [ha]
      rw [hform, hform, husers]
      cases hfind : jsFind (fun u => jsStrictEq u.username username)
          (initializeFallbackData (env.isoNow 0) w.memoryCache).users with
      | none => rfl
      | some user => simp only [hreqs user hfind]

theorem fallback_requests_of_user_witness :
    (seededFallbackWorld.primary = false ∨
        (sampleEnv.queryResult 0 = none ∧
          (jsStrictEq .undefined (.str "true") = true ∨
            truthy (.str "alice.johnson") = true))) ∧
      ((jsStrictEq .undefined (.str "true") = true →
          (getRequests sampleEnv (.str "alice.johnson") .undefined seededFallbackWorld).1 =
            .stored
              (initializeFallbackData (sampleEnv.isoNow 0)
                seededFallbackWorld.memoryCache).requests) ∧
        (jsStrictEq .undefined (.str "true") = false →
          (∀ user : User,
            jsFind (fun u => jsStrictEq u.username (.str "alice.johnson"))
                (initializeFallbackData (sampleEnv.isoNow 0)
                  seededFallbackWorld.memoryCache).users = some user →
              user ∈ (initializeFallbackData (sampleEnv.isoNow 0)
                  seededFallbackWorld.memoryCache).users ∧
              jsStrictEq user.username (.str "alice.johnson") = true ∧
              (getRequests sampleEnv (.str "alice.johnson") .undefined seededFallbackWorld).1 =
                .stored ((initializeFallbackData (sampleEnv.isoNow 0)
                    seededFallbackWorld.memoryCache).requests.filter
                  fun r => r.user_id.eqNat user.id)) ∧
          ((∀ u ∈ (initializeFallbackData (sampleEnv.isoNow 0)
                seededFallbackWorld.memoryCache).users,
              jsStrictEq u.username (.str "alice.johnson") = false) →
            (getRequests sampleEnv (.str "alice.johnson") .undefined seededFallbackWorld).1 =
              .stored []) ∧
          (∀ (env2 : Env) (w2 : World), w2.primary = false →
            (initializeFallbackData (env2.isoNow 0) w2.memoryCache).users =
              (initializeFallbackData (sampleEnv.isoNow 0)
                seededFallbackWorld.memoryCache).users →
            (∀ user : User,
              jsFind (fun u => jsStrictEq u.username (.str "alice.johnson"))
                  (initializeFallbackData (sampleEnv.isoNow 0)
                    seededFallbackWorld.memoryCache).users = some user →
              (initializeFallbackData (env2.isoNow 0) w2.memoryCache).requests.filter
                  (fun r => r.user_id.eqNat user.id) =
                (initializeFallbackData (sampleEnv.isoNow 0)
                  seededFallbackWorld.memoryCache).requests.filter
                  (fun r => r.user_id.eqNat user.id)) →
            (getRequests env2 (.str "alice.johnson") .undefined w2).1 =
              (getRequests sampleEnv (.str "alice.johnson") .undefined
                seededFallbackWorld).1)) ∧
        (getRequests sampleEnv (.str "alice.johnson") .undefined
            seededFallbackWorld).2.memoryCache =
          initializeFallbackData (sampleEnv.isoNow 0) seededFallbackWorld.memoryCache) :=
  ⟨Or.inl (by decide),
    fallback_requests_of_user sampleEnv (.str "alice.johnson") .undefined seededFallbackWorld
      (Or.inl (by decide))⟩

/-! ## What the handlers do to the fallback store -/

theorem executeQuery_memoryCache {res : Option (List (List (Option String)))} {w : World}
    {sql : String} {ps : List JsVal} {rows : List (List (Option String))} {w1 : World}
    (h : executeQuery res w sql ps = some (rows, w1)) : w1.memoryCache = w.memoryCache := by
  rw [executeQuery_some h]

theorem logStatusHistory_memoryCache (result : Option (List (List (Option String))))
    (w : World) (requestId : String) (oldStatus : JsVal) (newStatus : String)
    (changedBy notes : JsVal) :
    (logStatusHistory result w requestId oldStatus newStatus changedBy notes).memoryCache =
      w.memoryCache := by
  rcases logStatusHistory_cases result w requestId oldStatus newStatus changedBy notes with
    h | h <;> rw [h]

theorem syncDatabase_memoryCache (result : Option (List (List (Option String)))) (w : World) :
    (syncDatabase result w).memoryCache = w.memoryCache := by
  rcases syncDatabase_cases result w with h | h <;> rw [h]

theorem initializeFallbackData_of_initialized (now : String) (m : MemoryCache)
    (h : m.initialized = true) : initializeFallbackData now m = m := by
  simp [initializeFallbackData, h]

/-- On an initialised store, the fallback creation leaves the store as it is or
appends one request whose id is `nextRequestId`. -/
theorem createInFallback_cache (env : Env) (b : CreateBody) (requestId : String) (w : World)
    (hinit : w.memoryCache.initialized = true) :
    (createInFallback env b requestId w).2.memoryCache = w.memoryCache ∨
      ∃ r : Request, r.id = nextRequestId w.memoryCache.requests ∧
        (createInFallback env b requestId w).2.memoryCache =
          { w.memoryCache with requests := w.memoryCache.requests ++ [r] } := by
  simp only [createInFallback, ensureInitialized_of_initialized _ _ hinit]
  cases hn : newRequest env b requestId (nextRequestId w.memoryCache.requests) with
  | none => exact Or.inl rfl
  | some r => exact Or.inr ⟨r, (newRequest_fields env b _ _ r hn).1, rfl⟩

/-- On an initialised store, `POST /api/requests` leaves the store as it is or
appends one request whose id is `nextRequestId`. -/
theorem postRequest_cache (env : Env) (b : CreateBody) (w : World)
    (hinit : w.memoryCache.initialized = true) :
    (postRequest env b w).2.memoryCache = w.memoryCache ∨
      ∃ r : Request, r.id = nextRequestId w.memoryCache.requests ∧
        (postRequest env b w).2.memoryCache =
          { w.memoryCache with requests := w.memoryCache.requests ++ [r] } := by
  cases h1 : missingRequiredFields b with
  | true => exact Or.inl (by simp [postRequest, h1])
  | false =>
    cases h2 : validateString b.requestorName 1 100 with
    | false => exact Or.inl (by simp [postRequest, h1, h2])
    | true =>
      cases h3 : validateEmail b.requestorEmail with
      | none => exact Or.inl (by simp [postRequest, h1, h2, h3])
      | some v =>
        cases v with
        | false => exact Or.inl (by simp [postRequest, h1, h2, h3])
        | true =>
          rw [postRequest_of_valid env b w h1 h2 h3]
          cases hp : w.primary with
          | false =>
            simp only [Bool.false_eq_true, if_false]
            exact createInFallback_cache env b _ w hinit
          | true =>
            simp only [if_true]
            cases hq : (insertRequestParams b (generateRequestId env.dateNow env.uuid)).bind
                (executeQuery (env.queryResult 0) w insertRequestQuery) with
            | none =>
              simp only []
              have hw : ({ w with memoryCache :=
                  initializeFallbackData (env.isoNow 0) w.memoryCache } : World) = w := by
                rw [initializeFallbackData_of_initialized _ _ hinit]
              rw [hw]
              exact createInFallback_cache env b _ w hinit
            | some p =>
              obtain ⟨rows, w1⟩ := p
              left
              simp only [syncDatabase_memoryCache, logStatusHistory_memoryCache]
              cases hpar : insertRequestParams b (generateRequestId env.dateNow env.uuid) with
              | none => simp [hpar] at hq
              | some ps =>
                rw [hpar] at hq
                exact executeQuery_memoryCache hq

/-- On an initialised store, the fallback registration leaves the store as it is
or appends one user whose id is `nextUserId`. -/
theorem registerInFallback_cache (env : Env) (b : RegisterBody) (w : World)
    (hinit : w.memoryCache.initialized = true) :
    (registerInFallback env b w).2.memoryCache = w.memoryCache ∨
      (registerInFallback env b w).2.memoryCache =
        { w.memoryCache with
          users := w.memoryCache.users ++ [newUser env b (nextUserId w.memoryCache.users)] } := by
  simp only [registerInFallback, ensureInitialized_of_initialized _ _ hinit]
  cases jsFind (fun u => jsStrictEq u.username b.username) w.memoryCache.users with
  | some u => exact Or.inl rfl
  | none => exact Or.inr rfl

/-- On an initialised store, `POST /api/auth/register` leaves the store as it is
or appends one user whose id is `nextUserId`. -/
theorem postRegister_cache (env : Env) (b : RegisterBody) (w : World)
    (hinit : w.memoryCache.initialized = true) :
    (postRegister env b w).2.memoryCache = w.memoryCache ∨
      (postRegister env b w).2.memoryCache =
        { w.memoryCache with
          users := w.memoryCache.users ++ [newUser env b (nextUserId w.memoryCache.users)] } := by
  unfold postRegister
  split
  · exact Or.inl rfl
  · split
    · exact Or.inl rfl
    · split
      · exact Or.inl rfl
      · split
        · exact Or.inl rfl
        · exact Or.inl rfl
        · split
          · exact Or.inl rfl
          · split
            · split
              · next rows w1 hq =>
                have hm1 := executeQuery_memoryCache hq
                split
                · exact Or.inl hm1
                · split
                  · next rows2 w2 hq2 =>
                    left
                    rw [syncDatabase_memoryCache, executeQuery_memoryCache hq2, hm1]
                  · have hinit1 : w1.memoryCache.initialized = true := by rw [hm1]; exact hinit
                    have hw : ({ w1 with memoryCache :=
                        initializeFallbackData (env.isoNow 0) w1.memoryCache } : World) = w1 := by
                      rw [initializeFallbackData_of_initialized _ _ hinit1]
                    rw [hw, ← hm1]
                    exact registerInFallback_cache env b w1 hinit1
              · have hw : ({ w with memoryCache :=
                    initializeFallbackData (env.isoNow 0) w.memoryCache } : World) = w := by
                  rw [initializeFallbackData_of_initialized _ _ hinit]
                rw [hw]
                exact registerInFallback_cache env b w hinit
            · exact registerInFallback_cache env b w hinit

/-! ## Numeric ids in the fallback store -/

theorem id_lt_nextUserId (l : List User) (u : User) (h : u ∈ l) : u.id < nextUserId l := by
  have := (le_foldl_max (l.map (·.id)) 0).2 u.id (List.mem_map_of_mem _ h)
  unfold nextUserId
  omega

theorem foldl_max_mem (l : List Nat) (a : Nat) : l.foldl max a = a ∨ l.foldl max a ∈ l := by
  induction l generalizing a with
  | nil => exact Or.inl rfl
  | cons y ys ih =>
    simp only [List.foldl_cons, List.mem_cons]
    rcases ih (max a y) with h | h
    · rcases Nat.le_total a y with hay | hay
      · rw [h]
        exact Or.inr (Or.inl (Nat.max_eq_right hay))
      · rw [h]
        exact Or.inl (Nat.max_eq_left hay)
    · exact Or.inr (Or.inr h)

/-- The largest element of a non-empty list of ids is `foldl max 0`. -/
theorem foldl_max_zero_mem (l : List Nat) (hne : l ≠ []) : l.foldl max 0 ∈ l := by
  rcases foldl_max_mem l 0 with h | h
  · cases l with
    | nil => exact absurd rfl hne
    | cons y ys =>
      have hy := (le_foldl_max (y :: ys) 0).2 y (List.mem_cons_self _ _)
      rw [h] at hy ⊢
      have : y = 0 := by omega
      rw [this]
      exact List.mem_cons_self _ _
  · exact h

theorem nodup_ids_append_request (l : List Request) (r : Request)
    (hnd : (l.map (·.id)).Nodup) (hid : r.id = nextRequestId l) :
    ((l ++ [r]).map (·.id)).Nodup := by
  rw [List.map_append, List.nodup_append]
  refine ⟨hnd, by simp, ?_⟩
  intro a ha hb
  simp only [List.map_cons, List.map_nil, List.mem_singleton] at hb
  obtain ⟨q, hq, rfl⟩ := List.mem_map.mp ha
  have := id_lt_nextRequestId l q hq
  omega

theorem nodup_ids_append_user (l : List User) (u : User)
    (hnd : (l.map (·.id)).Nodup) (hid : u.id = nextUserId l) :
    ((l ++ [u]).map (·.id)).Nodup := by
  rw [List.map_append, List.nodup_append]
  refine ⟨hnd, by simp, ?_⟩
  intro a ha hb
  simp only [List.map_cons, List.map_nil, List.mem_singleton] at hb
  obtain ⟨q, hq, rfl⟩ := List.mem_map.mp ha
  have := id_lt_nextUserId l q hq
  omega

/-- The invariant of the stores reachable by registrations and creations. -/
theorem reachableByCreation_invariant (m : MemoryCache) (h : ReachableByCreation m) :
    m.initialized = true ∧ (m.users.map (·.id)).Nodup ∧ (m.requests.map (·.id)).Nodup ∧
      m.users ≠ [] ∧ m.requests ≠ [] := by
  induction h with
  | seed now =>
    have e : initializeFallbackData now emptyCache =
        { users := seedUsers, requests := [seedRequest now], initialized := true } := rfl
    rw [e]
    have hu : (seedUsers.map (·.id)).Nodup := by decide
    have hne : seedUsers ≠ [] := by decide
    exact ⟨rfl, hu, by simp, hne, by simp⟩
  | register env b w _ ih =>
    obtain ⟨hinit, hu, hr, hune, hrne⟩ := ih
    rcases postRegister_cache env b w hinit with h | h
    · rw [h]
      exact ⟨hinit, hu, hr, hune, hrne⟩
    · rw [h]
      exact ⟨hinit, nodup_ids_append_user _ _ hu rfl, hr, by simp, hrne⟩
  | create env b w _ ih =>
    obtain ⟨hinit, hu, hr, hune, hrne⟩ := ih
    rcases postRequest_cache env b w hinit with h | ⟨r, hid, h⟩
    · rw [h]
      exact ⟨hinit, hu, hr, hune, hrne⟩
    · rw [h]
      exact ⟨hinit, hu, nodup_ids_append_request _ _ hr hid, hune, by simp⟩

/-- C25: in every fallback store reachable from the seed by registrations and
request creations the ids of the users are pairwise distinct and the ids of the
requests are pairwise distinct.  A registration or creation on such a store
leaves it as it is or appends one record, whose id is one more than
`foldl max 0` of the ids present; that number is the largest id present, and it
is 0 for an empty collection, which gives the id 1. -/
theorem reachable_ids_distinct (m : MemoryCache) (h : ReachableByCreation m) :
    (m.users.map (·.id)).Nodup ∧ (m.requests.map (·.id)).Nodup ∧
      (∀ (env : Env) (b : RegisterBody) (w : World), w.memoryCache = m →
        (postRegister env b w).2.memoryCache = m ∨
          ∃ u : User, u.id = (m.users.map (·.id)).foldl max 0 + 1 ∧
            (postRegister env b w).2.memoryCache = { m with users := m.users ++ [u] }) ∧
      (∀ (env : Env) (b : CreateBody) (w : World), w.memoryCache = m →
        (postRequest env b w).2.memoryCache = m ∨
          ∃ r : Request, r.id = (m.requests.map (·.id)).foldl max 0 + 1 ∧
            (postRequest env b w).2.memoryCache = { m with requests := m.requests ++ [r] }) ∧
      ((m.users.map (·.id)).foldl max 0 ∈ m.users.map (·.id) ∧
        ∀ u ∈ m.users, u.id ≤ (m.users.map (·.id)).foldl max 0) ∧
      ((m.requests.map (·.id)).foldl max 0 ∈ m.requests.map (·.id) ∧
        ∀ r ∈ m.requests, r.id ≤ (m.requests.map (·.id)).foldl max 0) ∧
      nextUserId [] = 1 ∧ nextRequestId [] = 1 := by
  obtain ⟨hinit, hu, hr, hune, hrne⟩ := reachableByCreation_invariant m h
  refine ⟨hu, hr, ?_, ?_, ⟨?_, ?_⟩, ⟨?_, ?_⟩, rfl, rfl⟩
  · intro env b w hw
    subst hw
    rcases postRegister_cache env b w hinit with h1 | h1
    · exact Or.inl h1
    · exact Or.inr ⟨_, rfl, h1⟩
  · intro env b w hw
    subst hw
    rcases postRequest_cache env b w hinit with h1 | ⟨r, hid, h1⟩
    · exact Or.inl h1
    · exact Or.inr ⟨r, hid, h1⟩
  · exact foldl_max_zero_mem _ (by simpa using hune)
  · intro u hu1
    exact (le_foldl_max (m.users.map (·.id)) 0).2 u.id (List.mem_map_of_mem _ hu1)
  · exact foldl_max_zero_mem _ (by simpa using hrne)
  · intro r hr1
    exact (le_foldl_max (m.requests.map (·.id)) 0).2 r.id (List.mem_map_of_mem _ hr1)

theorem reachable_ids_distinct_witness :
    ReachableByCreation registeredOnceCache ∧
      ((registeredOnceCache.users.map (·.id)).Nodup ∧
        (registeredOnceCache.requests.map (·.id)).Nodup ∧
        (∀ (env : Env) (b : RegisterBody) (w : World), w.memoryCache = registeredOnceCache →
          (postRegister env b w).2.memoryCache = registeredOnceCache ∨
            ∃ u : User, u.id = (registeredOnceCache.users.map (·.id)).foldl max 0 + 1 ∧
              (postRegister env b w).2.memoryCache =
                { registeredOnceCache with users := registeredOnceCache.users ++ [u] }) ∧
        (∀ (env : Env) (b : CreateBody) (w : World), w.memoryCache = registeredOnceCache →
          (postRequest env b w).2.memoryCache = registeredOnceCache ∨
            ∃ r : Request, r.id = (registeredOnceCache.requests.map (·.id)).foldl max 0 + 1 ∧
              (postRequest env b w).2.memoryCache =
                { registeredOnceCache with requests := registeredOnceCache.requests ++ [r] }) ∧
        ((registeredOnceCache.users.map (·.id)).foldl max 0 ∈
            registeredOnceCache.users.map (·.id) ∧
          ∀ u ∈ registeredOnceCache.users,
            u.id ≤ (registeredOnceCache.users.map (·.id)).foldl max 0) ∧
        ((registeredOnceCache.requests.map (·.id)).foldl max 0 ∈
            registeredOnceCache.requests.map (·.id) ∧
          ∀ r ∈ registeredOnceCache.requests,
            r.id ≤ (registeredOnceCache.requests.map (·.id)).foldl max 0) ∧
        nextUserId [] = 1 ∧ nextRequestId [] = 1) :=
  ⟨ReachableByCreation.register sampleEnv sampleRegisterBody seededFallbackWorld
      (ReachableByCreation.seed "2024-03-01T09:00:00.000Z"),
    reachable_ids_distinct registeredOnceCache
      (ReachableByCreation.register sampleEnv sampleRegisterBody seededFallbackWorld
        (ReachableByCreation.seed "2024-03-01T09:00:00.000Z"))⟩

/-! ## The status of a user -/

theorem mem_updateAt {α : Type} (f : α → α) (i : Nat) (l : List α) (x : α)
    (h : x ∈ updateAt f i l) : x ∈ l ∨ ∃ y ∈ l, x = f y := by
  induction l generalizing i with
  | nil => simp [updateAt] at h
  | cons a as ih =>
    cases i with
    | zero =>
      simp only [updateAt, List.mem_cons] at h
      rcases h with h | h
      · exact Or.inr ⟨a, List.mem_cons_self _ _, h⟩
      · exact Or.inl (List.mem_cons_of_mem _ h)
    | succ k =>
      simp only [updateAt, List.mem_cons] at h
      rcases h with h | h
      · exact Or.inl (by rw [h]; exact List.mem_cons_self _ _)
      · rcases ih k h with h1 | ⟨y, hy, hxy⟩
        · exact Or.inl (List.mem_cons_of_mem _ h1)
        · exact Or.inr ⟨y, List.mem_cons_of_mem _ hy, hxy⟩

/-- On an initialised store, the fallback branch of the user-status handler
leaves the store as it is or writes an accepted status to one user. -/
theorem userStatusInFallback_cache (env : Env) (id status : String) (w : World)
    (hinit : w.memoryCache.initialized = true) :
    (userStatusInFallback env id status w).2.memoryCache = w.memoryCache ∨
      ∃ i, (userStatusInFallback env id status w).2.memoryCache =
        { w.memoryCache with
          users := updateAt (applyUserStatus status (env.isoNow 1)) i w.memoryCache.users } := by
  simp only [userStatusInFallback, ensureInitialized_of_initialized _ _ hinit]
  cases findIndex (fun u => looseEqNatStr u.id id) w.memoryCache.users with
  | none => exact Or.inl rfl
  | some i => exact Or.inr ⟨i, rfl⟩

/-- On an initialised store, `PUT /api/admin/users/:id/status` leaves the store
as it is or writes one of `pending`, `approved`, `disabled` to one user. -/
theorem putUserStatus_cache (env : Env) (id : String) (status : JsVal) (w : World)
    (hinit : w.memoryCache.initialized = true) :
    (putUserStatus env id status w).2.memoryCache = w.memoryCache ∨
      ∃ (s : String) (i : Nat), s ∈ userStatuses ∧
        (putUserStatus env id status w).2.memoryCache =
          { w.memoryCache with
            users := updateAt (applyUserStatus s (env.isoNow 1)) i w.memoryCache.users } := by
  cases status with
  | str s =>
    cases hv : userStatuses.contains s with
    | false =>
      left
      simp only [putUserStatus, hv, Bool.not_false, if_true]
    | true =>
      have hmem : s ∈ userStatuses := by simpa using hv
      have hfb : (userStatusInFallback env id s w).2.memoryCache = w.memoryCache ∨
          ∃ (s1 : String) (i : Nat), s1 ∈ userStatuses ∧
            (userStatusInFallback env id s w).2.memoryCache =
              { w.memoryCache with
                users := updateAt (applyUserStatus s1 (env.isoNow 1)) i w.memoryCache.users } := by
        rcases userStatusInFallback_cache env id s w hinit with h | ⟨i, h⟩
        · exact Or.inl h
        · exact Or.inr ⟨s, i, hmem, h⟩
      simp only [putUserStatus, hv, Bool.not_true, Bool.false_eq_true, if_false]
      cases hp : w.primary with
      | false =>
        simp only [Bool.false_eq_true, if_false]
        exact hfb
      | true =>
        simp only [if_true]
        cases hq : executeQuery (env.queryResult 0) w userStatusUpdateQuery [.str s, .str id] with
        | some p =>
          obtain ⟨rows, w1⟩ := p
          exact Or.inl (executeQuery_memoryCache hq)
        | none =>
          have hw : ({ w with memoryCache :=
              initializeFallbackData (env.isoNow 0) w.memoryCache } : World) = w := by
            rw [initializeFallbackData_of_initialized _ _ hinit]
          simp only [hw]
          exact hfb
  | undefined => exact Or.inl rfl
  | null => exact Or.inl rfl
  | bool b => exact Or.inl rfl
  | num x => exact Or.inl rfl
  | other t => exact Or.inl rfl

/-- The invariant of the stores reachable by registrations and updates of a
user's status. -/
theorem reachableByUserUpdates_invariant (m : MemoryCache) (h : ReachableByUserUpdates m) :
    m.initialized = true ∧ ∀ u ∈ m.users, u.status ∈ userStatuses := by
  induction h with
  | seed now =>
    have e : initializeFallbackData now emptyCache =
        { users := seedUsers, requests := [seedRequest now], initialized := true } := rfl
    rw [e]
    have hs : ∀ u ∈ seedUsers, u.status ∈ userStatuses := by decide
    exact ⟨rfl, hs⟩
  | register env b w _ ih =>
    obtain ⟨hinit, hst⟩ := ih
    rcases postRegister_cache env b w hinit with h | h
    · rw [h]
      exact ⟨hinit, hst⟩
    · rw [h]
      refine ⟨hinit, ?_⟩
      intro u hu
      rcases List.mem_append.mp hu with h1 | h1
      · exact hst u h1
      · rw [List.mem_singleton] at h1
        rw [h1]
        simp [newUser, userStatuses]
  | userStatus env id status w _ ih =>
    obtain ⟨hinit, hst⟩ := ih
    rcases putUserStatus_cache env id status w hinit with h | ⟨s, i, hs, h⟩
    · rw [h]
      exact ⟨hinit, hst⟩
    · rw [h]
      refine ⟨hinit, ?_⟩
      intro u hu
      rcases mem_updateAt _ _ _ _ hu with h1 | ⟨y, _, hy⟩
      · exact hst u h1
      · rw [hy]
        exact hs

/-- On an initialised store whose users all carry one of the three statuses, the
fallback authentication answers every call. -/
theorem loginInFallback_answers (env : Env) (b : LoginBody) (w : World)
    (hinit : w.memoryCache.initialized = true)
    (hst : ∀ u ∈ w.memoryCache.users, u.status ∈ userStatuses) :
    (loginInFallback env b w).1 ≠ .noAnswer ∧
      ∀ user : User,
        jsFind (fun u => jsStrictEq u.username b.username) w.memoryCache.users = some user →
        jsStrictEq user.password b.password = true →
          (user.status = "approved" ∧ ∃ p, (loginInFallback env b w).1 = .success p) ∨
          (user.status = "pending" ∧ (loginInFallback env b w).1 = .failed 403 pendingMessage) ∨
          (user.status = "disabled" ∧
            (loginInFallback env b w).1 = .failed 403 disabledMessage) := by
  simp only [loginInFallback, ensureInitialized_of_initialized _ _ hinit]
  cases hf : jsFind (fun u => jsStrictEq u.username b.username) w.memoryCache.users with
  | none => exact ⟨by simp, fun user hu => absurd hu (by simp)⟩
  | some user =>
    have hmem := (jsFind_some_mem _ _ _ hf).1
    have hs := hst user hmem
    simp only [userStatuses, List.mem_cons, List.mem_singleton, List.not_mem_nil,
      or_false] at hs
    cases hpw : jsStrictEq user.password b.password with
    | false =>
      refine ⟨by simp [hpw], ?_⟩
      intro u hu hp
      rw [Option.some.injEq] at hu
      subst hu
      rw [hpw] at hp
      exact absurd hp (by decide)
    | true =>
      rcases hs with hs | hs | hs
      · refine ⟨by simp [hpw, hs], ?_⟩
        intro u hu _
        rw [Option.some.injEq] at hu
        subst hu
        exact Or.inr (Or.inl ⟨hs, by simp [hpw, hs]⟩)
      · refine ⟨by simp [hpw, hs], ?_⟩
        intro u hu _
        rw [Option.some.injEq] at hu
        subst hu
        refine Or.inl ⟨hs, ⟨JsNum.ofNat user.id, user.name, user.username, user.email,
          user.team, user.isAdmin == 1, user.description⟩, ?_⟩
        simp [hpw, hs]
      · refine ⟨by simp [hpw, hs], ?_⟩
        intro u hu _
        rw [Option.some.injEq] at hu
        subst hu
        exact Or.inr (Or.inr ⟨hs, by simp [hpw, hs]⟩)

/-- On such a store the login handler answers every call, whichever backend it
asks first. -/
theorem postLogin_answers (env : Env) (b : LoginBody) (w : World)
    (hinit : w.memoryCache.initialized = true)
    (hst : ∀ u ∈ w.memoryCache.users, u.status ∈ userStatuses) :
    (postLogin env b w).1 ≠ .noAnswer := by
  have hfb : ∀ w1 : World, w1.memoryCache = w.memoryCache →
      (loginInFallback env b w1).1 ≠ .noAnswer := by
    intro w1 hm
    exact (loginInFallback_answers env b w1 (by rw [hm]; exact hinit)
      (by rw [hm]; exact hst)).1
  unfold postLogin
  split
  · simp
  · split
    · split
      · next rows w1 hq =>
        have hm1 := executeQuery_memoryCache hq
        split
        · simp only []
          split
          · split
            · simp
            · split
              · simp
              · split
                · simp
                · exact hfb w1 hm1
          · exact hfb w1 hm1
        · exact hfb w1 hm1
      · apply hfb
        exact initializeFallbackData_of_initialized _ _ hinit
    · exact hfb w rfl

/-- C26: in every fallback store reachable from the seed by registrations and
updates of a user's status, the status of every user is `pending`, `approved` or
`disabled`.  On such a store the fallback authentication, and the login handler
as a whole, answer every call; a call whose password equals the one stored for
the first user with its username is answered with the profile when that user is
approved and with 403 when the user is pending or disabled. -/
theorem reachable_user_statuses (m : MemoryCache) (h : ReachableByUserUpdates m) :
    (∀ u ∈ m.users, u.status = "pending" ∨ u.status = "approved" ∨ u.status = "disabled") ∧
      (∀ (env : Env) (b : LoginBody) (w : World), w.memoryCache = m →
        (loginInFallback env b w).1 ≠ .noAnswer ∧ (postLogin env b w).1 ≠ .noAnswer) ∧
      (∀ (env : Env) (b : LoginBody) (w : World) (user : User), w.memoryCache = m →
        jsFind (fun u => jsStrictEq u.username b.username) m.users = some user →
        jsStrictEq user.password b.password = true →
          (user.status = "approved" ∧ ∃ p, (loginInFallback env b w).1 = .success p) ∨
          (user.status = "pending" ∧ (loginInFallback env b w).1 = .failed 403 pendingMessage) ∨
          (user.status = "disabled" ∧
            (loginInFallback env b w).1 = .failed 403 disabledMessage)) := by
  obtain ⟨hinit, hst⟩ := reachableByUserUpdates_invariant m h
  refine ⟨?_, ?_, ?_⟩
  · intro u hu
    simpa [userStatuses] using hst u hu
  · intro env b w hw
    subst hw
    exact ⟨(loginInFallback_answers env b w hinit hst).1, postLogin_answers env b w hinit hst⟩
  · intro env b w user hw hf hp
    subst hw
    exact (loginInFallback_answers env b w hinit hst).2 user hf hp

theorem reachable_user_statuses_witness :
    ReachableByUserUpdates disabledAliceCache ∧
      ((∀ u ∈ disabledAliceCache.users,
          u.status = "pending" ∨ u.status = "approved" ∨ u.status = "disabled") ∧
        (∀ (env : Env) (b : LoginBody) (w : World), w.memoryCache = disabledAliceCache →
          (loginInFallback env b w).1 ≠ .noAnswer ∧ (postLogin env b w).1 ≠ .noAnswer) ∧
        (∀ (env : Env) (b : LoginBody) (w : World) (user : User),
          w.memoryCache = disabledAliceCache →
          jsFind (fun u => jsStrictEq u.username b.username) disabledAliceCache.users =
            some user →
          jsStrictEq user.password b.password = true →
            (user.status = "approved" ∧ ∃ p, (loginInFallback env b w).1 = .success p) ∨
            (user.status = "pending" ∧
              (loginInFallback env b w).1 = .failed 403 pendingMessage) ∨
            (user.status = "disabled" ∧
              (loginInFallback env b w).1 = .failed 403 disabledMessage))) :=
  ⟨ReachableByUserUpdates.userStatus sampleEnv "2" (.str "disabled") seededFallbackWorld
      (ReachableByUserUpdates.seed "2024-03-01T09:00:00.000Z"),
    reachable_user_statuses disabledAliceCache
      (ReachableByUserUpdates.userStatus sampleEnv "2" (.str "disabled") seededFallbackWorld
        (ReachableByUserUpdates.seed "2024-03-01T09:00:00.000Z"))⟩

/-! ## Matching by derivatives -/

theorem Re.matches_eps {s : List Char} : Re.Matches .eps s ↔ s = [] := by
  constructor
  · intro h
    cases h
    rfl
  · rintro rfl
    exact .eps

theorem Re.matches_cls {p : Char → Bool} {s : List Char} :
    Re.Matches (.cls p) s ↔ ∃ c, s = [c] ∧ p c = true := by
  constructor
  · intro h
    cases h with
    | cls _ c hc => exact ⟨c, rfl, hc⟩
  · rintro ⟨c, rfl, hc⟩
    exact .cls p c hc

theorem Re.matches_seq {a b : Re} {s : List Char} :
    Re.Matches (.seq a b) s ↔ ∃ s1 s2, s = s1 ++ s2 ∧ Re.Matches a s1 ∧ Re.Matches b s2 := by
  constructor
  · intro h
    cases h with
    | seq h1 h2 => exact ⟨_, _, rfl, h1, h2⟩
  · rintro ⟨s1, s2, rfl, h1, h2⟩
    exact .seq h1 h2

theorem Re.matches_alt {a b : Re} {s : List Char} :
    Re.Matches (.alt a b) s ↔ Re.Matches a s ∨ Re.Matches b s := by
  constructor
  · intro h
    cases h with
    | altLeft h1 => exact Or.inl h1
    | altRight h1 => exact Or.inr h1
  · rintro (h | h)
    · exact .altLeft h
    · exact .altRight h

theorem Re.matches_star_cons {a : Re} {c : Char} {s : List Char} :
    Re.Matches (.star a) (c :: s) ↔
      ∃ s1 s2, s = s1 ++ s2 ∧ Re.Matches a (c :: s1) ∧ Re.Matches (.star a) s2 := by
  constructor
  · intro h
    generalize hr : Re.star a = r at h
    generalize ht : c :: s = t at h
    induction h with
    | eps => cases hr
    | cls p d hd => cases hr
    | seq _ _ => cases hr
    | altLeft _ => cases hr
    | altRight _ => cases hr
    | starNil => cases ht
    | @starCons a1 u v h1 h2 _ ih2 =>
      cases hr
      cases u with
      | nil =>
        simp only [List.nil_append] at ht
        exact ih2 rfl ht
      | cons d u1 =>
        simp only [List.cons_append, List.cons.injEq] at ht
        obtain ⟨rfl, rfl⟩ := ht
        exact ⟨u1, v, rfl, h1, h2⟩
  · rintro ⟨s1, s2, rfl, h1, h2⟩
    exact .starCons h1 h2

theorem Re.nullable_iff (r : Re) : r.nullable = true ↔ Re.Matches r [] := by
  induction r with
  | none =>
    simp only [Re.nullable, Bool.false_eq_true, false_iff]
    intro h
    cases h
  | eps => simp [Re.nullable, Re.matches_eps]
  | cls p =>
    simp only [Re.nullable, Bool.false_eq_true, false_iff, Re.matches_cls]
    rintro ⟨c, hc, _⟩
    cases hc
  | seq a b iha ihb =>
    simp only [Re.nullable, Bool.and_eq_true, iha, ihb, Re.matches_seq]
    constructor
    · rintro ⟨h1, h2⟩
      exact ⟨[], [], rfl, h1, h2⟩
    · rintro ⟨s1, s2, hs, h1, h2⟩
      have h0 := List.append_eq_nil.mp hs.symm
      rw [h0.1] at h1
      rw [h0.2] at h2
      exact ⟨h1, h2⟩
  | alt a b iha ihb =>
    simp only [Re.nullable, Bool.or_eq_true, iha, ihb, Re.matches_alt]
  | star a _ =>
    simp only [Re.nullable, true_iff]
    exact .starNil

theorem Re.deriv_iff (r : Re) (c : Char) (s : List Char) :
    Re.Matches (r.deriv c) s ↔ Re.Matches r (c :: s) := by
  induction r generalizing s with
  | none =>
    simp only [Re.deriv]
    constructor <;> intro h <;> cases h
  | eps =>
    simp only [Re.deriv]
    constructor <;> intro h <;> cases h
  | cls p =>
    simp only [Re.deriv, Re.matches_cls]
    by_cases hp : p c = true
    · simp only [hp, if_true, Re.matches_eps]
      constructor
      · rintro rfl
        exact ⟨c, rfl, hp⟩
      · rintro ⟨d, hd, _⟩
        simp only [List.cons.injEq] at hd
        exact hd.2
    · simp only [hp, Bool.false_eq_true, if_false]
      constructor
      · intro h
        cases h
      · rintro ⟨d, hd, hpd⟩
        simp only [List.cons.injEq] at hd
        rw [← hd.1] at hpd
        exact absurd hpd hp
  | seq a b iha ihb =>
    have hright : Re.Matches (.seq a b) (c :: s) ↔
        (∃ s1 s2, s = s1 ++ s2 ∧ Re.Matches a (c :: s1) ∧ Re.Matches b s2) ∨
          (Re.Matches a [] ∧ Re.Matches b (c :: s)) := by
      rw [Re.matches_seq]
      constructor
      · rintro ⟨t1, t2, ht, h1, h2⟩
        cases t1 with
        | nil =>
          simp only [List.nil_append] at ht
          rw [← ht] at h2
          exact Or.inr ⟨h1, h2⟩
        | cons d t1 =>
          simp only [List.cons_append, List.cons.injEq] at ht
          obtain ⟨rfl, rfl⟩ := ht
          exact Or.inl ⟨t1, t2, rfl, h1, h2⟩
      · rintro (⟨s1, s2, rfl, h1, h2⟩ | ⟨h1, h2⟩)
        · exact ⟨c :: s1, s2, rfl, h1, h2⟩
        · exact ⟨[], c :: s, rfl, h1, h2⟩
    rw [hright]
    simp only [Re.deriv]
    by_cases hn : a.nullable = true
    · simp only [hn, if_true, Re.matches_alt, Re.matches_seq, iha, ihb]
      have hn2 := (Re.nullable_iff a).mp hn
      constructor
      · rintro (h | h)
        · exact Or.inl h
        · exact Or.inr ⟨hn2, h⟩
      · rintro (h | ⟨_, h⟩)
        · exact Or.inl h
        · exact Or.inr h
    · simp only [hn, Bool.false_eq_true, if_false, Re.matches_seq, iha]
      constructor
      · intro h
        exact Or.inl h
      · rintro (h | ⟨h, _⟩)
        · exact h
        · exact absurd ((Re.nullable_iff a).mpr h) hn
  | alt a b iha ihb =>
    simp only [Re.deriv, Re.matches_alt, iha, ihb]
  | star a iha =>
    simp only [Re.deriv, Re.matches_seq, iha, Re.matches_star_cons]

/-- The matcher by derivatives decides the language of the expression. -/
theorem Re.fullMatch_iff (r : Re) (s : List Char) : r.fullMatch s = true ↔ Re.Matches r s := by
  induction s generalizing r with
  | nil => simp only [Re.fullMatch, Re.nullable_iff]
  | cons c cs ih => simp only [Re.fullMatch, ih, Re.deriv_iff]

theorem Re.matches_star_cls {p : Char → Bool} {s : List Char} :
    Re.Matches (.star (.cls p)) s ↔ ∀ c ∈ s, p c = true := by
  induction s with
  | nil => simp only [List.not_mem_nil, false_implies, implies_true, iff_true]; exact .starNil
  | cons c cs ih =>
    rw [Re.matches_star_cons]
    constructor
    · rintro ⟨s1, s2, rfl, h1, h2⟩
      obtain ⟨d, hd, hpd⟩ := Re.matches_cls.mp h1
      simp only [List.cons.injEq] at hd
      obtain ⟨rfl, rfl⟩ := hd
      simp only [List.nil_append] at ih
      intro x hx
      rcases List.mem_cons.mp hx with rfl | hx
      · exact hpd
      · exact ih.mp h2 x hx
    · intro h
      refine ⟨[], cs, rfl, Re.matches_cls.mpr ⟨c, rfl, h c (List.mem_cons_self _ _)⟩, ?_⟩
      exact ih.mpr fun x hx => h x (List.mem_cons_of_mem _ hx)

theorem Re.matches_plus_cls {p : Char → Bool} {s : List Char} :
    Re.Matches (Re.plus (.cls p)) s ↔ s ≠ [] ∧ ∀ c ∈ s, p c = true := by
  unfold Re.plus
  rw [Re.matches_seq]
  constructor
  · rintro ⟨s1, s2, rfl, h1, h2⟩
    obtain ⟨d, rfl, hpd⟩ := Re.matches_cls.mp h1
    refine ⟨by simp, ?_⟩
    intro x hx
    rcases List.mem_cons.mp hx with rfl | hx
    · exact hpd
    · exact Re.matches_star_cls.mp h2 x hx
  · rintro ⟨hne, h⟩
    cases s with
    | nil => exact absurd rfl hne
    | cons c cs =>
      exact ⟨[c], cs, rfl, Re.matches_cls.mpr ⟨c, rfl, h c (List.mem_cons_self _ _)⟩,
        Re.matches_star_cls.mpr fun x hx => h x (List.mem_cons_of_mem _ hx)⟩

/-! ## The addresses `validateEmail` accepts -/

theorem notSpaceNorAt_iff (c : Char) :
    notSpaceNorAt c = true ↔ isJsWhitespace c = false ∧ c ≠ '@' := by
  simp [notSpaceNorAt]

/-- The language of the pattern of `validateEmail`. -/
theorem emailRegex_matches (s : List Char) :
    Re.Matches emailRegex s ↔
      ∃ user d1 d2 : List Char, s = user ++ '@' :: (d1 ++ '.' :: d2) ∧
        user ≠ [] ∧ d1 ≠ [] ∧ d2 ≠ [] ∧
        (∀ c ∈ user, isJsWhitespace c = false ∧ c ≠ '@') ∧
        (∀ c ∈ d1, isJsWhitespace c = false ∧ c ≠ '@') ∧
        (∀ c ∈ d2, isJsWhitespace c = false ∧ c ≠ '@') := by
  unfold emailRegex
  simp only [Re.matches_seq, Re.matches_plus_cls, Re.matches_cls, notSpaceNorAt_iff]
  constructor
  · rintro ⟨user, r1, rfl, ⟨hne, hu⟩, a, r2, rfl, ⟨c, rfl, hc⟩, d1, r3, rfl, ⟨hne1, hd1⟩,
      dot, d2, rfl, ⟨c2, rfl, hc2⟩, hne2, hd2⟩
    have e1 : c = '@' := by simpa using hc
    have e2 : c2 = '.' := by simpa using hc2
    subst e1 e2
    exact ⟨user, d1, d2, by simp, hne, hne1, hne2, hu, hd1, hd2⟩
  · rintro ⟨user, d1, d2, rfl, hne, hne1, hne2, hu, hd1, hd2⟩
    exact ⟨user, _, rfl, ⟨hne, hu⟩, ['@'], _, rfl, ⟨'@', rfl, by simp⟩, d1, _, rfl,
      ⟨hne1, hd1⟩, ['.'], d2, rfl, ⟨'.', rfl, by simp⟩, hne2, hd2⟩

theorem validateEmail_str (s : String) :
    validateEmail (.str s) = some (emailRegex.fullMatch s.data) := by
  simp [validateEmail, jsToString]

/-- C28: for a string `s`, `validateEmail(s)` is true exactly when `s` is
`user` + `@` + `d1` + `.` + `d2` with the three parts non-empty and free of
whitespace characters and of `@`; an accepted address therefore contains exactly
one `@` and no whitespace character, and every other string gives false.
`validateEmailField` of the dashboard accepts a value when its trimmed text is such
an address, or is empty in a field that is not required. -/
theorem validateEmail_accepts_exactly (s : String) :
    (validateEmail (.str s) = some true ↔
        ∃ user d1 d2 : List Char, s.data = user ++ '@' :: (d1 ++ '.' :: d2) ∧
          user ≠ [] ∧ d1 ≠ [] ∧ d2 ≠ [] ∧
          (∀ c ∈ user, isJsWhitespace c = false ∧ c ≠ '@') ∧
          (∀ c ∈ d1, isJsWhitespace c = false ∧ c ≠ '@') ∧
          (∀ c ∈ d2, isJsWhitespace c = false ∧ c ≠ '@')) ∧
      (validateEmail (.str s) = some true →
        s.data.count '@' = 1 ∧ ∀ c ∈ s.data, isJsWhitespace c = false) ∧
      (validateEmail (.str s) = some true ∨ validateEmail (.str s) = some false) ∧
      (∀ isRequired : Bool,
        validateEmailField s isRequired = true ↔
          (jsTrim s.data = [] ∧ isRequired = false) ∨
            validateEmail (.str (String.mk (jsTrim s.data))) = some true) := by
  have hiff : validateEmail (.str s) = some true ↔ Re.Matches emailRegex s.data := by
    rw [validateEmail_str, Option.some.injEq, Re.fullMatch_iff]
  refine ⟨?_, ?_, ?_, ?_⟩
  · rw [hiff, emailRegex_matches]
  · intro h
    obtain ⟨user, d1, d2, hs, -, -, -, hu, hd1, hd2⟩ :=
      (emailRegex_matches s.data).mp (hiff.mp h)
    rw [hs]
    constructor
    · have c1 : user.count '@' = 0 := List.count_eq_zero.mpr fun hm => (hu _ hm).2 rfl
      have c2 : d1.count '@' = 0 := List.count_eq_zero.mpr fun hm => (hd1 _ hm).2 rfl
      have c3 : d2.count '@' = 0 := List.count_eq_zero.mpr fun hm => (hd2 _ hm).2 rfl
      have hne : ('.' == '@') = false := by decide
      simp [List.count_append, List.count_cons, c1, c2, c3, hne]
    · intro c hc
      simp only [List.mem_append, List.mem_cons] at hc
      rcases hc with h1 | rfl | h1 | rfl | h1
      · exact (hu c h1).1
      · decide
      · exact (hd1 c h1).1
      · decide
      · exact (hd2 c h1).1
  · rw [validateEmail_str]
    cases emailRegex.fullMatch s.data
    · exact Or.inr rfl
    · exact Or.inl rfl
  · intro isRequired
    rw [validateEmail_str]
    simp only [validateEmailField, Option.some.injEq]
    have hnull : emailRegex.nullable = false := by decide
    cases hm : emailRegex.fullMatch (jsTrim s.data) <;> cases isRequired <;>
      cases ht : jsTrim s.data <;> simp_all [Re.fullMatch]

theorem validateEmail_accepts_exactly_witness :
    validateEmail (.str "ann.lee@mail.example.org") = some true ∧
      ("ann.lee@mail.example.org".data.count '@' = 1 ∧
        ∀ c ∈ "ann.lee@mail.example.org".data, isJsWhitespace c = false) :=
  ⟨by decide,
    (validateEmail_accepts_exactly "ann.lee@mail.example.org").2.1 (by decide)⟩

/-! ## Parsing of list-mode output -/

theorem intercalate_cons_cons (sep : Char) (x y : List Char) (r : List (List Char)) :
    List.intercalate [sep] (x :: y :: r) = x ++ sep :: List.intercalate [sep] (y :: r) := by
  simp [List.intercalate, List.intersperse]

theorem intercalate_singleton (sep : Char) (x : List Char) :
    List.intercalate [sep] [x] = x := by
  simp [List.intercalate, List.intersperse]

theorem jsSplit_intercalate_sep (sep : Char) (l : List (List Char)) (hne : l ≠ [])
    (h : ∀ x ∈ l, sep ∉ x) : jsSplit sep (List.intercalate [sep] l) = l := by
  induction l with
  | nil => exact absurd rfl hne
  | cons x rest ih =>
    cases rest with
    | nil =>
      rw [intercalate_singleton]
      exact jsSplit_of_not_mem _ _ (h x (List.mem_cons_self _ _))
    | cons y r =>
      have ih2 := ih (by simp) (fun z hz => h z (List.mem_cons_of_mem _ hz))
      rw [intercalate_cons_cons, jsSplit_append, ih2,
        jsSplit_of_not_mem _ _ (h x (List.mem_cons_self _ _))]
      rfl

theorem mem_intercalate_sep {sep c : Char} {l : List (List Char)}
    (h : c ∈ List.intercalate [sep] l) : c = sep ∨ ∃ x ∈ l, c ∈ x := by
  induction l with
  | nil => simp [List.intercalate, List.intersperse] at h
  | cons x rest ih =>
    cases rest with
    | nil =>
      rw [intercalate_singleton] at h
      exact Or.inr ⟨x, List.mem_cons_self _ _, h⟩
    | cons y r =>
      rw [intercalate_cons_cons, List.mem_append, List.mem_cons] at h
      rcases h with h | h | h
      · exact Or.inr ⟨x, List.mem_cons_self _ _, h⟩
      · exact Or.inl h
      · rcases ih h with h1 | ⟨z, hz, hc⟩
        · exact Or.inl h1
        · exact Or.inr ⟨z, List.mem_cons_of_mem _ hz, hc⟩

theorem intercalate_eq_nil {sep : Char} {x : List Char} {r : List (List Char)}
    (h : List.intercalate [sep] (x :: r) = []) : x = [] := by
  cases r with
  | nil => rwa [intercalate_singleton] at h
  | cons y r =>
    rw [intercalate_cons_cons] at h
    exact absurd h (by simp)

/-- The first character of a joined text is not whitespace when the parts begin
cleanly and either the separator is not whitespace or no part is empty. -/
theorem head_intercalate_clean (sep : Char) (l : List (List Char))
    (h : ∀ x ∈ l, x.head?.any isJsWhitespace = false)
    (hs : isJsWhitespace sep = false ∨ ∀ x ∈ l, x ≠ []) :
    (List.intercalate [sep] l).head?.any isJsWhitespace = false := by
  cases l with
  | nil => rfl
  | cons x rest =>
    cases rest with
    | nil =>
      rw [intercalate_singleton]
      exact h x (List.mem_cons_self _ _)
    | cons y r =>
      rw [intercalate_cons_cons]
      cases x with
      | nil =>
        rcases hs with hs | hs
        · simpa using hs
        · exact absurd rfl (hs [] (List.mem_cons_self _ _))
      | cons c t =>
        have := h (c :: t) (List.mem_cons_self _ _)
        simpa using this

/-- The last character of a joined text is not whitespace when the parts end
cleanly and either the separator is not whitespace or no part is empty. -/
theorem last_intercalate_clean (sep : Char) (l : List (List Char))
    (h : ∀ x ∈ l, x.getLast?.any isJsWhitespace = false)
    (hs : isJsWhitespace sep = false ∨ ∀ x ∈ l, x ≠ []) :
    (List.intercalate [sep] l).getLast?.any isJsWhitespace = false := by
  induction l with
  | nil => rfl
  | cons x rest ih =>
    cases rest with
    | nil =>
      rw [intercalate_singleton]
      exact h x (List.mem_cons_self _ _)
    | cons y r =>
      have ih2 := ih (fun z hz => h z (List.mem_cons_of_mem _ hz))
        (hs.imp id fun hall z hz => hall z (List.mem_cons_of_mem _ hz))
      rw [intercalate_cons_cons, List.getLast?_append_of_ne_nil _ (by simp)]
      cases ht : List.intercalate [sep] (y :: r) with
      | nil =>
        rcases hs with hs | hs
        · simpa using hs
        · exact absurd (intercalate_eq_nil ht)
            (hs y (List.mem_cons_of_mem _ (List.mem_cons_self _ _)))
      | cons d u =>
        rw [ht] at ih2
        rw [List.getLast?_cons_cons]
        exact ih2

theorem dropWhile_of_head_clean (l : List Char)
    (h : l.head?.any isJsWhitespace = false) : l.dropWhile isJsWhitespace = l := by
  cases l with
  | nil => rfl
  | cons c t =>
    have hc : isJsWhitespace c = false := by simpa using h
    simp [List.dropWhile, hc]

/-- Trimming leaves a text unchanged when it neither begins nor ends with a
whitespace character. -/
theorem jsTrim_of_clean_ends (l : List Char) (h1 : l.head?.any isJsWhitespace = false)
    (h2 : l.getLast?.any isJsWhitespace = false) : jsTrim l = l := by
  unfold jsTrim
  rw [dropWhile_of_head_clean l h1,
    dropWhile_of_head_clean l.reverse (by rw [List.head?_reverse]; exact h2),
    List.reverse_reverse]

/-- Trimming removes a line feed after a text that neither begins nor ends with a
whitespace character. -/
theorem jsTrim_line_feed_of_clean_ends (l : List Char)
    (h1 : l.head?.any isJsWhitespace = false)
    (h2 : l.getLast?.any isJsWhitespace = false) : jsTrim (l ++ [lineFeed]) = l := by
  have hlf : isJsWhitespace lineFeed = true := by decide
  unfold jsTrim
  have e1 : (l ++ [lineFeed]).dropWhile isJsWhitespace =
      if l = [] then [] else l ++ [lineFeed] := by
    cases l with
    | nil => simp [List.dropWhile, hlf]
    | cons c t =>
      have hc : isJsWhitespace c = false := by simpa using h1
      simp [List.dropWhile, hc]
  rw [e1]
  by_cases hl : l = []
  · subst hl; rfl
  · rw [if_neg hl, List.reverse_append, List.reverse_singleton, List.singleton_append,
      List.dropWhile_cons_of_pos hlf,
      dropWhile_of_head_clean l.reverse (by rw [List.head?_reverse]; exact h2),
      List.reverse_reverse]

theorem mem_dropWhile_of_not {p : Char → Bool} {c : Char} {l : List Char} (hc : c ∈ l)
    (hp : p c = false) : c ∈ l.dropWhile p := by
  induction l with
  | nil => exact absurd hc (List.not_mem_nil _)
  | cons d t ih =>
    by_cases hd : p d = true
    · rw [List.dropWhile_cons_of_pos hd]
      rcases List.mem_cons.mp hc with rfl | h
      · rw [hp] at hd; exact absurd hd (by decide)
      · exact ih h
    · rw [List.dropWhile_cons_of_neg hd]
      exact hc

/-- A text with a character that is not whitespace does not trim to the empty text. -/
theorem jsTrim_ne_nil {c : Char} {l : List Char} (hc : c ∈ l)
    (hw : isJsWhitespace c = false) : jsTrim l ≠ [] := by
  unfold jsTrim
  intro h
  have h1 : c ∈ ((l.dropWhile isJsWhitespace).reverse.dropWhile isJsWhitespace) :=
    mem_dropWhile_of_not (List.mem_reverse.mpr (mem_dropWhile_of_not hc hw)) hw
  rw [List.reverse_eq_nil_iff] at h
  rw [h] at h1
  exact absurd h1 (List.not_mem_nil _)

/-! ### Cells and rows -/

theorem claimedCell_not_mem {cell : Option String} (h : claimedCell cell = true) :
    '|' ∉ cellText cell ∧ lineFeed ∉ cellText cell := by
  cases cell with
  | none => simp [cellText]
  | some s =>
    simp only [claimedCell, Bool.and_eq_true, List.all_eq_true, bne_iff_ne, ne_eq] at h
    simp only [cellText]
    exact ⟨fun hm => (h.2 _ hm).1.1.1.1 rfl, fun hm => (h.2 _ hm).1.1.1.2 rfl⟩

theorem cleanCell_spec {cell : Option String} (h : cleanCell cell = true) :
    claimedCell cell = true ∧ (cellText cell).head?.any isJsWhitespace = false ∧
      (cellText cell).getLast?.any isJsWhitespace = false := by
  cases cell with
  | none => exact ⟨rfl, rfl, rfl⟩
  | some s =>
    simp only [cleanCell, Bool.and_eq_true, Bool.not_eq_true'] at h
    exact ⟨h.1.1, h.1.2, h.2⟩

theorem cell_of_text {cell : Option String} (h : claimedCell cell = true) :
    (if (cellText cell).isEmpty then none else some (String.mk (cellText cell))) = cell := by
  cases cell with
  | none => rfl
  | some s =>
    simp only [claimedCell, Bool.and_eq_true, Bool.not_eq_true'] at h
    simp [cellText, h.1]

theorem cleanRow_spec {row : List (Option String)} (h : cleanRow row = true) :
    row ≠ [] ∧ (∀ cell ∈ row, cleanCell cell = true) ∧ row ≠ [none] := by
  simp only [cleanRow, Bool.and_eq_true, Bool.not_eq_true', List.all_eq_true, bne_iff_ne,
    ne_eq, List.isEmpty_eq_false] at h
  exact ⟨h.1.1, h.1.2, h.2⟩

/-- The cells the parser reads from the line of a clean row. -/
theorem cells_of_line {row : List (Option String)} (h : cleanRow row = true) :
    ((jsSplit '|' (listModeLine row)).map fun val =>
      if val.isEmpty then none else some (String.mk val)) = row := by
  obtain ⟨hne, hall, -⟩ := cleanRow_spec h
  unfold listModeLine
  rw [jsSplit_intercalate_sep '|' _ (by simpa using hne), List.map_map]
  · conv_rhs => rw [← List.map_id row]
    apply List.map_congr_left
    intro cell hc
    exact cell_of_text (cleanCell_spec (hall cell hc)).1
  · intro x hx
    obtain ⟨cell, hc, rfl⟩ := List.mem_map.mp hx
    exact (claimedCell_not_mem (cleanCell_spec (hall cell hc)).1).1

/-- The line of a clean row: no line feed, a character that is not whitespace, and
clean ends. -/
theorem line_of_cleanRow {row : List (Option String)} (h : cleanRow row = true) :
    lineFeed ∉ listModeLine row ∧ jsTrim (listModeLine row) ≠ [] ∧
      listModeLine row ≠ [] ∧
      (listModeLine row).head?.any isJsWhitespace = false ∧
      (listModeLine row).getLast?.any isJsWhitespace = false := by
  obtain ⟨hne, hall, hnn⟩ := cleanRow_spec h
  have hbar : isJsWhitespace '|' = false := by decide
  have hnonblank : jsTrim (listModeLine row) ≠ [] := by
    cases row with
    | nil => exact absurd rfl hne
    | cons cell rest =>
      cases rest with
      | nil =>
        cases cell with
        | none => exact absurd rfl hnn
        | some s =>
          have hc := cleanCell_spec (hall (some s) (List.mem_cons_self _ _))
          have hs : s.data ≠ [] := by
            have := hc.1
            simp only [claimedCell, Bool.and_eq_true, Bool.not_eq_true'] at this
            intro e
            rw [e] at this
            exact absurd this.1 (by decide)
          obtain ⟨c, t, hct⟩ := List.exists_cons_of_ne_nil hs
          have hw : isJsWhitespace c = false := by
            have := hc.2.1
            simp only [cellText, hct] at this
            simpa using this
          have hl : listModeLine [some s] = c :: t := by
            simp [listModeLine, intercalate_singleton, cellText, hct]
          rw [hl]
          exact jsTrim_ne_nil (List.mem_cons_self _ _) hw
      | cons c2 r =>
        have hl : listModeLine (cell :: c2 :: r) =
            cellText cell ++ '|' :: listModeLine (c2 :: r) := by
          simp [listModeLine, intercalate_cons_cons]
        rw [hl]
        exact jsTrim_ne_nil (List.mem_append_right _ (List.mem_cons_self _ _)) hbar
  refine ⟨?_, hnonblank, ?_, ?_, ?_⟩
  · intro hm
    rcases mem_intercalate_sep hm with h1 | ⟨x, hx, hc⟩
    · exact absurd h1 (by decide)
    · obtain ⟨cell, hcell, rfl⟩ := List.mem_map.mp hx
      exact (claimedCell_not_mem (cleanCell_spec (hall cell hcell)).1).2 hc
  · intro e
    rw [e] at hnonblank
    exact hnonblank rfl
  · apply head_intercalate_clean _ _ _ (Or.inl hbar)
    intro x hx
    obtain ⟨cell, hcell, rfl⟩ := List.mem_map.mp hx
    exact (cleanCell_spec (hall cell hcell)).2.1
  · apply last_intercalate_clean _ _ _ (Or.inl hbar)
    intro x hx
    obtain ⟨cell, hcell, rfl⟩ := List.mem_map.mp hx
    exact (cleanCell_spec (hall cell hcell)).2.2

/-- The rows the parser reads from a text that trims to the joined lines of clean
rows. -/
theorem parse_of_trimmed (output : String) (rows : List (List (Option String)))
    (h : ∀ row ∈ rows, cleanRow row = true)
    (ht : jsTrim output.data = List.intercalate [lineFeed] (rows.map listModeLine)) :
    parseSelectOutput output = rows := by
  unfold parseSelectOutput
  rw [ht]
  cases hr : rows with
  | nil => rfl
  | cons r0 rest =>
    rw [← hr, jsSplit_intercalate_sep lineFeed _ (by simp [hr])]
    · rw [List.filter_eq_self.mpr, List.map_map]
      · conv_rhs => rw [← List.map_id rows]
        apply List.map_congr_left
        intro row hrow
        exact cells_of_line (h row hrow)
      · intro line hl
        obtain ⟨row, hrow, rfl⟩ := List.mem_map.mp hl
        have := (line_of_cleanRow (h row hrow)).2.1
        simpa using this
    · intro x hx
      obtain ⟨row, hrow, rfl⟩ := List.mem_map.mp hx
      exact (line_of_cleanRow (h row hrow)).1

theorem output_clean_ends (rows : List (List (Option String)))
    (h : ∀ row ∈ rows, cleanRow row = true) :
    (listModeOutput rows).data.head?.any isJsWhitespace = false ∧
      (listModeOutput rows).data.getLast?.any isJsWhitespace = false := by
  unfold listModeOutput
  constructor
  · apply head_intercalate_clean
    · intro x hx
      obtain ⟨row, hrow, rfl⟩ := List.mem_map.mp hx
      exact (line_of_cleanRow (h row hrow)).2.2.2.1
    · right
      intro x hx
      obtain ⟨row, hrow, rfl⟩ := List.mem_map.mp hx
      exact (line_of_cleanRow (h row hrow)).2.2.1
  · apply last_intercalate_clean
    · intro x hx
      obtain ⟨row, hrow, rfl⟩ := List.mem_map.mp hx
      exact (line_of_cleanRow (h row hrow)).2.2.2.2
    · right
      intro x hx
      obtain ⟨row, hrow, rfl⟩ := List.mem_map.mp hx
      exact (line_of_cleanRow (h row hrow)).2.2.1

/-! ### C27 -/

/-- C27, as stated, fails: rows whose cells are null or non-empty strings without
`|` or a line break are not always read back. A row that is a single null is
dropped, alone or between other rows, and whitespace at the beginning of the first
cell of the text is lost. -/
theorem parse_drops_null_row_and_outer_whitespace :
    ([[none]] : List (List (Option String))).all (fun row => row.all claimedCell) = true ∧
      parseSelectOutput (listModeOutput [[none]]) = [] ∧
      [[some "a"], [none], [some "b"]].all (fun row => row.all claimedCell) = true ∧
      parseSelectOutput (listModeOutput [[some "a"], [none], [some "b"]]) =
        [[some "a"], [some "b"]] ∧
      [[some " x", some "y"]].all (fun row => row.all claimedCell) = true ∧
      parseSelectOutput (listModeOutput [[some " x", some "y"]]) =
        [[some "x", some "y"]] := by
  decide

/-- C27, amended: for every list of rows that each have at least one cell and are
not a single null, with cells that are null or non-empty strings containing neither
`|` nor a line break and neither beginning nor ending with a whitespace character,
parsing the list-mode text (cells joined by `|`, null written as the empty string,
rows joined by line feeds, with or without a final line feed) returns the same
rows, so with the same number of cells each. -/
theorem parse_round_trips_clean_rows (rows : List (List (Option String)))
    (h : ∀ row ∈ rows, cleanRow row = true) :
    parseSelectOutput (listModeOutput rows) = rows ∧
      parseSelectOutput (String.mk ((listModeOutput rows).data ++ [lineFeed])) = rows ∧
      (parseSelectOutput (listModeOutput rows)).map List.length = rows.map List.length := by
  have hends := output_clean_ends rows h
  have h1 : parseSelectOutput (listModeOutput rows) = rows :=
    parse_of_trimmed _ rows h (jsTrim_of_clean_ends _ hends.1 hends.2)
  refine ⟨h1, ?_, by rw [h1]⟩
  exact parse_of_trimmed _ rows h (jsTrim_line_feed_of_clean_ends _ hends.1 hends.2)

theorem parse_round_trips_clean_rows_witness :
    (∀ row ∈ [[some "7", none, some "Ann Lee"], [none, none]], cleanRow row = true) ∧
      (parseSelectOutput (listModeOutput [[some "7", none, some "Ann Lee"], [none, none]]) =
          [[some "7", none, some "Ann Lee"], [none, none]] ∧
        parseSelectOutput (String.mk
            ((listModeOutput [[some "7", none, some "Ann Lee"], [none, none]]).data ++
              [lineFeed])) =
          [[some "7", none, some "Ann Lee"], [none, none]] ∧
        (parseSelectOutput
            (listModeOutput [[some "7", none, some "Ann Lee"], [none, none]])).map List.length =
          [[some "7", none, some "Ann Lee"], [none, none]].map List.length) :=
  ⟨by decide, parse_round_trips_clean_rows _ (by decide)⟩

end RequestHtml
